import Mathlib

/-!
# Particle simulation: the per-frame engine of `src/model/game_model.h`

A shallow embedding of `T::GameModel`.

Conventions of the embedding.

* C++ `int` is `Int` (cell coordinates, cell indices, the bounds of a cell range) or `Nat`
  (loop counters and particle indices, which the code only ever counts up from `0`);
  canvas sizes are far below `2^31`, so no wrap-around is modelled.
* C++ `float` is exact rational arithmetic.  A value that can be the result of a division is a
  `Flt = Option ℚ`, where `none` stands for a non-finite value (`inf`/`NaN`); positions are
  finite pairs of rationals, because a non-finite position makes `f2i` undefined.
* A function returns `none` when the C++ code fails an `assert`, indexes a `vector` outside its
  size, or converts a non-finite `float` to `int`.
* The headers `particle.h`, `constant.h`, `utility.h`, `air_solver.h` are not part of the
  sources; what they declare is collected in `Env` and passed as a parameter.
-/

namespace T

/-! ## Scalars and vectors -/

/-- A `float`: `some q` is the finite value `q`, `none` is a non-finite value. -/
abbrev Flt := Option ℚ

/-- Float addition. -/
def fadd (a b : Flt) : Flt :=
  match a, b with
  | some x, some y => some (x + y)
  | _, _ => none

/-- Float subtraction. -/
def fsub (a b : Flt) : Flt :=
  match a, b with
  | some x, some y => some (x - y)
  | _, _ => none

/-- Float multiplication. -/
def fmul (a b : Flt) : Flt :=
  match a, b with
  | some x, some y => some (x * y)
  | _, _ => none

/-- Float division: dividing by zero gives a non-finite value. -/
def fdiv (a b : Flt) : Flt :=
  match a, b with
  | some x, some y => if y = 0 then none else some (x / y)
  | _, _ => none

/-- A finite `vec2` (a position). -/
abbrev Vec2 := ℚ × ℚ

/-- A `vec2` whose components may be non-finite (a velocity). -/
abbrev FVec2 := Flt × Flt

/-- An `ivec2`. -/
abbrev IVec2 := Int × Int

/-- Modelled from the spec: `f2i` of `utility.h` (absent), which "translates a continuous
position to an integer cell via floor-to-int". -/
def f2i (p : Vec2) : IVec2 := (Int.floor p.1, Int.floor p.2)

/-- Modelled from the spec: `ParticleType` of `particle.h` (absent), "enumeration: None, Sand,
Water, Iron, …"; `None` is the value-initialised element. -/
inductive ParticleType where
  | None
  | Sand
  | Water
  | Iron
  deriving DecidableEq, Repr

instance : Inhabited ParticleType := ⟨ParticleType.None⟩

/-! ## `PixelParticleList` -/

/-- The range of particle indices of one canvas cell (`struct PixelParticleList`); the fields
`from` and `to` are reserved words here, hence `from_` and `to_`. -/
structure PixelParticleList where
  from_ : Int := -1
  to_ : Int := -1
  deriving DecidableEq, Repr

namespace PixelParticleList

/-- `bool nil() { return from < 0; }` -/
def nil (l : PixelParticleList) : Bool := decide (l.from_ < 0)

/-- `void append(int i)`; `none` when `assert(i == to + 1)` fails. -/
def append (l : PixelParticleList) (i : Int) : Option PixelParticleList :=
  if l.nil then some { from_ := i, to_ := i }
  else if i = l.to_ + 1 then some { l with to_ := i }
  else none

end PixelParticleList

/-! ## Vectors, loops and vector arithmetic -/

/-- `vector::operator[]` with an `int` index; `none` outside the vector. -/
def getI {α : Type} (l : List α) (i : Int) : Option α :=
  if i < 0 then none else l[i.toNat]?

/-- Assignment to `v[i]` for a `Nat` index; `none` outside the vector. -/
def setAt {α : Type} (l : List α) (i : Nat) (a : α) : Option (List α) :=
  if i < l.length then some (l.set i a) else none

/-- Assignment to `v[i]` for an `int` index; `none` outside the vector. -/
def setI {α : Type} (l : List α) (i : Int) (a : α) : Option (List α) :=
  if i < 0 then none else setAt l i.toNat a

/-- `vector::resize(n)`: keeps the first `n` elements and pads with value-initialised ones. -/
def resize {α : Type} (l : List α) (n : Nat) (d : α) : List α :=
  l.take n ++ List.replicate (n - l.length) d

/-- The values of `i` in `for (int i = a; i <= b; i++)`. -/
def intRange (a b : Int) : List Int :=
  List.map (fun k : Nat => a + (k : Int)) (List.range (b + 1 - a).toNat)

/-- The loop `for (i = 0; i < n; i++) s = body(i, s)`, stopping at the first failure. -/
def forRange {σ : Type} (n : Nat) (body : Nat → σ → Option σ) (s : σ) : Option σ :=
  (List.range n).foldlM (fun acc i => body i acc) s

/-- The loop `for (i = a; i <= b; i++) s = body(i, s)`, stopping at the first failure. -/
def forInt {σ : Type} (a b : Int) (body : Int → σ → Option σ) (s : σ) : Option σ :=
  (intRange a b).foldlM (fun acc i => body i acc) s

/-- A finite position read as a `vec2` of floats. -/
def Vec2.toF (p : Vec2) : FVec2 := (some p.1, some p.2)

/-- A `vec2` of floats read as a finite position; `none` when a component is non-finite. -/
def FVec2.toVec2 (v : FVec2) : Option Vec2 :=
  match v with
  | (some x, some y) => some (x, y)
  | _ => none

/-- Componentwise `vec2 + vec2`. -/
def vadd (a b : FVec2) : FVec2 := (fadd a.1 b.1, fadd a.2 b.2)

/-- Componentwise `vec2 - vec2`. -/
def vsub (a b : FVec2) : FVec2 := (fsub a.1 b.1, fsub a.2 b.2)

/-- The product `vec2 * float`. -/
def vscale (a : FVec2) (k : Flt) : FVec2 := (fmul a.1 k, fmul a.2 k)

/-- The quotient `vec2 / float`. -/
def vdiv (a : FVec2) (k : Flt) : FVec2 := (fdiv a.1 k, fdiv a.2 k)

/-- The conversion `int(x)` of a finite float: truncation toward zero. -/
def truncQ (q : ℚ) : Int := if 0 ≤ q then Int.floor q else Int.ceil q

/-- The test `glm::distance(a, b) <= r` in exact arithmetic: the square root of the squared
distance is at most `r` exactly when `r` is not negative and the squared distance is at most
`r * r`. -/
def distance_le (a b : Vec2) (r : ℚ) : Bool :=
  decide (0 ≤ r ∧ (a.1 - b.1) * (a.1 - b.1) + (a.2 - b.2) * (a.2 - b.2) ≤ r * r)

/-! ## The environment: what the absent headers declare -/

/-- The coarse air field of `air_solver.h` (absent), as far as the engine touches it: the
velocity arrays behind `getVX()`/`getVY()` and the pressure array `lp_p`. -/
structure AirSolver where
  vx : List Flt := []
  vy : List Flt := []
  lp_p : List Flt := []
  deriving DecidableEq

/-- Constants, lookup tables and library functions that the engine uses and that are declared
outside the sources (`constant.h`, `particle.h`, `utility.h`, `air_solver.h`, `glm`, `<algorithm>`).
-/
structure Env where
  K_DT : ℚ
  K_RESTITUTION : ℚ
  K_HEAT_DELTA : ℚ
  K_GRAVITY : ℚ
  K_AIR_RESISTANCE : ℚ
  K_COLLISION_STEP_LENGTH : ℚ
  K_LIQUID_DOWNSAMPLE : Int
  K_AIRFLOW_DOWNSAMPLE : Int
  K_LIQUID_ITERATIONS : Int
  H : ℚ
  SPIKY_GRAD : ℚ
  VISC : ℚ
  VISC_LAP : ℚ
  /-- `particle_mass(type)` -/
  particle_mass : ParticleType → ℚ
  /-- `particle_diff(type)`, the diffusivity -/
  particle_diff : ParticleType → ℚ
  /-- `kernel_fn(r)` -/
  kernel_fn : Flt → Flt
  /-- the float square root behind `glm::length` and `glm::normalize` -/
  sqrt : ℚ → ℚ
  /-- `random(-1, 1)`: the value of the `n`-th draw from the ambient random source -/
  random : Nat → ℚ
  /-- `random_sample(from, to)`: the value of the `n`-th draw -/
  random_sample : Nat → Int → Int → Int
  /-- `std::sort(first, last, comp)` on a vector of particle indices -/
  sort : (Nat → Nat → Bool) → List Nat → List Nat
  /-- `AirSolver::animVel()` -/
  animVel : AirSolver → AirSolver

/-- The contract of `std::sort` for a comparison by a key: the result is a permutation of the
input in which no element is followed by one with a smaller key.  The standard promises nothing
about the order of elements with equal keys. -/
def StdSort (srt : (Nat → Nat → Bool) → List Nat → List Nat) : Prop :=
  ∀ (key : Nat → Int) (l : List Nat),
    (srt (fun i1 i2 => decide (key i1 < key i2)) l).Perm l ∧
    (srt (fun i1 i2 => decide (key i1 < key i2)) l).Pairwise (fun a b => key a ≤ key b)

/-! ## The two generations -/

/-- `struct BlockLiquidList`: the vector `idx_lp`. -/
structure BlockLiquidList where
  idx_lp : List Int := List.replicate 16 0
  deriving DecidableEq

/-- `struct StateCur`. -/
structure StateCur where
  particles : Nat := 0
  map_index : List PixelParticleList
  map_block_liquid : List BlockLiquidList
  p_type : List ParticleType := []
  p_heat : List Flt := []
  p_pos : List Vec2 := []
  p_vel : List FVec2 := []
  deriving DecidableEq

/-- `StateCur(int n_map)`. -/
def StateCur.init (E : Env) (n_map : Int) : StateCur :=
  { map_index := List.replicate n_map.toNat {}
    map_block_liquid :=
      List.replicate
        (Int.tdiv (Int.tdiv n_map E.K_LIQUID_DOWNSAMPLE) E.K_LIQUID_DOWNSAMPLE).toNat {} }

/-- `StateCur::reset(n)`. -/
def StateCur.reset (s : StateCur) (n : Nat) : StateCur :=
  { particles := n
    p_type := resize s.p_type n ParticleType.None
    p_pos := resize s.p_pos n (0, 0)
    p_vel := resize s.p_vel n (some 0, some 0)
    p_heat := resize s.p_heat n (some 0)
    map_index := s.map_index.map (fun _ => {})
    map_block_liquid := s.map_block_liquid.map (fun _ => { idx_lp := [] }) }

/-- `struct StateNext`. -/
structure StateNext where
  particles : Nat := 0
  p_type : List ParticleType := []
  p_heat : List Flt := []
  p_pos : List Vec2 := []
  p_vel : List FVec2 := []
  deriving DecidableEq

/-- `StateNext::reset(n)`. -/
def StateNext.reset (s : StateNext) (n : Nat) : StateNext :=
  { particles := n
    p_type := resize s.p_type n ParticleType.None
    p_pos := resize s.p_pos n (0, 0)
    p_vel := resize s.p_vel n (some 0, some 0)
    p_heat := resize s.p_heat n (some 0) }

/-- `struct LiquidBuffer`. -/
structure LiquidBuffer where
  p_im_pos : List FVec2 := []
  p_im_vel : List FVec2 := []
  p_idx_mapping : List Int := []
  lp_rho : List Flt := []
  lp_p : List Flt := []
  deriving DecidableEq

/-- `struct ReorderBuffer`. -/
structure ReorderBuffer where
  p_idx : List Int := []
  sort : List Nat := []
  deriving DecidableEq

/-- Modelled from the spec: `ParticleBrush` of `event.h` (absent), "a center point, radius, and
a particle type to instantiate". -/
structure ParticleBrush where
  type : ParticleType := ParticleType.None
  center : Vec2 := (0, 0)
  radius : ℚ := 0
  deriving DecidableEq

/-- Modelled from the spec: `HeatBrush` of `event.h` (absent), "a center point, radius, and a
heat delta/sign to apply". -/
structure HeatBrush where
  center : Vec2 := (0, 0)
  radius : ℚ := 0
  increase : Bool := false
  deriving DecidableEq

/-- `struct CollisionDetectionResult`. -/
structure CollisionDetectionResult where
  pos : Vec2
  target_index : Int
  deriving DecidableEq

/-- `class GameModel`: the fields of the engine, and the number `rng` of values drawn so far
from the ambient random source. -/
structure GameModel where
  frame_counter : Int := 0
  airflow_solver : AirSolver := {}
  state_cur : StateCur
  state_next : StateNext := {}
  width : Int
  height : Int
  liquid_buf : LiquidBuffer := {}
  reorder_buf : ReorderBuffer := {}
  cur_particle_brush : ParticleBrush := {}
  has_heat_brush : Bool := false
  cur_heat_brush : HeatBrush := {}
  rng : Nat := 0
  deriving DecidableEq

namespace GameModel

/-! ## Canvas geometry -/

/-- `bool in_bound(int c, int r)` -/
def in_bound (m : GameModel) (v : IVec2) : Bool :=
  decide (v.2 ≥ 0 ∧ v.2 < m.height ∧ v.1 ≥ 0 ∧ v.1 < m.width)

/-- `int bound_dist(ivec2 v)` -/
def bound_dist (m : GameModel) (v : IVec2) : Int :=
  min (min v.1 (m.width - 1 - v.1)) (min v.2 (m.height - 1 - v.2))

/-- `int idx(int c, int r)` -/
def idx (m : GameModel) (v : IVec2) : Int := v.2 * m.width + v.1

/-- `int idx_liquid(int c, int r)` -/
def idx_liquid (E : Env) (m : GameModel) (v : IVec2) : Int :=
  Int.tdiv v.2 E.K_LIQUID_DOWNSAMPLE * Int.tdiv m.width E.K_LIQUID_DOWNSAMPLE
    + Int.tdiv v.1 E.K_LIQUID_DOWNSAMPLE

/-- `int idx_air(int c, int r)` -/
def idx_air (E : Env) (m : GameModel) (v : IVec2) : Int :=
  Int.tdiv v.2 E.K_AIRFLOW_DOWNSAMPLE * Int.tdiv m.width E.K_AIRFLOW_DOWNSAMPLE
    + Int.tdiv v.1 E.K_AIRFLOW_DOWNSAMPLE

/-- `GameModel(int w, int h)`; `none` when one of the four divisibility assertions fails.  The
air field is what `init` and `reset` of the absent air solver leave, given as `air`. -/
def init (E : Env) (w h : Int) (air : AirSolver) : Option GameModel :=
  if Int.tmod w E.K_AIRFLOW_DOWNSAMPLE = 0 ∧ Int.tmod h E.K_AIRFLOW_DOWNSAMPLE = 0 ∧
      Int.tmod w E.K_LIQUID_DOWNSAMPLE = 0 ∧ Int.tmod h E.K_LIQUID_DOWNSAMPLE = 0 then
    some { width := w, height := h, state_cur := StateCur.init E (w * h), airflow_solver := air }
  else none

/-! ## `prepare` -/

/-- One iteration of the loop of `prepare`; the heat column is assigned to itself. -/
def prepare_step (cur : StateCur) (i : Nat) (nx : StateNext) : Option StateNext := do
  let ty ← cur.p_type[i]?
  let p_type ← setAt nx.p_type i ty
  let pos ← cur.p_pos[i]?
  let p_pos ← setAt nx.p_pos i pos
  let vel ← cur.p_vel[i]?
  let p_vel ← setAt nx.p_vel i vel
  let heat ← nx.p_heat[i]?
  let p_heat ← setAt nx.p_heat i heat
  pure { nx with p_type := p_type, p_pos := p_pos, p_vel := p_vel, p_heat := p_heat }

/-- `void prepare()` -/
def prepare (m : GameModel) : Option GameModel := do
  let nx ← forRange m.state_cur.particles (prepare_step m.state_cur)
    (m.state_next.reset m.state_cur.particles)
  pure { m with state_next := nx }

/-! ## Heat -/

/-- The loop `for (i = list.from; i <= list.to; i++) avg += state_cur.p_heat[i]`. -/
def sum_heat (p_heat : List Flt) (lst : PixelParticleList) : Option Flt :=
  forInt lst.from_ lst.to_ (fun i avg => do
    let h ← getI p_heat i
    pure (fadd avg h)) (some 0)

/-- `float average_heat(ivec2 ipos_near)`. -/
def average_heat (m : GameModel) (ipos_near : IVec2) : Option Flt :=
  if m.in_bound ipos_near then do
    let im1 := m.idx ipos_near
    let list ← getI m.state_cur.map_index im1
    if !list.nil then do
      let avg ← sum_heat m.state_cur.p_heat list
      pure (fdiv avg (some ((list.to_ - list.from_ : Int) : ℚ)))
    else
      pure (some 0)
  else
    pure (some 0)

/-- One iteration of the loop of `compute_heat`: the new heat of particle `ip` is written to
`state_cur.p_heat[ip]`. -/
def compute_heat_step (E : Env) (ip : Nat) (m : GameModel) : Option GameModel := do
  let ipos := f2i (← m.state_cur.p_pos[ip]?)
  let ipos1 : IVec2 := (ipos.1, ipos.2 - 1)
  let ipos2 : IVec2 := (ipos.1, ipos.2 + 1)
  let ipos3 : IVec2 := (ipos.1 - 1, ipos.2)
  let ipos4 : IVec2 := (ipos.1 + 1, ipos.2)
  let t1 ← m.average_heat ipos1
  let t2 ← m.average_heat ipos2
  let t3 ← m.average_heat ipos3
  let t4 ← m.average_heat ipos4
  let h ← m.state_cur.p_heat[ip]?
  let delt_t := fsub (fadd (fadd (fadd t1 t2) t3) t4) (fmul (some 4) h)
  let ty ← m.state_cur.p_type[ip]?
  let h_new := fadd (fmul (fmul (some E.K_DT) (some (E.particle_diff ty))) delt_t) h
  let p_heat ← setAt m.state_cur.p_heat ip h_new
  pure { m with state_cur := { m.state_cur with p_heat := p_heat } }

/-- `void compute_heat()` -/
def compute_heat (E : Env) (m : GameModel) : Option GameModel :=
  forRange m.state_cur.particles (compute_heat_step E) m

end GameModel

namespace GameModel

/-! ## `complete`: compaction and the rebuilt index -/

/-- One iteration of the first loop of `complete`: the cell index of next-generation particle
`ip` is recorded, and `ip` itself when its type is not `None`. -/
def complete_scan_step (m : GameModel) (ip : Nat) (rb : ReorderBuffer) : Option ReorderBuffer := do
  let pos := f2i (← m.state_next.p_pos[ip]?)
  let ty ← m.state_next.p_type[ip]?
  pure { p_idx := rb.p_idx ++ [m.idx pos]
         sort := if ty ≠ ParticleType.None then rb.sort ++ [ip] else rb.sort }

/-- The comparison `[&p_idx](int i1, int i2) { return p_idx[i1] < p_idx[i2]; }`; `std::sort`
applies it to elements of `sort` only, which are indices of `p_idx`. -/
def complete_comp (p_idx : List Int) (i1 i2 : Nat) : Bool :=
  decide (p_idx.getD i1 0 < p_idx.getD i2 0)

/-- The tail of the second loop of `complete`: `ip` is pushed onto the list of the liquid block
of `pos` when its type is `Water`. -/
def complete_liquid_step (E : Env) (m : GameModel) (ip : Nat) (pos : Vec2) (ty : ParticleType) :
    Option (List BlockLiquidList) :=
  if ty = ParticleType.Water then do
    let il := m.idx_liquid E (f2i pos)
    let cur_liquid_lst ← getI m.state_cur.map_block_liquid il
    setI m.state_cur.map_block_liquid il { idx_lp := cur_liquid_lst.idx_lp ++ [(ip : Int)] }
  else pure m.state_cur.map_block_liquid

/-- The middle of the second loop of `complete`: `ip` is appended to the range of the cell of
`pos`. -/
def complete_index_step (m : GameModel) (ip : Nat) (pos : Vec2) :
    Option (List PixelParticleList) := do
  let im := m.idx (f2i pos)
  let cur_lst ← getI m.state_cur.map_index im
  let cur_lst ← cur_lst.append ip
  setI m.state_cur.map_index im cur_lst

/-- One iteration of the second loop of `complete`: particle `sort[ip]` of the next generation
becomes particle `ip` of the current one and is appended to the range of its cell and, when it is
`Water`, to the list of its liquid block. -/
def complete_copy_step (E : Env) (ip : Nat) (m : GameModel) : Option GameModel := do
  let old_ip ← m.reorder_buf.sort[ip]?
  let pos ← m.state_next.p_pos[old_ip]?
  let p_pos ← setAt m.state_cur.p_pos ip pos
  let ty ← m.state_next.p_type[old_ip]?
  let p_type ← setAt m.state_cur.p_type ip ty
  let vel ← m.state_next.p_vel[old_ip]?
  let p_vel ← setAt m.state_cur.p_vel ip vel
  let heat ← m.state_next.p_heat[old_ip]?
  let p_heat ← setAt m.state_cur.p_heat ip heat
  let map_index ← m.complete_index_step ip pos
  let map_block_liquid ← m.complete_liquid_step E ip pos ty
  pure { m with state_cur := { m.state_cur with
    p_pos := p_pos, p_type := p_type, p_vel := p_vel, p_heat := p_heat,
    map_index := map_index, map_block_liquid := map_block_liquid } }

/-- The first half of `complete`: the cell indices `p_idx` and the sorted list `sort` of the
survivors. -/
def complete_reorder (E : Env) (m : GameModel) : Option ReorderBuffer := do
  let rb ← forRange m.state_next.particles (complete_scan_step m) { p_idx := [], sort := [] }
  pure { rb with sort := E.sort (complete_comp rb.p_idx) rb.sort }

/-- `void complete()` -/
def complete (E : Env) (m : GameModel) : Option GameModel := do
  let rb ← m.complete_reorder E
  let n_new := rb.sort.length
  let m1 : GameModel := { m with reorder_buf := rb, state_cur := m.state_cur.reset n_new }
  forRange n_new (complete_copy_step E) m1

/-! ## The edit interface -/

/-- The body of the two nested loops of `handle_new_particles` at cell `(x, y)`. -/
def new_particle_step (m : GameModel) (E : Env) (x y : Int) : Option GameModel :=
  if m.in_bound (x, y) && distance_le ((x : ℚ), (y : ℚ)) m.cur_particle_brush.center
      m.cur_particle_brush.radius then do
    let lst ← getI m.state_cur.map_index (m.idx (x, y))
    if lst.nil then
      let jitter : Vec2 := (E.random m.rng * (1 / 5), E.random (m.rng + 1) * (1 / 5))
      pure { m with
        rng := m.rng + 2
        state_next := { m.state_next with
          particles := m.state_next.particles + 1
          p_pos := m.state_next.p_pos ++ [((x : ℚ) + jitter.1, (y : ℚ) + jitter.2)]
          p_type := m.state_next.p_type ++ [m.cur_particle_brush.type]
          p_vel := m.state_next.p_vel ++ [(some 0, some 0)]
          p_heat := m.state_next.p_heat ++ [some 0] } }
    else pure m
  else pure m

/-- `void handle_new_particles()` -/
def handle_new_particles (E : Env) (m : GameModel) : Option GameModel :=
  if m.cur_particle_brush.type ≠ ParticleType.None then do
    let center := f2i m.cur_particle_brush.center
    let r_find := truncQ (m.cur_particle_brush.radius + 1)
    let m1 ← forInt (center.1 - r_find) (center.1 + r_find) (fun x mx =>
      forInt (center.2 - r_find) (center.2 + r_find) (fun y my => my.new_particle_step E x y) mx) m
    pure { m1 with cur_particle_brush := { m1.cur_particle_brush with type := ParticleType.None } }
  else pure m

/-- `void set_new_particles(ParticleBrush brush)` -/
def set_new_particles (m : GameModel) (brush : ParticleBrush) : GameModel :=
  { m with cur_particle_brush := brush }

/-- The signed quantum `(cur_heat_brush.increase ? 1 : -1) * K_HEAT_DELTA`. -/
def heat_quantum (E : Env) (m : GameModel) : ℚ :=
  (if m.cur_heat_brush.increase then 1 else -1) * E.K_HEAT_DELTA

/-- The body of the two nested loops of `handle_change_heat` at cell `(x, y)`. -/
def change_heat_step (m : GameModel) (E : Env) (x y : Int) : Option GameModel :=
  if m.in_bound (x, y) && distance_le ((x : ℚ), (y : ℚ)) m.cur_heat_brush.center
      m.cur_heat_brush.radius then do
    let lst ← getI m.state_cur.map_index (m.idx (x, y))
    if !lst.nil then do
      let p_heat ← forInt lst.from_ lst.to_ (fun ip p_heat => do
        let h ← getI p_heat ip
        setI p_heat ip (fadd h (some (m.heat_quantum E)))) m.state_next.p_heat
      pure { m with state_next := { m.state_next with p_heat := p_heat } }
    else pure m
  else pure m

/-- `void handle_change_heat()` -/
def handle_change_heat (E : Env) (m : GameModel) : Option GameModel :=
  if m.has_heat_brush then do
    let center := f2i m.cur_heat_brush.center
    let r_find := truncQ (m.cur_heat_brush.radius + 1)
    let m1 ← forInt (center.1 - r_find) (center.1 + r_find) (fun x mx =>
      forInt (center.2 - r_find) (center.2 + r_find) (fun y my => my.change_heat_step E x y) mx) m
    pure { m1 with has_heat_brush := false }
  else pure m

/-- `void set_heat(HeatBrush brush)` -/
def set_heat (m : GameModel) (brush : HeatBrush) : GameModel :=
  { m with has_heat_brush := true, cur_heat_brush := brush }

end GameModel

namespace GameModel

/-! ## Collision detection and position integration -/

/-- `glm::length(v)` of a finite vector, through the float square root. -/
def length (E : Env) (v : Vec2) : ℚ := E.sqrt (v.1 * v.1 + v.2 * v.2)

/-- `glm::normalize(v)` of a finite vector; non-finite when the length is zero. -/
def normalize (E : Env) (v : Vec2) : FVec2 := vdiv v.toF (some (length E v))

/-- A number of tests of the loop condition after which the loop
`while (f2i(cur) == f2i(start)) cur += delta` has left the cell of `start`: a cell is one unit
wide and high.  It is `0` for `delta = 0`, when the loop never ends. -/
def skip_fuel (delta : Vec2) : Nat :=
  if delta.1 ≠ 0 then Nat.ceil (1 / |delta.1|) + 2
  else if delta.2 ≠ 0 then Nat.ceil (1 / |delta.2|) + 2
  else 0

/-- The loop `while (f2i(cur) == f2i(start)) cur += delta`, with the number of tests of its
condition that are still allowed; `none` when they are used up. -/
def skip_cell (start delta : Vec2) : Nat → Vec2 → Option Vec2
  | 0, _ => none
  | fuel + 1, cur =>
    if f2i cur = f2i start then skip_cell start delta fuel (cur.1 + delta.1, cur.2 + delta.2)
    else some cur

/-- The outcome of `detect_collision`: the value it returns, the result it stores, and the
number of random draws made so far. -/
structure Detection where
  collided : Bool
  result : CollisionDetectionResult
  rng : Nat
  deriving DecidableEq

/-- The label `exit:` of `detect_collision`. -/
def detect_exit (final_pos : Vec2) (last_target : Int) (rng : Nat) : Detection :=
  { collided := decide (last_target ≠ -1)
    result := { pos := final_pos, target_index := last_target }
    rng := rng }

/-- The branch `if (steps <= 1)` of `detect_collision`. -/
def detect_short (E : Env) (m : GameModel) (start end_ cur : Vec2) (ignore_liquid : Bool) :
    Option Detection :=
  if !m.in_bound (f2i cur) then pure (detect_exit cur (-1) m.rng)
  else do
    let temp ← getI m.state_cur.map_index (m.idx (f2i cur))
    if !temp.nil then do
      let t := E.random_sample m.rng temp.from_ temp.to_
      let ty ← getI m.state_cur.p_type t
      if ty = ParticleType.Water && ignore_liquid then pure (detect_exit end_ (-1) (m.rng + 1))
      else if m.idx (f2i start) = m.idx (f2i cur) then pure (detect_exit cur t (m.rng + 1))
      else pure (detect_exit start t (m.rng + 1))
    else pure (detect_exit end_ (-1) m.rng)

/-- The loop `for (int i = 1; i < steps; i++)` of `detect_collision`, with the number of
iterations that are left. -/
def detect_march (E : Env) (m : GameModel) (end_ delta : Vec2) : Nat → Vec2 → Option Detection
  | 0, _ => pure (detect_exit end_ (-1) m.rng)
  | n + 1, cur =>
    let m_pos := f2i cur
    let prev : Vec2 := (cur.1 - delta.1, cur.2 - delta.2)
    if m.in_bound m_pos then do
      let lst ← getI m.state_cur.map_index (m.idx m_pos)
      if !lst.nil && decide (m.idx (f2i cur) ≠ m.idx (f2i prev)) then
        pure (detect_exit prev (E.random_sample m.rng lst.from_ lst.to_) (m.rng + 1))
      else detect_march E m end_ delta n (cur.1 + delta.1, cur.2 + delta.2)
    else pure (detect_exit cur (-1) m.rng)

/-- `bool detect_collision(vec2 start, vec2 end, bool ignore_liquid, CollisionDetectionResult&)`;
`none` when `int(...)` or `f2i` meets a non-finite value, when an index is outside its vector, or
when the first loop never ends. -/
def detect_collision (E : Env) (m : GameModel) (start end_ : Vec2) (ignore_liquid : Bool) :
    Option Detection :=
  let len := length E (start.1 - end_.1, start.2 - end_.2)
  if len = 0 then pure (detect_exit end_ (-1) m.rng)
  else do
    let d : Vec2 := (end_.1 - start.1, end_.2 - start.2)
    let steps := truncQ (← fdiv (some (length E d)) (some E.K_COLLISION_STEP_LENGTH))
    let delta ← (vscale (normalize E d) (some E.K_COLLISION_STEP_LENGTH)).toVec2
    let cur ← skip_cell start delta (skip_fuel delta) start
    if steps ≤ 1 then detect_short E m start end_ cur ignore_liquid
    else detect_march E m end_ delta (steps - 1).toNat cur

/-- The velocities after a collision, on one axis: the mover has mass `m1` and velocity `v1`,
the target mass `m2` and velocity `v2` (the lines `v1x1 = ...` to `v2y1 = ...`). -/
def collision_axis (E : Env) (m1 m2 : ℚ) (v1 v2 : Flt) : Flt × Flt :=
  let mom := fadd (fmul (some m1) v1) (fmul (some m2) v2)
  (fdiv (fmul (some 1)
      (fadd mom (fmul (fmul (some E.K_RESTITUTION) (some m2)) (fsub v2 v1))))
      (fadd (some m1) (some m2)),
   fdiv (fmul (some 1)
      (fadd mom (fmul (fmul (some E.K_RESTITUTION) (some m1)) (fsub v1 v2))))
      (fadd (some m1) (some m2)))

/-- The block `if (collided) { ... }` of `compute_position`: both next-generation velocities
are overwritten. -/
def collision_response (E : Env) (m : GameModel) (ip : Nat) (cur_type : ParticleType)
    (target_index : Int) : Option (List FVec2) := do
  let target_type ← getI m.state_cur.p_type target_index
  let m1 := E.particle_mass cur_type
  let m2 := E.particle_mass target_type
  let v1 ← m.state_next.p_vel[ip]?
  let v2 ← getI m.state_next.p_vel target_index
  let x := collision_axis E m1 m2 v1.1 v2.1
  let y := collision_axis E m1 m2 v1.2 v2.2
  let p_vel ← setAt m.state_next.p_vel ip (x.1, y.1)
  setI p_vel target_index (x.2, y.2)

/-- The end of an iteration of `compute_position`: the jittered position is stored and the
particle is marked `None` when it left the canvas. -/
def position_store (E : Env) (m : GameModel) (ip : Nat) (pos : Vec2) : Option GameModel := do
  let jitter : Vec2 := (E.random m.rng, E.random (m.rng + 1))
  let pos : Vec2 := (pos.1 + jitter.1 * (1 / 10), pos.2 + jitter.2 * (1 / 10))
  let p_pos ← setAt m.state_next.p_pos ip pos
  let coord := f2i pos
  let p_type ←
    if !m.in_bound coord then setAt m.state_next.p_type ip ParticleType.None
    else pure m.state_next.p_type
  pure { m with rng := m.rng + 2, state_next := { m.state_next with p_pos := p_pos, p_type := p_type } }

/-- One iteration of the loop of `compute_position`. -/
def compute_position_step (E : Env) (ip : Nat) (m : GameModel) : Option GameModel := do
  let cur_type ← m.state_cur.p_type[ip]?
  if cur_type = ParticleType.Iron then pure m
  else do
    let v ← m.state_cur.p_vel[ip]?
    let pos_old ← m.state_cur.p_pos[ip]?
    let pos_new ← (vadd pos_old.toF (vscale v (some E.K_DT))).toVec2
    let det ← detect_collision E m pos_old pos_new false
    let m1 : GameModel := { m with rng := det.rng }
    let p_vel ←
      if det.collided then collision_response E m1 ip cur_type det.result.target_index
      else pure m1.state_next.p_vel
    position_store E { m1 with state_next := { m1.state_next with p_vel := p_vel } } ip
      det.result.pos

/-- `void compute_position()` -/
def compute_position (E : Env) (m : GameModel) : Option GameModel :=
  forRange m.state_cur.particles (compute_position_step E) m

end GameModel

namespace GameModel

/-! ## Velocities: air drag, the liquid solver, the solid constraint -/

/-- `glm::length(v)`; non-finite when `v` is. -/
def flength (E : Env) (v : FVec2) : Flt := v.toVec2.map (length E)

/-- `glm::normalize(v)`; non-finite when `v` is or when its length is zero. -/
def fnormalize (E : Env) (v : FVec2) : FVec2 := vdiv v (flength E v)

/-- The comparison `a < b` of floats; false when a side is non-finite. -/
def flt_lt (a b : Flt) : Bool :=
  match a, b with
  | some x, some y => decide (x < y)
  | _, _ => false

/-- The comparison `a <= b` of floats; false when a side is non-finite. -/
def flt_le (a b : Flt) : Bool :=
  match a, b with
  | some x, some y => decide (x ≤ y)
  | _, _ => false

/-- `vec2 safe_sample_air(ivec2 p_air)` -/
def safe_sample_air (E : Env) (m : GameModel) (p_air : IVec2) : Option FVec2 := do
  let nx := Int.tdiv m.width E.K_AIRFLOW_DOWNSAMPLE
  let ny := Int.tdiv m.height E.K_AIRFLOW_DOWNSAMPLE
  let x := if p_air.1 < 0 then 0 else p_air.1
  let x := if x ≥ nx then nx - 1 else x
  let y := if p_air.2 < 0 then 0 else p_air.2
  let y := if y ≥ ny then ny - 1 else y
  let im_air := y * nx + x
  pure (← getI m.airflow_solver.vx im_air, ← getI m.airflow_solver.vy im_air)

/-- `glm::fract(x)` of a float. -/
def ffract (a : Flt) : Flt := a.map (fun q => q - (Int.floor q : ℚ))

/-- `vec2 bilinear_sample_air(ivec2 pos)` -/
def bilinear_sample_air (E : Env) (m : GameModel) (pos : IVec2) : Option FVec2 := do
  let K := E.K_AIRFLOW_DOWNSAMPLE
  let pos : IVec2 := (pos.1 - Int.tdiv K 2, pos.2 - Int.tdiv K 2)
  let base : IVec2 := (Int.tdiv pos.1 K, Int.tdiv pos.2 K)
  let frx := ffract (fdiv (some (pos.1 : ℚ)) (some (K : ℚ)))
  let fry := ffract (fdiv (some (pos.2 : ℚ)) (some (K : ℚ)))
  let s0 ← m.safe_sample_air E base
  let s1 ← m.safe_sample_air E (base.1 + 1, base.2)
  let s2 ← m.safe_sample_air E (base.1, base.2 + 1)
  let s3 ← m.safe_sample_air E (base.1 + 1, base.2 + 1)
  let w0 := fmul (fsub (some 1) frx) (fsub (some 1) fry)
  let w1 := fmul frx (fsub (some 1) fry)
  let w2 := fmul (fsub (some 1) frx) fry
  let w3 := fmul frx fry
  let sum : FVec2 := (some 0, some 0)
  pure (vadd (vadd (vadd (vadd sum (vscale s0 w0)) (vscale s1 w1)) (vscale s2 w2)) (vscale s3 w3))

/-- The drag and gravity of `sample_acc_air_g` once the samples are read. -/
def drag_gravity (E : Env) (v_rel : FVec2) (lp_p : Flt) (mass : ℚ) : FVec2 :=
  let pr := fadd (some 1) (fdiv lp_p (some 5))
  let lp_p : Flt := if flt_lt (some 0) pr then pr else some 0
  let f_resis :=
    vscale (vscale v_rel (fmul (some (-E.K_AIR_RESISTANCE)) lp_p)) (flength E v_rel)
  let limit :=
    fdiv (flength E (vscale (vdiv f_resis (some mass)) (some E.K_DT))) (flength E v_rel)
  let f_resis := if flt_lt (some 1) limit then vdiv f_resis limit else f_resis
  let f_gravity : FVec2 := (some (E.K_GRAVITY * 0 * mass), some (E.K_GRAVITY * 1 * mass))
  vdiv (vadd f_resis f_gravity) (some mass)

/-- `vec2 sample_acc_air_g(int ip)`: the acceleration, and the model after the assignment to
`state_next.p_vel[ip]`. -/
def sample_acc_air_g (E : Env) (m : GameModel) (ip : Nat) : Option (FVec2 × GameModel) := do
  let cur_type ← m.state_cur.p_type[ip]?
  if cur_type = ParticleType.Iron then pure ((some 0, some 0), m)
  else do
    let v_p ← m.state_cur.p_vel[ip]?
    let p_vel ← setAt m.state_next.p_vel ip v_p
    let ipos := f2i (← m.state_cur.p_pos[ip]?)
    let im_air := m.idx_air E ipos
    let v_air ← m.bilinear_sample_air E ipos
    let lp_p ← getI m.airflow_solver.lp_p im_air
    pure (drag_gravity E (vsub v_p v_air) lp_p (E.particle_mass cur_type),
      { m with state_next := { m.state_next with p_vel := p_vel } })

/-- The state of the lambda of `compute_vel_liquid`: the accumulated acceleration and the
number of random draws. -/
abbrev PairAcc := FVec2 × Nat

/-- The lambda that `compute_vel_liquid` passes to `iterate_neighbor_liquid`, for the pair of
particle `ip` and neighbour `t_ip`. -/
def pair_force (E : Env) (m : GameModel) (mass : ℚ) (ip : Nat) (t_ip : Int) (s : PairAcc) :
    Option PairAcc := do
  if (← m.state_cur.p_type[ip]?) ≠ ParticleType.Water then pure s
  else if t_ip = (ip : Int) then pure s
  else do
    let pi ← m.liquid_buf.p_im_pos[ip]?
    let pos_diff := vsub (← getI m.liquid_buf.p_im_pos t_ip) pi
    let _vel_diff := vsub (← getI m.liquid_buf.p_im_vel t_ip) (← m.liquid_buf.p_im_vel[ip]?)
    let _t_mass := E.particle_mass (← getI m.state_cur.p_type t_ip)
    let jitter : FVec2 := (some (E.random s.2), some (E.random (s.2 + 1)))
    let pos_diff := vadd pos_diff (vscale jitter (some (1 / 10)))
    let r := flength E pos_diff
    let close := flt_le r (some (1 / 100))
    let pos_diff : FVec2 :=
      if close then (some (E.random (s.2 + 2)), some (E.random (s.2 + 3))) else pos_diff
    let rng := if close then s.2 + 4 else s.2 + 2
    if flt_lt r (some E.H) then do
      let t_il ← getI m.liquid_buf.p_idx_mapping t_ip
      let _p ← getI m.liquid_buf.lp_p t_il
      let _rho ← getI m.liquid_buf.lp_rho t_il
      let f_custom := vscale (vscale (fnormalize E pos_diff) (some (-1)))
        (fmul (some mass) (E.kernel_fn r))
      pure (vadd s.1 (vdiv f_custom (some mass)), rng)
    else pure (s.1, rng)

/-- `iterate_neighbor_liquid(pos, r_neighbor, f)` for the lambda `pair_force`. -/
def iterate_neighbor_liquid (E : Env) (m : GameModel) (pos : IVec2) (r_neighbor : Int)
    (f : Int → PairAcc → Option PairAcc) (s : PairAcc) : Option PairAcc :=
  let K := E.K_LIQUID_DOWNSAMPLE
  let bfrom : IVec2 := (max 0 (Int.tdiv (pos.1 - r_neighbor) K), max 0 (Int.tdiv (pos.2 - r_neighbor) K))
  let bto : IVec2 := (min (Int.tdiv m.width K - 1) (Int.tdiv (pos.1 + r_neighbor) K),
    min (Int.tdiv m.height K - 1) (Int.tdiv (pos.2 + r_neighbor) K))
  forInt bfrom.1 bto.1 (fun bx sx =>
    forInt bfrom.2 bto.2 (fun by_ sy => do
      let b_pos := by_ * Int.tdiv m.width K + bx
      let blk ← getI m.state_cur.map_block_liquid b_pos
      blk.idx_lp.foldlM (fun acc ip_liquid => f ip_liquid acc) sy) sx) s

/-- The first loop of `compute_vel_liquid`: the scratch copies and the liquid numbering. -/
def liquid_seed_step (ip : Nat) (s : GameModel × Int) : Option (GameModel × Int) := do
  let m := s.1
  let pos ← m.state_cur.p_pos[ip]?
  let p_im_pos ← setAt m.liquid_buf.p_im_pos ip pos.toF
  let p_im_vel ← setAt m.liquid_buf.p_im_vel ip (← m.state_cur.p_vel[ip]?)
  let water := decide ((← m.state_cur.p_type[ip]?) = ParticleType.Water)
  let p_idx_mapping ← setAt m.liquid_buf.p_idx_mapping ip (if water then s.2 else -1)
  pure ({ m with liquid_buf := { m.liquid_buf with
    p_im_pos := p_im_pos, p_im_vel := p_im_vel, p_idx_mapping := p_idx_mapping } },
    if water then s.2 + 1 else s.2)

/-- The end of an iteration of the inner loop of `compute_vel_liquid`: the scratch velocity and
position of particle `ip` advance by one sub-step under the acceleration `acc`. -/
def liquid_advance (E : Env) (m : GameModel) (ip : Nat) (acc : FVec2) : Option GameModel := do
  let n : Flt := some (E.K_LIQUID_ITERATIONS : ℚ)
  let vel := vadd (← m.liquid_buf.p_im_vel[ip]?) (vdiv (vscale acc (some E.K_DT)) n)
  let p_im_vel ← setAt m.liquid_buf.p_im_vel ip vel
  let pos := vadd (← m.liquid_buf.p_im_pos[ip]?) (vdiv (vscale vel (some E.K_DT)) n)
  let p_im_pos ← setAt m.liquid_buf.p_im_pos ip pos
  pure { m with liquid_buf := { m.liquid_buf with p_im_vel := p_im_vel, p_im_pos := p_im_pos } }

/-- One iteration of the inner loop of `compute_vel_liquid`, for particle `ip`. -/
def liquid_step (E : Env) (r_neibor : Int) (ip : Nat) (m : GameModel) : Option GameModel := do
  let pos := f2i (← (← m.liquid_buf.p_im_pos[ip]?).toVec2)
  let cur_type ← m.state_cur.p_type[ip]?
  if cur_type = ParticleType.Iron then pure m
  else do
    let mass := E.particle_mass cur_type
    let s ← m.iterate_neighbor_liquid E pos r_neibor (m.pair_force E mass ip) ((some 0, some 0), m.rng)
    let a ← sample_acc_air_g E { m with rng := s.2 } ip
    liquid_advance E a.2 ip (vadd s.1 a.1)

/-- The last loop of `compute_vel_liquid`: the next-generation velocity of particle `ip`. -/
def liquid_finish_step (E : Env) (ip : Nat) (m : GameModel) : Option GameModel := do
  let pos_delta := vsub (← m.liquid_buf.p_im_pos[ip]?) (← m.state_cur.p_pos[ip]?).toF
  let p_vel ← setAt m.state_next.p_vel ip (vdiv pos_delta (some E.K_DT))
  pure { m with state_next := { m.state_next with p_vel := p_vel } }

/-- `void compute_vel_liquid()` -/
def compute_vel_liquid (E : Env) (m : GameModel) : Option GameModel := do
  let r_neibor : Int := Int.floor ((Int.ceil E.H : ℚ))
  let n := m.state_cur.particles
  let m : GameModel := { m with liquid_buf := { m.liquid_buf with
    p_idx_mapping := resize m.liquid_buf.p_idx_mapping n 0
    p_im_pos := resize m.liquid_buf.p_im_pos n (some 0, some 0)
    p_im_vel := resize m.liquid_buf.p_im_vel n (some 0, some 0) } }
  let s ← forRange n liquid_seed_step (m, 0)
  let m ← forRange E.K_LIQUID_ITERATIONS.toNat (fun _ mk =>
    forRange n (liquid_step E r_neibor)
      { mk with liquid_buf := { mk.liquid_buf with lp_rho := [], lp_p := [] } }) s.1
  forRange n (liquid_finish_step E) m

/-- One iteration of the loop of `constraint_solid`. -/
def constraint_solid_step (ip : Nat) (m : GameModel) : Option GameModel := do
  if (← m.state_cur.p_type[ip]?) = ParticleType.Iron then
    let p_vel ← setAt m.state_next.p_vel ip (some 0, some 0)
    pure { m with state_next := { m.state_next with p_vel := p_vel } }
  else pure m

/-- `void constraint_solid()` -/
def constraint_solid (m : GameModel) : Option GameModel :=
  forRange m.state_cur.particles constraint_solid_step m

/-- `void compute_vel()` -/
def compute_vel (E : Env) (m : GameModel) : Option GameModel := do
  let m ← m.compute_vel_liquid E
  m.constraint_solid

/-! ## Air coupling and the frame -/

/-- One iteration of the loop of `compute_air_flow`. -/
def air_flow_step (E : Env) (i : Nat) (m : GameModel) : Option GameModel := do
  let pos := f2i (← m.state_cur.p_pos[i]?)
  if m.bound_dist pos ≤ 2 then pure m
  else do
    let im_air := m.idx_air E pos
    let K : Flt := some (E.K_AIRFLOW_DOWNSAMPLE : ℚ)
    let ty ← m.state_cur.p_type[i]?
    let ax ← getI m.airflow_solver.vx im_air
    let ay ← getI m.airflow_solver.vy im_air
    let diff : FVec2 ←
      if ty ≠ ParticleType.Iron then do
        let v_p ← m.state_cur.p_vel[i]?
        pure (vsub v_p (ax, ay))
      else pure (fmul (some (-1)) ax, fmul (some (-1)) ay)
    let vx ← setI m.airflow_solver.vx im_air (fadd ax (fdiv (fdiv diff.1 K) K))
    let vy ← setI m.airflow_solver.vy im_air (fadd ay (fdiv (fdiv diff.2 K) K))
    pure { m with airflow_solver := { m.airflow_solver with vx := vx, vy := vy } }

/-- `void compute_air_flow()` -/
def compute_air_flow (E : Env) (m : GameModel) : Option GameModel := do
  let m ← forRange m.state_cur.particles (air_flow_step E) m
  pure { m with airflow_solver := E.animVel m.airflow_solver }

/-- `void update()` -/
def update (E : Env) (m : GameModel) : Option GameModel := do
  let m : GameModel := { m with frame_counter := m.frame_counter + 1 }
  let m ← m.prepare
  let m ← m.compute_heat E
  let m ← m.compute_vel E
  let m ← m.compute_position E
  let m ← m.compute_air_flow E
  let m ← m.handle_change_heat E
  let m ← m.handle_new_particles E
  m.complete E

end GameModel

/-! ## Concrete inputs -/

/-- A stable instance of `std::sort`: insertion sort, which keeps equal keys in their order. -/
def stableSort (comp : Nat → Nat → Bool) (l : List Nat) : List Nat :=
  l.insertionSort (fun a b => comp b a = false)

/-- Another instance of `std::sort`: the same insertion sort run on the reversed input, which
reverses the order of equal keys. -/
def reversingSort (comp : Nat → Nat → Bool) (l : List Nat) : List Nat :=
  l.reverse.insertionSort (fun a b => comp b a = false)

/-- An environment for the concrete inputs: unit masses and diffusivities, time step `1/10`,
restitution `1`, downsample factors `1`, a random source that always returns `0` and a random
sample that always picks the first occupant.  Its square root is the identity, which is exact at
`0` and `1`, the only squared lengths the concrete inputs produce. -/
def exEnv : Env :=
  { K_DT := 1 / 10
    K_RESTITUTION := 1
    K_HEAT_DELTA := 1
    K_GRAVITY := 10
    K_AIR_RESISTANCE := 1
    K_COLLISION_STEP_LENGTH := 1 / 2
    K_LIQUID_DOWNSAMPLE := 1
    K_AIRFLOW_DOWNSAMPLE := 1
    K_LIQUID_ITERATIONS := 1
    H := 1
    SPIKY_GRAD := 1
    VISC := 1
    VISC_LAP := 1
    particle_mass := fun _ => 1
    particle_diff := fun _ => 1
    kernel_fn := fun r => r
    sqrt := fun q => q
    random := fun _ => 0
    random_sample := fun _ a _ => a
    sort := stableSort
    animVel := fun a => a }

/-- A 1 x 1 canvas whose only cell holds one particle of heat `5`. -/
def exSingle : GameModel :=
  { width := 1
    height := 1
    state_cur :=
      { particles := 1
        map_index := [{ from_ := 0, to_ := 0 }]
        map_block_liquid := [{ idx_lp := [] }]
        p_type := [ParticleType.Sand]
        p_heat := [some 5]
        p_pos := [(1 / 2, 1 / 2)]
        p_vel := [(some 0, some 0)] } }

/-- A 1 x 1 canvas whose only cell holds two particles, of heat `2` and `4`. -/
def exPair : GameModel :=
  { width := 1
    height := 1
    state_cur :=
      { particles := 2
        map_index := [{ from_ := 0, to_ := 1 }]
        map_block_liquid := [{ idx_lp := [] }]
        p_type := [ParticleType.Sand, ParticleType.Sand]
        p_heat := [some 2, some 4]
        p_pos := [(1 / 4, 1 / 2), (3 / 4, 1 / 2)]
        p_vel := [(some 0, some 0), (some 0, some 0)] } }

/-- Two unit-mass particles in the two cells of a 2 x 1 canvas: particle `0` moves right by one
cell per frame towards particle `1`; their next-generation velocities (as `compute_vel` could
leave them) are `(1, 0)` and `(-1, 0)`. -/
def exCollide : GameModel :=
  { width := 2
    height := 1
    state_cur :=
      { particles := 2
        map_index := [{ from_ := 0, to_ := 0 }, { from_ := 1, to_ := 1 }]
        map_block_liquid := [{ idx_lp := [] }, { idx_lp := [] }]
        p_type := [ParticleType.Sand, ParticleType.Sand]
        p_heat := [some 0, some 0]
        p_pos := [(1 / 2, 1 / 2), (3 / 2, 1 / 2)]
        p_vel := [(some 10, some 0), (some 0, some 0)] }
    state_next :=
      { particles := 2
        p_type := [ParticleType.Sand, ParticleType.Sand]
        p_heat := [some 0, some 0]
        p_pos := [(1 / 2, 1 / 2), (3 / 2, 1 / 2)]
        p_vel := [(some 1, some 0), (some (-1), some 0)] } }

/-- A 2 x 1 canvas: cell `(0, 0)` holds particles `0` and `1` of heat `0`, cell `(1, 0)` holds
particles `2` and `3` of heat `1`. -/
def exHeat : GameModel :=
  { width := 2
    height := 1
    state_cur :=
      { particles := 4
        map_index := [{ from_ := 0, to_ := 1 }, { from_ := 2, to_ := 3 }]
        map_block_liquid := [{ idx_lp := [] }, { idx_lp := [] }]
        p_type := List.replicate 4 ParticleType.Sand
        p_heat := [some 0, some 0, some 1, some 1]
        p_pos := [(1 / 4, 1 / 2), (3 / 4, 1 / 2), (5 / 4, 1 / 2), (7 / 4, 1 / 2)]
        p_vel := List.replicate 4 (some 0, some 0) } }

/-! ## The heat rule in the words of the spec -/

namespace GameModel

/-- The average heat of cell `c` as the spec words it: the arithmetic mean of the heats of the
particles occupying the cell, `0` for a cell without particles or outside the canvas. -/
def mean_heat (m : GameModel) (c : IVec2) : Option Flt :=
  if m.in_bound c then do
    let list ← getI m.state_cur.map_index (m.idx c)
    if list.nil then pure (some 0)
    else do
      let sum ← sum_heat m.state_cur.p_heat list
      pure (fdiv sum (some ((list.to_ - list.from_ + 1 : Int) : ℚ)))
  else pure (some 0)

/-- The update rule of the spec for particle `ip`, read off the generation `m`:
`heat + dt * diffusivity(type) * (sum of the 4 neighbour averages - 4 * heat)`, for the
averaging function `avg`. -/
def heat_rule (E : Env) (avg : GameModel → IVec2 → Option Flt) (m : GameModel) (ip : Nat) :
    Option Flt := do
  let c := f2i (← m.state_cur.p_pos[ip]?)
  let h ← m.state_cur.p_heat[ip]?
  let ty ← m.state_cur.p_type[ip]?
  let a_up ← avg m (c.1, c.2 - 1)
  let a_down ← avg m (c.1, c.2 + 1)
  let a_left ← avg m (c.1 - 1, c.2)
  let a_right ← avg m (c.1 + 1, c.2)
  pure (fadd h (fmul (fmul (some E.K_DT) (some (E.particle_diff ty)))
    (fsub (fadd (fadd (fadd a_up a_down) a_left) a_right) (fmul (some 4) h))))

end GameModel

/-! ## Notions used to state the properties of `complete` -/

namespace GameModel

/-- The cell index `idx(f2i(state_next.p_pos[ip]))` of next-generation particle `ip`. -/
def next_cell (m : GameModel) (ip : Nat) : Int :=
  m.idx (f2i (m.state_next.p_pos.getD ip (0, 0)))

/-- Next-generation particle `ip` has a type other than `None`. -/
def is_survivor (m : GameModel) (ip : Nat) : Bool :=
  decide (m.state_next.p_type.getD ip ParticleType.None ≠ ParticleType.None)

/-- The next-generation particles whose type is not `None`, in ascending order of index. -/
def survivors (m : GameModel) : List Nat :=
  (List.range m.state_next.particles).filter m.is_survivor

/-- The columns of the next generation hold exactly `particles` entries, as `reset` and the
`push_back`s of `handle_new_particles` leave them. -/
def NextWF (m : GameModel) : Prop :=
  m.state_next.p_type.length = m.state_next.particles ∧
  m.state_next.p_pos.length = m.state_next.particles ∧
  m.state_next.p_vel.length = m.state_next.particles ∧
  m.state_next.p_heat.length = m.state_next.particles

/-- What the constructor establishes and no operation changes: the canvas sizes are multiples
of the (positive) liquid downsample factor, `map_index` has one entry per cell and
`map_block_liquid` one per liquid block. -/
def CanvasWF (E : Env) (m : GameModel) : Prop :=
  0 < E.K_LIQUID_DOWNSAMPLE ∧ E.K_LIQUID_DOWNSAMPLE ∣ m.width ∧ E.K_LIQUID_DOWNSAMPLE ∣ m.height ∧
  0 ≤ m.width ∧ 0 ≤ m.height ∧
  (m.state_cur.map_index.length : Int) = m.width * m.height ∧
  (m.state_cur.map_block_liquid.length : Int)
    = Int.tdiv (Int.tdiv (m.width * m.height) E.K_LIQUID_DOWNSAMPLE) E.K_LIQUID_DOWNSAMPLE

/-- Every surviving next-generation particle has a floored position on the canvas. -/
def SurvivorsInBound (m : GameModel) : Prop :=
  ∀ ip ∈ m.survivors, m.in_bound (f2i (m.state_next.p_pos.getD ip (0, 0))) = true

end GameModel

/-- The state of the cell ranges after the particles `0 .. k-1` have been appended, particle
`j` to the cell of index `key j`: the range of cell `c` is nil exactly when none of them has key
`c`, and otherwise it is a non-empty interval inside `[0, k)` that holds exactly those of key
`c`. -/
def IndexInv (key : Nat → Int) (k : Nat) (mi : List PixelParticleList) : Prop :=
  ∀ (c : Nat) (r : PixelParticleList), mi[c]? = some r →
    (r.nil = true ↔ ∀ j, j < k → key j ≠ (c : Int)) ∧
    (r.nil = false → 0 ≤ r.from_ ∧ r.from_ ≤ r.to_ ∧ r.to_ < (k : Int) ∧
      ∀ j : Nat, j < k → (key j = (c : Int) ↔ r.from_ ≤ (j : Int) ∧ (j : Int) ≤ r.to_))

/-- A 2 x 1 canvas whose next generation has particle `0` in cell `(1, 0)` and particles `1`
and `2` in cell `(0, 0)`. -/
def exTie : GameModel :=
  { width := 2
    height := 1
    state_cur := { map_index := [{ }, { }], map_block_liquid := [{ idx_lp := [] }, { idx_lp := [] }] }
    state_next :=
      { particles := 3
        p_type := [ParticleType.Sand, ParticleType.Sand, ParticleType.Sand]
        p_heat := [some 0, some 0, some 0]
        p_pos := [(3 / 2, 1 / 2), (1 / 4, 1 / 2), (3 / 4, 1 / 2)]
        p_vel := [(some 0, some 0), (some 0, some 0), (some 0, some 0)] } }

/-- The environment `exEnv` with `reversingSort` for `std::sort`. -/
def tieEnv : Env := { exEnv with sort := reversingSort }

namespace GameModel

/-- The state of `complete` after `k` iterations of its second loop. -/
def CopyInv (m : GameModel) (rb : ReorderBuffer) (k : Nat) (mk : GameModel) : Prop :=
  mk = { m with reorder_buf := rb, state_cur := mk.state_cur } ∧
  mk.state_cur.particles = rb.sort.length ∧
  mk.state_cur.p_pos.length = rb.sort.length ∧
  mk.state_cur.p_type.length = rb.sort.length ∧
  mk.state_cur.p_vel.length = rb.sort.length ∧
  mk.state_cur.p_heat.length = rb.sort.length ∧
  mk.state_cur.map_index.length = m.state_cur.map_index.length ∧
  mk.state_cur.map_block_liquid.length = m.state_cur.map_block_liquid.length ∧
  (∀ j o, j < k → rb.sort[j]? = some o →
    mk.state_cur.p_pos[j]? = m.state_next.p_pos[o]? ∧
    mk.state_cur.p_type[j]? = m.state_next.p_type[o]? ∧
    mk.state_cur.p_vel[j]? = m.state_next.p_vel[o]? ∧
    mk.state_cur.p_heat[j]? = m.state_next.p_heat[o]?) ∧
  IndexInv (fun j => m.next_cell (rb.sort.getD j 0)) k mk.state_cur.map_index

end GameModel

/-- A 2 x 1 canvas with one particle in cell `(1, 0)` that moves right by one cell per frame;
the next generation is the snapshot of the current one. -/
def exLeave : GameModel :=
  { width := 2
    height := 1
    state_cur :=
      { particles := 1
        map_index := [{ }, { from_ := 0, to_ := 0 }]
        map_block_liquid := [{ idx_lp := [] }, { idx_lp := [] }]
        p_type := [ParticleType.Sand]
        p_heat := [some 0]
        p_pos := [(3 / 2, 1 / 2)]
        p_vel := [(some 10, some 0)] }
    state_next :=
      { particles := 1
        p_type := [ParticleType.Sand]
        p_heat := [some 0]
        p_pos := [(3 / 2, 1 / 2)]
        p_vel := [(some 10, some 0)] } }

/-- The model `exLeave` after `compute_position`: the particle has reached `(2, 1/2)`, outside
the canvas, and its type is `None`. -/
def exLeft : GameModel :=
  { exLeave with
    rng := 2
    state_next :=
      { particles := 1
        p_type := [ParticleType.None]
        p_heat := [some 0]
        p_pos := [(2, 1 / 2)]
        p_vel := [(some 10, some 0)] } }

/-! ## Notions used to state the properties of the brushes -/

namespace GameModel

/-- The cells that the two nested loops of a brush with centre `center` and radius `radius`
visit, in the order of the visits. -/
def brush_box (center : Vec2) (radius : ℚ) : List IVec2 :=
  (intRange ((f2i center).1 - truncQ (radius + 1)) ((f2i center).1 + truncQ (radius + 1))) ×ˢ
    (intRange ((f2i center).2 - truncQ (radius + 1)) ((f2i center).2 + truncQ (radius + 1)))

/-- Cell `c` receives a particle from the pending spawn brush: it is on the canvas, within the
radius, and its current-generation range is nil. -/
def spawn_here (m : GameModel) (c : IVec2) : Bool :=
  m.in_bound c &&
  distance_le ((c.1 : ℚ), (c.2 : ℚ)) m.cur_particle_brush.center m.cur_particle_brush.radius &&
  (match getI m.state_cur.map_index (m.idx c) with
   | some lst => lst.nil
   | none => false)

/-- The positions of the particles spawned for `cells` when the random source has been drawn
from `rng` times: the cell plus a fifth of the next two draws. -/
def spawn_positions (E : Env) : Nat → List IVec2 → List Vec2
  | _, [] => []
  | rng, c :: cs =>
    ((c.1 : ℚ) + E.random rng * (1 / 5), (c.2 : ℚ) + E.random (rng + 1) * (1 / 5))
      :: spawn_positions E (rng + 2) cs

/-- The model after one particle of the brush type has been appended for each of `cells`. -/
def spawned (E : Env) (m : GameModel) (cells : List IVec2) : GameModel :=
  { m with
    rng := m.rng + 2 * cells.length
    state_next :=
      { particles := m.state_next.particles + cells.length
        p_pos := m.state_next.p_pos ++ spawn_positions E m.rng cells
        p_type := m.state_next.p_type ++ List.replicate cells.length m.cur_particle_brush.type
        p_vel := m.state_next.p_vel ++ List.replicate cells.length (some 0, some 0)
        p_heat := m.state_next.p_heat ++ List.replicate cells.length (some 0) } }

end GameModel

/-- An empty 3 x 3 canvas with a pending `Sand` brush of radius `1` at `(3/2, 3/2)`. -/
def exBrush : GameModel :=
  { width := 3
    height := 3
    state_cur :=
      { map_index := List.replicate 9 { }
        map_block_liquid := List.replicate 9 { idx_lp := [] } }
    cur_particle_brush := { type := ParticleType.Sand, center := (3 / 2, 3 / 2), radius := 1 } }

namespace GameModel

/-- Particle index `ip` lies in the current-generation range of cell `c`, and `c` is on the
canvas and within the radius of the pending heat brush. -/
def heated_by (m : GameModel) (c : IVec2) (ip : Int) : Bool :=
  m.in_bound c &&
  distance_le ((c.1 : ℚ), (c.2 : ℚ)) m.cur_heat_brush.center m.cur_heat_brush.radius &&
  (match getI m.state_cur.map_index (m.idx c) with
   | some lst => !lst.nil && decide (lst.from_ ≤ ip ∧ ip ≤ lst.to_)
   | none => false)

/-- Particle index `ip` lies in the current-generation range of some cell that is on the canvas
and within Euclidean distance `radius` of the centre of the pending heat brush. -/
def under_heat_brush (m : GameModel) (ip : Int) : Prop :=
  ∃ (c : IVec2) (lst : PixelParticleList), m.in_bound c = true ∧
    Real.sqrt (((c.1 : ℝ) - (m.cur_heat_brush.center.1 : ℝ)) ^ 2
      + ((c.2 : ℝ) - (m.cur_heat_brush.center.2 : ℝ)) ^ 2) ≤ (m.cur_heat_brush.radius : ℝ) ∧
    getI m.state_cur.map_index (m.idx c) = some lst ∧ lst.nil = false ∧
    lst.from_ ≤ ip ∧ ip ≤ lst.to_

/-- The model with the heat column of the next generation replaced. -/
def with_heat (m : GameModel) (p_heat : List Flt) : GameModel :=
  { m with state_next := { m.state_next with p_heat := p_heat } }

end GameModel

/-- A 1 x 1 canvas whose cell holds two particles, with a pending heating brush over it. -/
def exHeatBrush : GameModel :=
  { exPair with
    state_next :=
      { particles := 2
        p_type := [ParticleType.Sand, ParticleType.Sand]
        p_heat := [some 2, some 4]
        p_pos := [(1 / 4, 1 / 2), (3 / 4, 1 / 2)]
        p_vel := [(some 0, some 0), (some 0, some 0)] }
    has_heat_brush := true
    cur_heat_brush := { center := (1 / 2, 1 / 2), radius := 1, increase := true } }

namespace GameModel

/-- The model after `n` calls of `update`. -/
def update_n (E : Env) : Nat → GameModel → Option GameModel
  | 0, m => some m
  | n + 1, m => (m.update E).bind (update_n E n)

end GameModel

/-- A freshly constructed 2 x 2 canvas. -/
def exEmpty : GameModel :=
  { width := 2, height := 2, state_cur := StateCur.init exEnv 4 }

/-- The model between two frames, after a frame in which particle `0` of the next generation
(heat `1`) left the canvas and particle `1` (heat `0`) stayed: the current generation holds the
one survivor, the next generation still holds the two particles of the frame before. -/
def exSnapshot : GameModel :=
  { width := 2
    height := 1
    state_cur :=
      { particles := 1
        map_index := [{ }, { from_ := 0, to_ := 0 }]
        map_block_liquid := [{ idx_lp := [] }, { idx_lp := [] }]
        p_type := [ParticleType.Sand]
        p_heat := [some 0]
        p_pos := [(3 / 2, 1 / 2)]
        p_vel := [(some 0, some 0)] }
    state_next :=
      { particles := 2
        p_type := [ParticleType.None, ParticleType.Sand]
        p_heat := [some 1, some 0]
        p_pos := [(-1 / 2, 1 / 2), (3 / 2, 1 / 2)]
        p_vel := [(some (-10), some 0), (some 0, some 0)] } }

/-! ## The collision response in the words of the spec -/

/-- The mover's velocity after a collision as the spec writes it, on one axis:
`v1' = (m1·v1 + m2·v2 + e·m2·(v2 − v1)) / (m1 + m2)`. -/
def restitution_mover (e m1 m2 v1 v2 : ℚ) : ℚ :=
  (m1 * v1 + m2 * v2 + e * m2 * (v2 - v1)) / (m1 + m2)

/-- The target's velocity after a collision as the spec writes it, on one axis:
`v2' = (m1·v1 + m2·v2 + e·m1·(v1 − v2)) / (m1 + m2)`. -/
def restitution_target (e m1 m2 v1 v2 : ℚ) : ℚ :=
  (m1 * v1 + m2 * v2 + e * m1 * (v1 - v2)) / (m1 + m2)

/-- The environment `exEnv` with restitution `1/2` and water three times as heavy as the other
particle types. -/
def heavyEnv : Env :=
  { exEnv with
    K_RESTITUTION := 1 / 2
    particle_mass := fun t => if t = ParticleType.Water then 3 else 1 }

/-- The two particles of `exCollide`, the target being water: a sand particle moving right
towards a water particle in the next cell. -/
def exImpact : GameModel :=
  { exCollide with
    state_cur := { exCollide.state_cur with p_type := [ParticleType.Sand, ParticleType.Water] }
    state_next := { exCollide.state_next with p_type := [ParticleType.Sand, ParticleType.Water] } }

/-! ## The constructor with the air field -/

/-- Modelled from the spec: `initialize(rows, cols, dt)` followed by `reset()` of the air-field
collaborator (`air_solver.h` is absent).  The spec gives the per-cell arrays as row-major of size
`rows · cols`; what the cells hold at the start is not said and is taken as `v0` for the two
velocity arrays and `p0` for the pressure. -/
def AirSolver.init (rows cols : Int) (v0 p0 : Flt) : AirSolver :=
  { vx := List.replicate (rows * cols).toNat v0
    vy := List.replicate (rows * cols).toNat v0
    lp_p := List.replicate (rows * cols).toNat p0 }

/-- `GameModel(int w, int h)` with the air field that
`airflow_solver.init(h / K_AIRFLOW_DOWNSAMPLE, w / K_AIRFLOW_DOWNSAMPLE, K_DT)` and
`airflow_solver.reset()` leave. -/
def GameModel.create (E : Env) (w h : Int) (v0 p0 : Flt) : Option GameModel :=
  GameModel.init E w h
    (AirSolver.init (Int.tdiv h E.K_AIRFLOW_DOWNSAMPLE) (Int.tdiv w E.K_AIRFLOW_DOWNSAMPLE) v0 p0)

/-- The environment `exEnv` with air cells of 2 x 2 canvas cells. -/
def airEnv : Env := { exEnv with K_AIRFLOW_DOWNSAMPLE := 2 }

/-- An 8 x 8 canvas with one particle of type `ty` and velocity `(1, 2)` in cell `(3, 3)`, three
cells away from the nearest edge, over an air field of 4 x 4 cells that all have velocity
`(4, -8)`. -/
def exAir (ty : ParticleType) : GameModel :=
  { width := 8
    height := 8
    airflow_solver :=
      { vx := List.replicate 16 (some 4)
        vy := List.replicate 16 (some (-8))
        lp_p := List.replicate 16 (some 0) }
    state_cur :=
      { particles := 1
        map_index := (List.replicate 64 { }).set 27 { from_ := 0, to_ := 0 }
        map_block_liquid := List.replicate 64 { idx_lp := [] }
        p_type := [ty]
        p_heat := [some 0]
        p_pos := [(7 / 2, 7 / 2)]
        p_vel := [(some 1, some 2)] } }

/-! ## Particles as tuples -/

/-- A particle as the tuple `(type, position, velocity, heat)`. -/
abbrev Particle := ParticleType × Vec2 × FVec2 × Flt

/-- The particles of four columns, in the order of their indices. -/
def particle_tuples (p_type : List ParticleType) (p_pos : List Vec2) (p_vel : List FVec2)
    (p_heat : List Flt) : List Particle :=
  List.zip p_type (List.zip p_pos (List.zip p_vel p_heat))

/-- The particles of the current generation. -/
def StateCur.tuples (s : StateCur) : List Particle :=
  particle_tuples s.p_type s.p_pos s.p_vel s.p_heat

/-- The particles of the next generation. -/
def StateNext.tuples (s : StateNext) : List Particle :=
  particle_tuples s.p_type s.p_pos s.p_vel s.p_heat

/-- A 2 x 1 canvas whose next generation has a water particle in cell `(1, 0)`, a particle that
left the canvas (type `None`) and a sand particle in cell `(0, 0)`; the liquid lists of the
current generation still hold the water particles `0` and `1` of the frame before. -/
def exMixed : GameModel :=
  { width := 2
    height := 1
    state_cur :=
      { map_index := [{ }, { }]
        map_block_liquid := [{ idx_lp := [0, 1] }, { idx_lp := [] }] }
    state_next :=
      { particles := 3
        p_type := [ParticleType.Water, ParticleType.None, ParticleType.Sand]
        p_heat := [some 3, some 4, some 5]
        p_pos := [(3 / 2, 1 / 2), (-1 / 2, 1 / 2), (1 / 4, 1 / 2)]
        p_vel := [(some 1, some 0), (some (-10), some 0), (some 0, some 2)] } }

/-- The state of the liquid lists after the particles `0 .. k-1` have been handled, `water j b`
telling whether particle `j` is water in block `b`: the list of block `b` holds exactly those
`j < k` with `water j b`, each once, in ascending order. -/
def LiquidInv (water : Nat → Nat → Bool) (k : Nat) (mb : List BlockLiquidList) : Prop :=
  ∀ (b : Nat) (l : BlockLiquidList), mb[b]? = some l →
    l.idx_lp = List.map (fun j : Nat => (j : Int)) ((List.range k).filter (fun j => water j b))

namespace GameModel

/-- Next-generation particle `o` is water and its position lies in liquid block `b`. -/
def next_water (E : Env) (m : GameModel) (o b : Nat) : Bool :=
  decide (m.state_next.p_type.getD o ParticleType.None = ParticleType.Water ∧
    m.idx_liquid E (f2i (m.state_next.p_pos.getD o (0, 0))) = (b : Int))

/-- Current particle `i` is water and its position lies in liquid block `b`. -/
def cur_water (E : Env) (m : GameModel) (i b : Nat) : Bool :=
  decide (m.state_cur.p_type.getD i ParticleType.None = ParticleType.Water ∧
    m.idx_liquid E (f2i (m.state_cur.p_pos.getD i (0, 0))) = (b : Int))

end GameModel

/-! ## The drag of `sample_acc_air_g` -/

namespace GameModel

end GameModel

/-- The environment `exEnv` with a random source that returns `-1/2` on its even draws and `1/2`
on its odd draws, two values inside `[-1, 1]`. -/
def jitterEnv : Env :=
  { exEnv with random := fun n => if n % 2 = 0 then -1 / 2 else 1 / 2 }

/-- A `Sand` brush of radius `0` centred on the corner of cell `(x, y)`: it covers that cell
only. -/
def cellBrush (x y : ℚ) : ParticleBrush :=
  { type := ParticleType.Sand, center := (x, y), radius := 0 }

/-- The environment `exEnv` with the support radius `H = 2`. -/
def wideEnv : Env := { exEnv with H := 2 }

/-- A 2 x 1 canvas with a resting water particle in the middle of each cell, at distance `1`
from each other; liquid blocks are single cells, so the two particles lie in neighbouring
blocks.  The next generation is the snapshot of the current one. -/
def exWater : GameModel :=
  { width := 2
    height := 1
    airflow_solver :=
      { vx := [some 0, some 0], vy := [some 0, some 0], lp_p := [some 0, some 0] }
    state_cur :=
      { particles := 2
        map_index := [{ from_ := 0, to_ := 0 }, { from_ := 1, to_ := 1 }]
        map_block_liquid := [{ idx_lp := [0] }, { idx_lp := [1] }]
        p_type := [ParticleType.Water, ParticleType.Water]
        p_heat := [some 0, some 0]
        p_pos := [(1 / 2, 1 / 2), (3 / 2, 1 / 2)]
        p_vel := [(some 0, some 0), (some 0, some 0)] }
    state_next :=
      { particles := 2
        p_type := [ParticleType.Water, ParticleType.Water]
        p_heat := [some 0, some 0]
        p_pos := [(1 / 2, 1 / 2), (3 / 2, 1 / 2)]
        p_vel := [(some 0, some 0), (some 0, some 0)] } }

/-- The model `exWater` as the inner loop of `compute_vel_liquid` finds it in its first
sub-step: the scratch copies are seeded and `reset_lp(0)` has emptied `lp_rho` and `lp_p`. -/
def exWaterSeeded : GameModel :=
  { exWater with
    liquid_buf :=
      { p_im_pos := [(some (1 / 2), some (1 / 2)), (some (3 / 2), some (1 / 2))]
        p_im_vel := [(some 0, some 0), (some 0, some 0)]
        p_idx_mapping := [0, 1]
        lp_rho := []
        lp_p := [] } }

/-! ## Notions for the collision march -/

/-- The `j`-th sample of the march from `p` with step `delta`: `p + j * delta`. -/
def ray (p delta : Vec2) (j : Nat) : Vec2 := (p.1 + (j : ℚ) * delta.1, p.2 + (j : ℚ) * delta.2)

/-- The point `p` lies on the closed segment from `a` to `b`: `p - a` is parallel to `b - a`
and its projection on `b - a` lies between `0` and the squared length of `b - a`. -/
def on_segment (a b p : Vec2) : Bool :=
  decide ((p.1 - a.1) * (b.2 - a.2) = (p.2 - a.2) * (b.1 - a.1) ∧
    0 ≤ (p.1 - a.1) * (b.1 - a.1) + (p.2 - a.2) * (b.2 - a.2) ∧
    (p.1 - a.1) * (b.1 - a.1) + (p.2 - a.2) * (b.2 - a.2)
      ≤ (b.1 - a.1) * (b.1 - a.1) + (b.2 - a.2) * (b.2 - a.2))

namespace GameModel

/-- The step `delta = normalize(end - start) * K_COLLISION_STEP_LENGTH` of `detect_collision`,
for a segment whose length is finite and not zero. -/
def march_step (E : Env) (start end_ : Vec2) : Vec2 :=
  ((end_.1 - start.1) / length E (end_.1 - start.1, end_.2 - start.2)
      * E.K_COLLISION_STEP_LENGTH,
    (end_.2 - start.2) / length E (end_.1 - start.1, end_.2 - start.2)
      * E.K_COLLISION_STEP_LENGTH)

/-- The number `steps = length(end - start) / K_COLLISION_STEP_LENGTH` of `detect_collision`,
for a step length other than zero. -/
def march_steps (E : Env) (start end_ : Vec2) : Int :=
  truncQ (length E (end_.1 - start.1, end_.2 - start.2) / E.K_COLLISION_STEP_LENGTH)

end GameModel

/-- The environment `exEnv` with the square root of rationals, exact on squares; the collision
step length is `1/2`. -/
def marchEnv : Env := { exEnv with sqrt := Rat.sqrt }

/-- A 2 x 1 canvas: particle `0` at `(1/4, 1/2)` in cell `(0, 0)` moves right with velocity
`(5/2, 0)`, a quarter of a cell per frame; particle `1` rests in cell `(1, 0)`.  The next
generation is the snapshot of the current one. -/
def exNear : GameModel :=
  { width := 2
    height := 1
    state_cur :=
      { particles := 2
        map_index := [{ from_ := 0, to_ := 0 }, { from_ := 1, to_ := 1 }]
        map_block_liquid := [{ idx_lp := [] }, { idx_lp := [] }]
        p_type := [ParticleType.Sand, ParticleType.Sand]
        p_heat := [some 0, some 0]
        p_pos := [(1 / 4, 1 / 2), (3 / 2, 1 / 2)]
        p_vel := [(some (5 / 2), some 0), (some 0, some 0)] }
    state_next :=
      { particles := 2
        p_type := [ParticleType.Sand, ParticleType.Sand]
        p_heat := [some 0, some 0]
        p_pos := [(1 / 4, 1 / 2), (3 / 2, 1 / 2)]
        p_vel := [(some (5 / 2), some 0), (some 0, some 0)] } }

/-- A 1 x 1 canvas with one particle at `(1/20, 1/20)` that moves with velocity `(6, 8)`, a
segment of length `1` per frame towards `(13/20, 17/20)`, a point of the same cell. -/
def exCorner : GameModel :=
  { width := 1
    height := 1
    state_cur :=
      { particles := 1
        map_index := [{ from_ := 0, to_ := 0 }]
        map_block_liquid := [{ idx_lp := [] }]
        p_type := [ParticleType.Sand]
        p_heat := [some 0]
        p_pos := [(1 / 20, 1 / 20)]
        p_vel := [(some 6, some 8)] }
    state_next :=
      { particles := 1
        p_type := [ParticleType.Sand]
        p_heat := [some 0]
        p_pos := [(1 / 20, 1 / 20)]
        p_vel := [(some 6, some 8)] } }

/-- The outcome of `detect_collision` for particle `0` of `exNear` on the way from `(1/4, 1/2)`
to `(5/4, 1/2)`: a hit on particle `1`, one step before the sample `(5/4, 1/2)`. -/
def exNearHit : GameModel.Detection :=
  { collided := true, result := { pos := (3 / 4, 1 / 2), target_index := 1 }, rng := 1 }

/-! ## Notions for the rigid particles -/

namespace GameModel

/-- The model `b` has the particles of `a`: the same count and types in the current generation,
and the same types, positions and count in the next generation. -/
def SameParticles (a b : GameModel) : Prop :=
  b.state_cur.particles = a.state_cur.particles ∧
  b.state_cur.p_type = a.state_cur.p_type ∧
  b.state_next.p_type = a.state_next.p_type ∧
  b.state_next.p_pos = a.state_next.p_pos ∧
  b.state_next.particles = a.state_next.particles

/-- Particle `i` is Iron in the current generation, and Iron at position `pos` in the next
generation. -/
def IronKept (i : Nat) (pos : Vec2) (x : GameModel) : Prop :=
  x.state_cur.p_type[i]? = some ParticleType.Iron ∧
  x.state_next.p_type[i]? = some ParticleType.Iron ∧
  x.state_next.p_pos[i]? = some pos ∧
  i < x.state_next.particles

end GameModel

/-- A 2 x 1 canvas over still air: particle `0` is Iron and rests in cell `(0, 0)`; particle
`1` is Sand in cell `(1, 0)` and moves towards it with velocity `(-5, 0)`, half a cell per
frame. -/
def exIron : GameModel :=
  { width := 2
    height := 1
    airflow_solver :=
      { vx := [some 0, some 0], vy := [some 0, some 0], lp_p := [some 0, some 0] }
    state_cur :=
      { particles := 2
        map_index := [{ from_ := 0, to_ := 0 }, { from_ := 1, to_ := 1 }]
        map_block_liquid := [{ idx_lp := [] }, { idx_lp := [] }]
        p_type := [ParticleType.Iron, ParticleType.Sand]
        p_heat := [some 0, some 0]
        p_pos := [(1 / 2, 1 / 2), (3 / 2, 1 / 2)]
        p_vel := [(some 0, some 0), (some (-5), some 0)] } }

/-- The model `exIron` after one `update` (`exIron` itself should `update` have no result). -/
def exIronAfter : GameModel := (exIron.update marchEnv).getD exIron

/-- The largest `s ≤ fuel` with `s * s ≤ n`, or `0`: the integer square root of `n`, rounded
down, for `fuel ≥ n`. -/
def sqrtDown (n : Nat) : Nat → Nat
  | 0 => 0
  | s + 1 => if (s + 1) * (s + 1) ≤ n then s + 1 else sqrtDown n s

/-- A square root rounded down to one decimal: `floor (sqrt (floor (100 q))) / 10`. -/
def floorSqrt (q : ℚ) : ℚ :=
  ((sqrtDown (Int.floor (q * 100)).toNat (Int.floor (q * 100)).toNat : Nat) : ℚ) / 10

/-- The environment `exEnv` with the square root rounded down to one decimal; the collision
step length is `1/2`. -/
def floorEnv : Env := { exEnv with sqrt := floorSqrt }

/-! # Properties -/

/-! ## The contract of `PixelParticleList::append` -/

/-- C9: on a nil range `append(i)` with `i >= 0` succeeds and yields `from = to = i`; on a
non-nil range `append(i)` succeeds if and only if `i = to + 1`, and then `to` becomes `i` while
`from` is unchanged; otherwise the assertion fails and no extended range is produced. -/
theorem append_contract (l : PixelParticleList) (i : Int) :
    (l.nil = true → 0 ≤ i → l.append i = some { from_ := i, to_ := i }) ∧
    (l.nil = false →
      ((l.append i).isSome = true ↔ i = l.to_ + 1) ∧
      (i = l.to_ + 1 → l.append i = some { from_ := l.from_, to_ := i }) ∧
      (i ≠ l.to_ + 1 → l.append i = none)) := by
  refine ⟨fun hn _ => by simp [PixelParticleList.append, hn], fun hn => ?_⟩
  by_cases h : i = l.to_ + 1
  · simp [PixelParticleList.append, hn, h]
  · simp [PixelParticleList.append, hn, h]

/-- The contract of `append` at the nil range and at the range `[2, 4]`. -/
theorem append_contract_witness :
    ({ } : PixelParticleList).append 7 = some { from_ := 7, to_ := 7 } ∧
    ({ from_ := 2, to_ := 4 } : PixelParticleList).append 5 = some { from_ := 2, to_ := 5 } ∧
    ({ from_ := 2, to_ := 4 } : PixelParticleList).append 6 = none :=
  ⟨(append_contract { } 7).1 (by decide) (by decide),
   ((append_contract { from_ := 2, to_ := 4 } 5).2 (by decide)).2.1 (by decide),
   ((append_contract { from_ := 2, to_ := 4 } 6).2 (by decide)).2.2 (by decide)⟩

/-! ## `average_heat` -/

/-- C5: `average_heat` divides the sum of the heats of a cell by `to - from`, one less than the
number of occupants: for a cell with the single occupant of heat `5` the result is `5 / 0`, a
non-finite value and not `5`, and for a cell with occupants of heat `2` and `4` it is `6`, not
their mean `3`. -/
theorem average_heat_divides_by_count_minus_one :
    exSingle.average_heat (0, 0) = some none ∧
    exPair.average_heat (0, 0) = some (some 6) := by
  constructor <;> decide!

/-! ## Reading and writing vectors -/

theorem getI_natCast {α : Type} (l : List α) (i : Nat) : getI l (i : Int) = l[i]? := by
  simp [getI]

theorem setI_natCast {α : Type} (l : List α) (i : Nat) (a : α) :
    setI l (i : Int) a = setAt l i a := by
  simp [setI]

theorem lt_length_of_getElem?_eq_some {α : Type} {l : List α} {i : Nat} {a : α}
    (h : l[i]? = some a) : i < l.length := by
  by_contra hlt
  rw [List.getElem?_eq_none (by omega)] at h
  exact Option.noConfusion h

/-! ## The collision response -/

namespace GameModel

theorem collision_axis_equal_mass (E : Env) (hK : E.K_RESTITUTION = 1) (mass : ℚ)
    (hm : 0 < mass) (v1 v2 : ℚ) :
    collision_axis E mass mass (some v1) (some v2) = (some v2, some v1) := by
  have h2 : mass + mass ≠ 0 := by positivity
  simp only [collision_axis, fadd, fmul, fsub, fdiv, hK, if_neg h2]
  refine Prod.ext ?_ ?_ <;> simp only [Option.some.injEq] <;> field_simp <;> ring

/-- The collision block for equal positive masses and `K_RESTITUTION = 1`: the two velocities
are swapped. -/
theorem collision_response_equal_mass (E : Env) (m : GameModel) (ip t : Nat)
    (cur_type target_type : ParticleType) (v1 v2 : Vec2)
    (hK : E.K_RESTITUTION = 1)
    (hmass : E.particle_mass cur_type = E.particle_mass target_type)
    (hpos : 0 < E.particle_mass cur_type)
    (htarget : m.state_cur.p_type[t]? = some target_type)
    (hv1 : m.state_next.p_vel[ip]? = some v1.toF)
    (hv2 : m.state_next.p_vel[t]? = some v2.toF) :
    collision_response E m ip cur_type (t : Int)
      = some ((m.state_next.p_vel.set ip v2.toF).set t v1.toF) := by
  have hip := lt_length_of_getElem?_eq_some hv1
  have ht := lt_length_of_getElem?_eq_some hv2
  simp [collision_response, getI_natCast, setI_natCast, setAt, htarget, hv1, hv2, ← hmass,
    Vec2.toF, collision_axis_equal_mass E hK _ hpos, hip, ht]

end GameModel

/-! ## `compute_heat` works in place -/

/-- C4: on `exHeat`, `compute_heat` gives particle `2` the heat `16/25`, while the update rule
evaluated on the heats the generation had before `compute_heat` started gives `3/5`, both with
the arithmetic mean as the neighbour average and with `average_heat` itself: the left neighbour
cell of particle `2` holds particles `0` and `1`, whose heats `compute_heat` has already
overwritten (from `0` to `1/5`) when it reaches particle `2`. -/
theorem compute_heat_reads_updated_neighbours :
    (GameModel.compute_heat exEnv exHeat).map (fun m => m.state_cur.p_heat)
      = some [some (1 / 5), some (1 / 5), some (16 / 25), some (16 / 25)] ∧
    GameModel.heat_rule exEnv GameModel.mean_heat exHeat 2 = some (some (3 / 5)) ∧
    GameModel.heat_rule exEnv GameModel.average_heat exHeat 2 = some (some (3 / 5)) := by
  refine ⟨?_, ?_, ?_⟩ <;> decide!

/-! ## Loops -/

theorem forRange_zero {σ : Type} (body : Nat → σ → Option σ) (s : σ) :
    forRange 0 body s = some s := rfl

theorem forRange_succ {σ : Type} (n : Nat) (body : Nat → σ → Option σ) (s : σ) :
    forRange (n + 1) body s = (forRange n body s).bind (body n) := by
  simp [forRange, List.range_succ, List.foldlM_append]

/-- The invariant rule for `forRange`: a property that holds at the start and that every
iteration re-establishes (without failing) holds at the end, and the loop does not fail. -/
theorem forRange_invariant {σ : Type} (P : Nat → σ → Prop) (n : Nat)
    (body : Nat → σ → Option σ) (s : σ) (h0 : P 0 s)
    (hstep : ∀ k s, k < n → P k s → ∃ s', body k s = some s' ∧ P (k + 1) s') :
    ∃ s', forRange n body s = some s' ∧ P n s' := by
  induction n with
  | zero => exact ⟨s, rfl, h0⟩
  | succ n ih =>
    obtain ⟨s1, h1, hP1⟩ := ih (fun k s hk hP => hstep k s (by omega) hP)
    obtain ⟨s2, h2, hP2⟩ := hstep n s1 (by omega) hP1
    exact ⟨s2, by rw [forRange_succ, h1]; exact h2, hP2⟩

/-! ## `complete`: the scan and the sort -/

namespace GameModel

theorem next_cell_eq (m : GameModel) {k : Nat} (h : k < m.state_next.p_pos.length) :
    m.next_cell k = m.idx (f2i m.state_next.p_pos[k]) := by
  simp [next_cell, List.getElem?_eq_getElem h]

theorem is_survivor_eq (m : GameModel) {k : Nat} (h : k < m.state_next.p_type.length) :
    m.is_survivor k = decide (m.state_next.p_type[k] ≠ ParticleType.None) := by
  simp [is_survivor, List.getElem?_eq_getElem h]

theorem complete_scan (m : GameModel) (hwf : m.NextWF) :
    forRange m.state_next.particles (complete_scan_step m) { p_idx := [], sort := [] }
      = some { p_idx := (List.range m.state_next.particles).map m.next_cell,
               sort := m.survivors } := by
  obtain ⟨hty, hpos, -, -⟩ := hwf
  obtain ⟨rb, hrb, hP⟩ := forRange_invariant
    (fun k (rb : ReorderBuffer) => rb = { p_idx := (List.range k).map m.next_cell,
                                           sort := (List.range k).filter m.is_survivor })
    m.state_next.particles (complete_scan_step m) { p_idx := [], sort := [] } rfl
    (by
      intro k s hk hs
      subst hs
      have h1 : k < m.state_next.p_pos.length := by omega
      have h2 : k < m.state_next.p_type.length := by omega
      refine ⟨_, ?_, rfl⟩
      simp only [complete_scan_step, List.getElem?_eq_getElem h1, List.getElem?_eq_getElem h2,
        Option.bind_eq_bind, Option.some_bind, Option.pure_def, List.range_succ, List.map_append,
        List.filter_append, List.map_cons, List.map_nil, List.filter_cons, List.filter_nil,
        next_cell_eq m h1, is_survivor_eq m h2]
      by_cases hne : m.state_next.p_type[k] = ParticleType.None <;> simp [hne])
  rw [hrb, hP]; rfl

end GameModel

/-! ## Canvas geometry -/

namespace GameModel

theorem in_bound_iff (m : GameModel) (v : IVec2) :
    m.in_bound v = true ↔ 0 ≤ v.1 ∧ v.1 < m.width ∧ 0 ≤ v.2 ∧ v.2 < m.height := by
  simp only [in_bound, decide_eq_true_eq]; constructor <;> intro h <;> omega

theorem idx_bounds (m : GameModel) (v : IVec2) (h : m.in_bound v = true) :
    0 ≤ m.idx v ∧ m.idx v < m.width * m.height := by
  obtain ⟨hx0, hx1, hy0, hy1⟩ := (in_bound_iff m v).1 h
  simp only [idx]
  have hw : 0 ≤ m.width := by omega
  constructor
  · have := mul_nonneg hy0 hw
    omega
  · nlinarith

theorem idx_injective (m : GameModel) (u v : IVec2) (hu : m.in_bound u = true)
    (hv : m.in_bound v = true) (h : m.idx u = m.idx v) : u = v := by
  obtain ⟨hx0, hx1, hy0, hy1⟩ := (in_bound_iff m u).1 hu
  obtain ⟨hx0', hx1', hy0', hy1'⟩ := (in_bound_iff m v).1 hv
  simp only [idx] at h
  have hy : u.2 = v.2 := by
    rcases lt_trichotomy u.2 v.2 with hlt | heq | hgt
    · exfalso; nlinarith
    · exact heq
    · exfalso; nlinarith
  have hx : u.1 = v.1 := by rw [hy] at h; omega
  exact Prod.ext hx hy

theorem idx_liquid_bounds (E : Env) (m : GameModel) (v : IVec2) (hK : 0 < E.K_LIQUID_DOWNSAMPLE)
    (hw : E.K_LIQUID_DOWNSAMPLE ∣ m.width) (hh : E.K_LIQUID_DOWNSAMPLE ∣ m.height)
    (h : m.in_bound v = true) :
    0 ≤ m.idx_liquid E v ∧
    m.idx_liquid E v
      < Int.tdiv (Int.tdiv (m.width * m.height) E.K_LIQUID_DOWNSAMPLE) E.K_LIQUID_DOWNSAMPLE := by
  obtain ⟨hx0, hx1, hy0, hy1⟩ := (in_bound_iff m v).1 h
  obtain ⟨a, ha⟩ := hw
  obtain ⟨b, hb⟩ := hh
  set K := E.K_LIQUID_DOWNSAMPLE with hKdef
  have ha0 : 0 < a := by
    by_contra hneg
    have : K * a ≤ 0 := mul_nonpos_of_nonneg_of_nonpos hK.le (by omega)
    omega
  have hb0 : 0 < b := by
    by_contra hneg
    have : K * b ≤ 0 := mul_nonpos_of_nonneg_of_nonpos hK.le (by omega)
    omega
  have e1 : Int.tdiv (m.width * m.height) K = a * (K * b) := by
    rw [Int.tdiv_eq_ediv (by rw [ha, hb]; positivity) hK.le, ha, hb,
      mul_assoc, Int.mul_ediv_cancel_left _ hK.ne']
  have e2 : Int.tdiv (Int.tdiv (m.width * m.height) K) K = a * b := by
    rw [e1, Int.tdiv_eq_ediv (by positivity) hK.le, mul_left_comm,
      Int.mul_ediv_cancel_left _ hK.ne']
  have e3 : Int.tdiv m.width K = a := by
    rw [Int.tdiv_eq_ediv (by omega) hK.le, ha, Int.mul_ediv_cancel_left _ hK.ne']
  have e4 : Int.tdiv v.2 K = v.2 / K := Int.tdiv_eq_ediv hy0 hK.le
  have e5 : Int.tdiv v.1 K = v.1 / K := Int.tdiv_eq_ediv hx0 hK.le
  have hyb : v.2 / K < b := Int.ediv_lt_of_lt_mul hK (by rw [mul_comm]; omega)
  have hxa : v.1 / K < a := Int.ediv_lt_of_lt_mul hK (by rw [mul_comm]; omega)
  have hy' : 0 ≤ v.2 / K := Int.ediv_nonneg hy0 hK.le
  have hx' : 0 ≤ v.1 / K := Int.ediv_nonneg hx0 hK.le
  simp only [idx_liquid, ← hKdef, e2, e3, e4, e5]
  constructor
  · positivity
  · nlinarith

end GameModel

/-! ## Appending to the cell ranges in sorted order -/

theorem index_step (key : Nat → Int) (k : Nat) (mi : List PixelParticleList)
    (hmono : ∀ i j, i ≤ j → j ≤ k → key i ≤ key j)
    (hinv : IndexInv key k mi) (h0 : 0 ≤ key k) (h1 : key k < (mi.length : Int)) :
    ∃ r r' mi', getI mi (key k) = some r ∧ r.append (k : Int) = some r' ∧
      setI mi (key k) r' = some mi' ∧ mi'.length = mi.length ∧ IndexInv key (k + 1) mi' := by
  obtain ⟨c0, hc0⟩ : ∃ c0 : Nat, key k = (c0 : Int) := ⟨(key k).toNat, by omega⟩
  have hc0lt : c0 < mi.length := by omega
  rw [hc0, getI_natCast, List.getElem?_eq_getElem hc0lt]
  obtain ⟨hnil, hrange⟩ := hinv c0 mi[c0] (List.getElem?_eq_getElem hc0lt)
  -- the appended range
  have happ : ∃ r', (mi[c0]).append (k : Int) = some r' ∧ r'.nil = false ∧
      0 ≤ r'.from_ ∧ r'.from_ ≤ r'.to_ ∧ r'.to_ < ((k + 1 : Nat) : Int) ∧
      ∀ j : Nat, j < k + 1 → (key j = (c0 : Int) ↔ r'.from_ ≤ (j : Int) ∧ (j : Int) ≤ r'.to_) := by
    by_cases hn : (mi[c0]).nil = true
    · refine ⟨{ from_ := k, to_ := k }, by simp [PixelParticleList.append, hn], ?_, ?_, ?_, ?_, ?_⟩
      · simp [PixelParticleList.nil]
      · simp
      · simp
      · simp
      · intro j hj
        have hno := hnil.1 hn
        constructor
        · intro hkey
          have : ¬ j < k := fun hlt => hno j hlt hkey
          simp only; omega
        · intro hjk
          simp only at hjk
          have : j = k := by omega
          rw [this, hc0]
    · have hn' : (mi[c0]).nil = false := by simpa using hn
      obtain ⟨hf0, hft, htk, hmem⟩ := hrange hn'
      -- the upper bound of the range is `k - 1`
      have hk1 : (mi[c0]).to_ = (k : Int) - 1 := by
        obtain ⟨t, ht⟩ : ∃ t : Nat, (mi[c0]).to_ = (t : Int) := ⟨(mi[c0]).to_.toNat, by omega⟩
        have htlt : t < k := by omega
        have hkt : key t = (c0 : Int) := (hmem t htlt).2 ⟨by omega, by omega⟩
        have hkp : key (k - 1) = (c0 : Int) := by
          have a1 := hmono t (k - 1) (by omega) (by omega)
          have a2 := hmono (k - 1) k (by omega) (by omega)
          omega
        have := (hmem (k - 1) (by omega)).1 hkp
        omega
      refine ⟨{ from_ := (mi[c0]).from_, to_ := k }, ?_, ?_, hf0, ?_, ?_, ?_⟩
      · simp [PixelParticleList.append, hn', hk1]
      · simpa [PixelParticleList.nil] using hn'
      · simp only; omega
      · simp
      · intro j hj
        simp only
        by_cases hjk : j = k
        · subst hjk
          constructor
          · intro _; omega
          · intro _; exact hc0
        · have := hmem j (by omega)
          rw [this]; omega
  obtain ⟨r', hr', hr'nil, hr'0, hr'ft, hr'k, hr'mem⟩ := happ
  refine ⟨mi[c0], r', mi.set c0 r', rfl, hr', by simp [setI_natCast, setAt, hc0lt], by simp, ?_⟩
  intro c r hcr
  by_cases hc : c = c0
  · subst hc
    rw [List.getElem?_set_self hc0lt] at hcr
    obtain rfl : r' = r := by simpa using hcr
    refine ⟨?_, fun _ => ⟨hr'0, hr'ft, by exact_mod_cast hr'k, hr'mem⟩⟩
    rw [hr'nil]
    constructor
    · intro h; exact absurd h (by simp)
    · intro h; exact absurd hc0 (h k (by omega))
  · rw [List.getElem?_set_ne (Ne.symm hc)] at hcr
    obtain ⟨hnilc, hrangec⟩ := hinv c r hcr
    have hkc : key k ≠ (c : Int) := by rw [hc0]; omega
    constructor
    · rw [hnilc]
      constructor
      · intro h j hj
        by_cases hjk : j = k
        · subst hjk; exact hkc
        · exact h j (by omega)
      · intro h j hj; exact h j (by omega)
    · intro hn
      obtain ⟨a, b, c', d⟩ := hrangec hn
      refine ⟨a, b, by push_cast; omega, ?_⟩
      intro j hj
      by_cases hjk : j = k
      · subst hjk
        constructor
        · intro h; exact absurd h hkc
        · intro h; omega
      · exact d j (by omega)


/-! ## The contract of `std::sort` and the reorder permutation -/

theorem stdSort_of_insertionSort (pre : List Nat → List Nat) (hpre : ∀ l, (pre l).Perm l) :
    StdSort (fun comp l => (pre l).insertionSort (fun a b => comp b a = false)) := by
  intro key l
  have hr : (fun a b : Nat => decide (key b < key a) = false) = (fun a b => key a ≤ key b) := by
    funext a b; simp
  simp only [hr]
  haveI : IsTotal Nat (fun a b => key a ≤ key b) := ⟨fun a b => le_total (key a) (key b)⟩
  haveI : IsTrans Nat (fun a b => key a ≤ key b) := ⟨fun a b c hab hbc => le_trans hab hbc⟩
  exact ⟨(List.perm_insertionSort _ _).trans (hpre l), List.sorted_insertionSort _ _⟩

theorem stdSort_stableSort : StdSort stableSort :=
  stdSort_of_insertionSort (fun l => l) (fun l => List.Perm.refl l)

theorem stdSort_reversingSort : StdSort reversingSort :=
  stdSort_of_insertionSort List.reverse List.reverse_perm

namespace GameModel

theorem complete_reorder_eq (E : Env) (m : GameModel) (hwf : m.NextWF) :
    m.complete_reorder E = some
      { p_idx := (List.range m.state_next.particles).map m.next_cell,
        sort := E.sort (complete_comp ((List.range m.state_next.particles).map m.next_cell))
          m.survivors } := by
  simp [complete_reorder, complete_scan m hwf]

theorem mem_survivors (m : GameModel) (ip : Nat) :
    ip ∈ m.survivors ↔ ip < m.state_next.particles ∧ m.is_survivor ip = true := by
  simp [survivors]

theorem nodup_survivors (m : GameModel) : m.survivors.Nodup :=
  (List.nodup_range _).filter _

theorem p_idx_getD (m : GameModel) {ip : Nat} (h : ip < m.state_next.particles) :
    ((List.range m.state_next.particles).map m.next_cell).getD ip 0 = m.next_cell ip := by
  simp [List.getD_eq_getElem?_getD, List.getElem?_map, List.getElem?_range h]

/-- The sorted list of survivors under the contract of `std::sort`. -/
theorem sorted_survivors (E : Env) (m : GameModel) (hsort : StdSort E.sort) :
    (E.sort (complete_comp ((List.range m.state_next.particles).map m.next_cell))
        m.survivors).Perm m.survivors ∧
    (E.sort (complete_comp ((List.range m.state_next.particles).map m.next_cell))
        m.survivors).Pairwise (fun a b => m.next_cell a ≤ m.next_cell b) := by
  obtain ⟨hperm, hpw⟩ := hsort
    (fun i => ((List.range m.state_next.particles).map m.next_cell).getD i 0) m.survivors
  refine ⟨hperm, ?_⟩
  refine List.Pairwise.imp_of_mem ?_ hpw
  intro a b ha hb hab
  have ha' := ((mem_survivors m a).1 (hperm.mem_iff.1 ha)).1
  have hb' := ((mem_survivors m b).1 (hperm.mem_iff.1 hb)).1
  rwa [p_idx_getD m ha', p_idx_getD m hb'] at hab

end GameModel

/-! ## The copy loop of `complete` -/

namespace GameModel

theorem getElem?_set_lt {α : Type} (l : List α) (k j : Nat) (a : α) (hj : j < k) :
    (l.set k a)[j]? = l[j]? := by
  rw [List.getElem?_set_ne (by omega)]

theorem complete_liquid_step_ok (E : Env) (m : GameModel) (ip : Nat) (pos : Vec2)
    (ty : ParticleType) (hK : 0 < E.K_LIQUID_DOWNSAMPLE)
    (hw : E.K_LIQUID_DOWNSAMPLE ∣ m.width) (hh : E.K_LIQUID_DOWNSAMPLE ∣ m.height)
    (hlen : (m.state_cur.map_block_liquid.length : Int)
      = Int.tdiv (Int.tdiv (m.width * m.height) E.K_LIQUID_DOWNSAMPLE) E.K_LIQUID_DOWNSAMPLE)
    (hin : m.in_bound (f2i pos) = true) :
    ∃ l, m.complete_liquid_step E ip pos ty = some l ∧
      l.length = m.state_cur.map_block_liquid.length := by
  unfold complete_liquid_step
  split_ifs with hty
  · obtain ⟨h0, h1⟩ := idx_liquid_bounds E m (f2i pos) hK hw hh hin
    obtain ⟨b, hb⟩ : ∃ b : Nat, m.idx_liquid E (f2i pos) = (b : Int) :=
      ⟨(m.idx_liquid E (f2i pos)).toNat, by omega⟩
    have hblt : b < m.state_cur.map_block_liquid.length := by omega
    refine ⟨m.state_cur.map_block_liquid.set b
      { idx_lp := m.state_cur.map_block_liquid[b].idx_lp ++ [(ip : Int)] }, ?_, by simp⟩
    simp only [hb, getI_natCast, setI_natCast, List.getElem?_eq_getElem hblt, setAt, hblt,
      if_true, Option.bind_eq_bind, Option.some_bind]
  · exact ⟨_, rfl, rfl⟩

theorem complete_copy_step_ok (E : Env) (m : GameModel) (rb : ReorderBuffer) (k : Nat)
    (mk : GameModel) (hnwf : m.NextWF) (hcwf : m.CanvasWF E)
    (hlt : ∀ o ∈ rb.sort, o < m.state_next.particles)
    (hin : ∀ o ∈ rb.sort, m.in_bound (f2i (m.state_next.p_pos.getD o (0, 0))) = true)
    (hpw : rb.sort.Pairwise (fun a b => m.next_cell a ≤ m.next_cell b))
    (hk : k < rb.sort.length) (hinv : CopyInv m rb k mk) :
    ∃ mk', complete_copy_step E k mk = some mk' ∧ CopyInv m rb (k + 1) mk' := by
  obtain ⟨hframe, hpart, hlpos, hlty, hlvel, hlheat, hlmi, hlmb, hcols, hidx⟩ := hinv
  obtain ⟨hty, hpos, hvel, hheat⟩ := hnwf
  obtain ⟨hK, hKw, hKh, hw0, hh0, hmi, hmb⟩ := hcwf
  -- the particle that is copied
  set o := rb.sort[k] with ho
  have hmem : o ∈ rb.sort := List.getElem_mem hk
  have hon := hlt o hmem
  have hsort : mk.reorder_buf.sort[k]? = some o := by
    rw [hframe]; exact List.getElem?_eq_getElem hk
  have hnext : mk.state_next = m.state_next := by rw [hframe]
  have hwidth : mk.width = m.width := by rw [hframe]
  have hheight : mk.height = m.height := by rw [hframe]
  have hopos : o < m.state_next.p_pos.length := by omega
  have hoty : o < m.state_next.p_type.length := by omega
  have hovel : o < m.state_next.p_vel.length := by omega
  have hoheat : o < m.state_next.p_heat.length := by omega
  have hinb : m.in_bound (f2i m.state_next.p_pos[o]) = true := by
    have := hin o hmem
    rwa [List.getD_eq_getElem _ _ hopos] at this
  have hinbk : mk.in_bound (f2i m.state_next.p_pos[o]) = true := by
    rw [in_bound_iff] at hinb ⊢
    rw [hwidth, hheight]; exact hinb
  -- the cell range
  have hkey : mk.idx (f2i m.state_next.p_pos[o]) = m.next_cell (rb.sort.getD k 0) := by
    rw [List.getD_eq_getElem _ _ hk, next_cell_eq m hopos]
    simp only [idx, hwidth]
  have hmono : ∀ i j, i ≤ j → j ≤ k →
      m.next_cell (rb.sort.getD i 0) ≤ m.next_cell (rb.sort.getD j 0) := by
    intro i j hij hjk
    rw [List.getD_eq_getElem _ _ (by omega : i < rb.sort.length),
      List.getD_eq_getElem _ _ (by omega : j < rb.sort.length)]
    rcases Nat.lt_or_ge i j with h | h
    · exact List.pairwise_iff_getElem.1 hpw i j (by omega) (by omega) h
    · have : i = j := by omega
      subst this; exact le_refl _
  obtain ⟨hb0, hb1⟩ := idx_bounds mk _ hinbk
  obtain ⟨r, r', mi', hget, happ, hset, hmilen, hidx'⟩ :=
    index_step (fun j => m.next_cell (rb.sort.getD j 0)) k mk.state_cur.map_index hmono hidx
      (by simp only; rw [← hkey]; exact hb0)
      (by simp only; rw [← hkey, hlmi, hmi, ← hwidth, ← hheight]; exact hb1)
  rw [← hkey] at hget hset
  have hindex : mk.complete_index_step k m.state_next.p_pos[o] = some mi' := by
    simp [complete_index_step, hget, happ, hset]
  -- the liquid block
  obtain ⟨mb', hliq, hmblen⟩ := complete_liquid_step_ok E mk k m.state_next.p_pos[o]
    m.state_next.p_type[o] hK (by rw [hwidth]; exact hKw) (by rw [hheight]; exact hKh)
    (by rw [hlmb, hmb, hwidth, hheight]) hinbk
  refine ⟨{ mk with state_cur := { mk.state_cur with
      p_pos := mk.state_cur.p_pos.set k m.state_next.p_pos[o],
      p_type := mk.state_cur.p_type.set k m.state_next.p_type[o],
      p_vel := mk.state_cur.p_vel.set k m.state_next.p_vel[o],
      p_heat := mk.state_cur.p_heat.set k m.state_next.p_heat[o],
      map_index := mi', map_block_liquid := mb' } }, ?_, ?_⟩
  · simp only [complete_copy_step, hsort, hnext, List.getElem?_eq_getElem hopos,
      List.getElem?_eq_getElem hoty, List.getElem?_eq_getElem hovel,
      List.getElem?_eq_getElem hoheat, setAt, hlpos, hlty, hlvel, hlheat, hk, if_true,
      Option.bind_eq_bind, Option.some_bind, hindex, hliq, Option.pure_def]
  · refine ⟨?_, hpart, by simpa using hlpos, by simpa using hlty, by simpa using hlvel,
      by simpa using hlheat, by simpa [hmilen] using hlmi, by simpa [hmblen] using hlmb, ?_, hidx'⟩
    · conv_lhs => rw [hframe]
    · intro j o' hj ho'
      simp only
      by_cases hjk : j = k
      · subst hjk
        rw [List.getElem?_eq_getElem hk] at ho'
        obtain rfl : o = o' := by simpa using ho'
        simp [List.getElem?_set_self, hlpos, hlty, hlvel, hlheat, hk,
          List.getElem?_eq_getElem hopos, List.getElem?_eq_getElem hoty,
          List.getElem?_eq_getElem hovel, List.getElem?_eq_getElem hoheat]
      · have hjlt : j < k := by omega
        simp only [getElem?_set_lt _ _ _ _ hjlt]
        exact hcols j o' hjlt ho'

end GameModel

/-! ## More on loops and vectors -/

theorem forRange_preserves {σ : Type} (P : Nat → σ → Prop) (n : Nat)
    (body : Nat → σ → Option σ) (s s' : σ) (h0 : P 0 s)
    (hstep : ∀ k a b, k < n → P k a → body k a = some b → P (k + 1) b)
    (h : forRange n body s = some s') : P n s' := by
  induction n generalizing s' with
  | zero =>
    simp only [forRange_zero, Option.some.injEq] at h
    rw [← h]; exact h0
  | succ n ih =>
    rw [forRange_succ] at h
    obtain ⟨s1, h1, h2⟩ := Option.bind_eq_some.1 h
    exact hstep n s1 s' (by omega) (ih s1 (fun k a b hk => hstep k a b (by omega)) h1) h2

theorem setAt_eq_some {α : Type} {l l' : List α} {i : Nat} {a : α} (h : setAt l i a = some l') :
    i < l.length ∧ l' = l.set i a := by
  unfold setAt at h
  split_ifs at h with hi
  exact ⟨hi, by simpa using h.symm⟩

theorem length_resize {α : Type} (l : List α) (n : Nat) (d : α) : (resize l n d).length = n := by
  simp [resize]; omega

/-! ## `complete` as a whole, and `compute_position` -/

namespace GameModel

/-- The reorder buffer that `complete` computes. -/
theorem complete_spec (E : Env) (m : GameModel) (hsort : StdSort E.sort) (hnwf : m.NextWF)
    (hcwf : m.CanvasWF E) (hin : m.SurvivorsInBound) :
    ∃ rb m', m.complete_reorder E = some rb ∧ rb.sort.Perm m.survivors ∧
      rb.sort.Pairwise (fun a b => m.next_cell a ≤ m.next_cell b) ∧
      m.complete E = some m' ∧ CopyInv m rb rb.sort.length m' := by
  obtain ⟨hperm, hpw⟩ := sorted_survivors E m hsort
  have hreo := complete_reorder_eq E m hnwf
  set rb : ReorderBuffer :=
    { p_idx := (List.range m.state_next.particles).map m.next_cell,
      sort := E.sort (complete_comp ((List.range m.state_next.particles).map m.next_cell))
        m.survivors } with hrb
  have hlt : ∀ o ∈ rb.sort, o < m.state_next.particles := fun o ho =>
    ((mem_survivors m o).1 (hperm.mem_iff.1 ho)).1
  have hinb : ∀ o ∈ rb.sort, m.in_bound (f2i (m.state_next.p_pos.getD o (0, 0))) = true :=
    fun o ho => hin o (hperm.mem_iff.1 ho)
  obtain ⟨m', hm', hinv⟩ := forRange_invariant (CopyInv m rb) rb.sort.length
    (complete_copy_step E)
    { m with reorder_buf := rb, state_cur := m.state_cur.reset rb.sort.length }
    (by
      refine ⟨rfl, rfl, ?_, ?_, ?_, ?_, ?_, ?_, ?_, ?_⟩
      · exact length_resize _ _ _
      · exact length_resize _ _ _
      · exact length_resize _ _ _
      · exact length_resize _ _ _
      · simp [StateCur.reset]
      · simp [StateCur.reset]
      · intro j o hj; omega
      · intro c r hcr
        have hr : r = { } := by
          simp only [StateCur.reset, List.getElem?_map] at hcr
          cases hc : m.state_cur.map_index[c]? with
          | none => rw [hc] at hcr; simp at hcr
          | some x => rw [hc] at hcr; simpa using hcr.symm
        subst hr
        refine ⟨⟨fun _ j hj => by omega, fun _ => by decide⟩, fun h => ?_⟩
        exact absurd h (by decide))
    (fun k s hk hs => complete_copy_step_ok E m rb k s hnwf hcwf hlt hinb hpw hk hs)
  refine ⟨rb, m', hreo, hperm, hpw, ?_, hinv⟩
  simp only [complete, hreo, Option.bind_eq_bind, Option.some_bind]
  exact hm'

/-- After the copy loop, particle `j` of the current generation sits on the canvas, in the cell
whose index is the key used for the `j`-th append. -/
theorem copy_key (m : GameModel) (rb : ReorderBuffer) (m' : GameModel) (hnwf : m.NextWF)
    (hlt : ∀ o ∈ rb.sort, o < m.state_next.particles)
    (hin : ∀ o ∈ rb.sort, m.in_bound (f2i (m.state_next.p_pos.getD o (0, 0))) = true)
    (hinv : CopyInv m rb rb.sort.length m') (j : Nat) (hj : j < rb.sort.length) :
    ∃ p, m'.state_cur.p_pos[j]? = some p ∧ m'.in_bound (f2i p) = true ∧
      m.next_cell (rb.sort.getD j 0) = m'.idx (f2i p) := by
  obtain ⟨hframe, -, -, -, -, -, -, -, hcols, -⟩ := hinv
  have hmem : rb.sort[j] ∈ rb.sort := List.getElem_mem hj
  have hopos : rb.sort[j] < m.state_next.p_pos.length := by
    have := hlt _ hmem
    rw [hnwf.2.1]; exact this
  have hwidth : m'.width = m.width := by rw [hframe]
  have hheight : m'.height = m.height := by rw [hframe]
  refine ⟨m.state_next.p_pos[rb.sort[j]], ?_, ?_, ?_⟩
  · rw [(hcols j _ hj (List.getElem?_eq_getElem hj)).1, List.getElem?_eq_getElem hopos]
  · have := hin _ hmem
    rw [List.getD_eq_getElem _ _ hopos] at this
    rw [in_bound_iff] at this ⊢
    rw [hwidth, hheight]; exact this
  · rw [List.getD_eq_getElem _ _ hj, next_cell_eq m hopos]
    simp only [idx, hwidth]

theorem in_bound_congr (a b : GameModel) (hw : a.width = b.width) (hh : a.height = b.height)
    (v : IVec2) : a.in_bound v = b.in_bound v := by
  simp only [in_bound, hw, hh]

theorem position_store_spec (E : Env) (m m' : GameModel) (ip : Nat) (pos : Vec2)
    (h : position_store E m ip pos = some m') :
    m'.state_cur = m.state_cur ∧ m'.width = m.width ∧ m'.height = m.height ∧
    (∀ j, j ≠ ip → m'.state_next.p_pos[j]? = m.state_next.p_pos[j]? ∧
      m'.state_next.p_type[j]? = m.state_next.p_type[j]?) ∧
    (∀ p, m'.state_next.p_pos[ip]? = some p → m'.in_bound (f2i p) = false →
      m'.state_next.p_type[ip]? = some ParticleType.None) := by
  simp only [position_store, Option.bind_eq_bind, Option.pure_def] at h
  obtain ⟨p_pos, hpos, h⟩ := Option.bind_eq_some.1 h
  obtain ⟨hlt, rfl⟩ := setAt_eq_some hpos
  cases hout : m.in_bound (f2i (pos.1 + E.random m.rng * (1 / 10),
      pos.2 + E.random (m.rng + 1) * (1 / 10)))
  · simp only [hout, Bool.not_false, if_true] at h
    obtain ⟨p_type, hty, h⟩ := Option.bind_eq_some.1 h
    obtain ⟨hlt', rfl⟩ := setAt_eq_some hty
    simp only [Option.some.injEq] at h
    subst h
    refine ⟨rfl, rfl, rfl, fun j hj => ⟨?_, ?_⟩, fun p _ _ => ?_⟩
    · simp only; rw [List.getElem?_set_ne (Ne.symm hj)]
    · simp only; rw [List.getElem?_set_ne (Ne.symm hj)]
    · simp only [List.getElem?_set_self hlt']
  · simp only [hout, Bool.not_true, Bool.false_eq_true, if_false, Option.some_bind,
      Option.some.injEq] at h
    subst h
    refine ⟨rfl, rfl, rfl, fun j hj => ⟨?_, rfl⟩, fun p hp hp' => ?_⟩
    · simp only; rw [List.getElem?_set_ne (Ne.symm hj)]
    · simp only [List.getElem?_set_self hlt, Option.some.injEq] at hp
      subst hp
      have : m.in_bound (f2i (pos.1 + E.random m.rng * (1 / 10),
          pos.2 + E.random (m.rng + 1) * (1 / 10))) = false := hp'
      rw [hout] at this
      exact absurd this (by decide)

theorem compute_position_step_spec (E : Env) (m m' : GameModel) (ip : Nat)
    (h : compute_position_step E ip m = some m') :
    m'.state_cur = m.state_cur ∧ m'.width = m.width ∧ m'.height = m.height ∧
    (∀ j, j ≠ ip → m'.state_next.p_pos[j]? = m.state_next.p_pos[j]? ∧
      m'.state_next.p_type[j]? = m.state_next.p_type[j]?) ∧
    (∀ ty p, m.state_cur.p_type[ip]? = some ty → ty ≠ ParticleType.Iron →
      m'.state_next.p_pos[ip]? = some p → m'.in_bound (f2i p) = false →
      m'.state_next.p_type[ip]? = some ParticleType.None) := by
  simp only [compute_position_step, Option.bind_eq_bind, Option.pure_def] at h
  obtain ⟨cur_type, hct, h⟩ := Option.bind_eq_some.1 h
  split_ifs at h with hiron
  · simp only [Option.some.injEq] at h
    subst h
    refine ⟨rfl, rfl, rfl, fun j _ => ⟨rfl, rfl⟩, ?_⟩
    intro ty p hty hne
    rw [hct] at hty
    simp only [Option.some.injEq] at hty
    exact absurd (hty ▸ hiron) hne
  · obtain ⟨v, -, h⟩ := Option.bind_eq_some.1 h
    obtain ⟨pos_old, -, h⟩ := Option.bind_eq_some.1 h
    obtain ⟨pos_new, -, h⟩ := Option.bind_eq_some.1 h
    obtain ⟨det, -, h⟩ := Option.bind_eq_some.1 h
    split_ifs at h with hcol
    · obtain ⟨p_vel, -, h⟩ := Option.bind_eq_some.1 h
      obtain ⟨h1, h2, h3, h4, h5⟩ := position_store_spec E _ m' ip _ h
      exact ⟨h1, h2, h3, h4, fun ty p _ _ hp hout => h5 p hp hout⟩
    · simp only [Option.some_bind] at h
      obtain ⟨h1, h2, h3, h4, h5⟩ := position_store_spec E _ m' ip _ h
      exact ⟨h1, h2, h3, h4, fun ty p _ _ hp hout => h5 p hp hout⟩

end GameModel

/-! ## Facts about the concrete inputs -/

theorem exLeave_compute_position : exLeave.compute_position exEnv = some exLeft := by decide!

theorem exTie_canvasWF : exTie.CanvasWF exEnv := by
  unfold GameModel.CanvasWF; decide

theorem exTie_survivorsInBound : exTie.SurvivorsInBound := by
  unfold GameModel.SurvivorsInBound; decide!

theorem exLeft_canvasWF : exLeft.CanvasWF exEnv := by
  unfold GameModel.CanvasWF; decide

theorem exLeft_survivorsInBound : exLeft.SurvivorsInBound := by
  unfold GameModel.SurvivorsInBound; decide!

/-! ## Counting the survivors -/

theorem length_filter_range_getD {α : Type} (p : α → Bool) (d : α) (l : List α) :
    ((List.range l.length).filter (fun i => p (l.getD i d))).length = l.countP p := by
  induction l using List.reverseRecOn with
  | nil => rfl
  | append_singleton l a ih =>
    rw [List.length_append, List.length_singleton, List.range_succ, List.filter_append,
      List.length_append, List.countP_append, ← ih]
    congr 1
    · congr 1
      apply List.filter_congr
      intro i hi
      rw [List.mem_range] at hi
      rw [List.getD_append _ _ _ _ hi]
    · have : (l ++ [a]).getD l.length d = a := by
        rw [List.getD_append_right _ _ _ _ (le_refl _)]
        simp
      simp only [List.filter_cons, List.filter_nil, this, List.countP_cons, List.countP_nil]
      cases p a <;> rfl

namespace GameModel

theorem length_survivors (m : GameModel) (hwf : m.NextWF) :
    m.survivors.length
      = m.state_next.p_type.countP (fun ty => decide (ty ≠ ParticleType.None)) := by
  have := length_filter_range_getD (fun ty => decide (ty ≠ ParticleType.None))
    ParticleType.None m.state_next.p_type
  rw [hwf.1] at this
  exact this

end GameModel

/-! ## The claims about `complete` and `compute_position` -/

namespace GameModel

/-- C1: when every surviving next-generation particle has an in-bound floored position (and the
model is well formed, `std::sort` meeting its contract), `complete` succeeds, so no `append`
assertion fires, and afterwards: the range of every canvas cell `c` is nil iff no
current-generation particle floors to `c`, and otherwise holds exactly the indices of the
particles that floor to `c`; the non-nil ranges of different cells are disjoint; and their union
is `[0, state_cur.particles)`. -/
theorem cell_range_invariant (E : Env) (m : GameModel) (hsort : StdSort E.sort)
    (hnwf : m.NextWF) (hcwf : m.CanvasWF E) (hin : m.SurvivorsInBound) :
    ∃ m', m.complete E = some m' ∧
      m'.state_cur.p_pos.length = m'.state_cur.particles ∧
      (∀ c : IVec2, m'.in_bound c = true →
        ∃ r, getI m'.state_cur.map_index (m'.idx c) = some r ∧
          (r.nil = true ↔ ∀ (i : Nat) (p : Vec2), m'.state_cur.p_pos[i]? = some p → f2i p ≠ c) ∧
          (r.nil = false → ∀ i : Int, (r.from_ ≤ i ∧ i ≤ r.to_) ↔
            ∃ j : Nat, i = (j : Int) ∧ ∃ p, m'.state_cur.p_pos[j]? = some p ∧ f2i p = c)) ∧
      (∀ c1 c2 r1 r2, m'.in_bound c1 = true → m'.in_bound c2 = true → c1 ≠ c2 →
        getI m'.state_cur.map_index (m'.idx c1) = some r1 →
        getI m'.state_cur.map_index (m'.idx c2) = some r2 →
        r1.nil = false → r2.nil = false →
        ∀ i : Int, ¬ ((r1.from_ ≤ i ∧ i ≤ r1.to_) ∧ (r2.from_ ≤ i ∧ i ≤ r2.to_))) ∧
      (∀ i : Int, (0 ≤ i ∧ i < (m'.state_cur.particles : Int)) ↔
        ∃ c r, m'.in_bound c = true ∧ getI m'.state_cur.map_index (m'.idx c) = some r ∧
          r.nil = false ∧ r.from_ ≤ i ∧ i ≤ r.to_) := by
  obtain ⟨rb, m', -, hperm, -, hm', hinv⟩ := complete_spec E m hsort hnwf hcwf hin
  have hlt : ∀ o ∈ rb.sort, o < m.state_next.particles := fun o ho =>
    ((mem_survivors m o).1 (hperm.mem_iff.1 ho)).1
  have hinb : ∀ o ∈ rb.sort, m.in_bound (f2i (m.state_next.p_pos.getD o (0, 0))) = true :=
    fun o ho => hin o (hperm.mem_iff.1 ho)
  have hkey := copy_key m rb m' hnwf hlt hinb hinv
  obtain ⟨hframe, hpart, hlpos, -, -, -, hlmi, -, -, hidx⟩ := hinv
  obtain ⟨-, -, -, -, -, hmi, -⟩ := hcwf
  have hwidth : m'.width = m.width := by rw [hframe]
  have hheight : m'.height = m.height := by rw [hframe]
  -- the range of an in-bound cell
  have hcell : ∀ c : IVec2, m'.in_bound c = true →
      ∃ r, getI m'.state_cur.map_index (m'.idx c) = some r ∧
        (r.nil = true ↔ ∀ (i : Nat) (p : Vec2), m'.state_cur.p_pos[i]? = some p → f2i p ≠ c) ∧
        (r.nil = false → 0 ≤ r.from_ ∧ r.to_ < (rb.sort.length : Int) ∧
          ∀ j : Nat, (r.from_ ≤ (j : Int) ∧ (j : Int) ≤ r.to_) ↔
            ∃ p, m'.state_cur.p_pos[j]? = some p ∧ f2i p = c) := by
    intro c hc
    obtain ⟨hb0, hb1⟩ := idx_bounds m' c hc
    obtain ⟨cN, hcN⟩ : ∃ cN : Nat, m'.idx c = (cN : Int) := ⟨(m'.idx c).toNat, by omega⟩
    have hcNlt : cN < m'.state_cur.map_index.length := by
      rw [hwidth, hheight, ← hmi, ← hlmi] at hb1; omega
    obtain ⟨hnil, hrange⟩ := hidx cN _ (List.getElem?_eq_getElem hcNlt)
    beta_reduce at hnil hrange
    refine ⟨m'.state_cur.map_index[cN], ?_, ?_, ?_⟩
    · rw [hcN, getI_natCast, List.getElem?_eq_getElem hcNlt]
    · rw [hnil]
      constructor
      · intro h i p hip hpc
        have hi : i < rb.sort.length := by
          rw [← hlpos]; exact lt_length_of_getElem?_eq_some hip
        obtain ⟨p', hp', -, hk⟩ := hkey i hi
        rw [hip] at hp'
        obtain rfl : p = p' := by simpa using hp'
        exact h i hi (by rw [hk, hpc, hcN])
      · intro h j hj hkj
        obtain ⟨p, hp, hpin, hk⟩ := hkey j hj
        have : m'.idx (f2i p) = m'.idx c := by rw [← hk, hkj, hcN]
        exact h j p hp (idx_injective m' _ _ hpin hc this)
    · intro hn
      obtain ⟨h0, -, hto, hmem⟩ := hrange hn
      refine ⟨h0, hto, fun j => ?_⟩
      constructor
      · intro hj
        have hjlt : j < rb.sort.length := by omega
        obtain ⟨p, hp, hpin, hk⟩ := hkey j hjlt
        have hkj := (hmem j hjlt).2 hj
        have : m'.idx (f2i p) = m'.idx c := by rw [← hk, hkj, hcN]
        exact ⟨p, hp, idx_injective m' _ _ hpin hc this⟩
      · rintro ⟨p, hp, hpc⟩
        have hjlt : j < rb.sort.length := by
          rw [← hlpos]; exact lt_length_of_getElem?_eq_some hp
        obtain ⟨p', hp', -, hk⟩ := hkey j hjlt
        rw [hp] at hp'
        obtain rfl : p = p' := by simpa using hp'
        exact (hmem j hjlt).1 (by rw [hk, hpc, hcN])
  refine ⟨m', hm', by rw [hlpos, hpart], ?_, ?_, ?_⟩
  · intro c hc
    obtain ⟨r, hr, hnil, hrange⟩ := hcell c hc
    refine ⟨r, hr, hnil, fun hn i => ?_⟩
    obtain ⟨h0, -, hmem⟩ := hrange hn
    constructor
    · intro hi
      exact ⟨i.toNat, by omega, (hmem i.toNat).1 (by omega)⟩
    · rintro ⟨j, rfl, hj⟩
      exact (hmem j).2 hj
  · intro c1 c2 r1 r2 hc1 hc2 hne h1 h2 hn1 hn2 i hi
    obtain ⟨r1', hr1', -, hrange1⟩ := hcell c1 hc1
    obtain ⟨r2', hr2', -, hrange2⟩ := hcell c2 hc2
    rw [h1] at hr1'; rw [h2] at hr2'
    obtain rfl : r1 = r1' := by simpa using hr1'
    obtain rfl : r2 = r2' := by simpa using hr2'
    obtain ⟨h10, -, hmem1⟩ := hrange1 hn1
    obtain ⟨h20, -, hmem2⟩ := hrange2 hn2
    obtain ⟨p1, hp1, hpc1⟩ := (hmem1 i.toNat).1 (by omega)
    obtain ⟨p2, hp2, hpc2⟩ := (hmem2 i.toNat).1 (by omega)
    rw [hp1] at hp2
    obtain rfl : p1 = p2 := by simpa using hp2
    exact hne (hpc1.symm.trans hpc2)
  · intro i
    constructor
    · rintro ⟨hi0, hilt⟩
      have hjlt : i.toNat < rb.sort.length := by rw [hpart] at hilt; omega
      obtain ⟨p, hp, hpin, -⟩ := hkey i.toNat hjlt
      obtain ⟨r, hr, hnil, hrange⟩ := hcell (f2i p) hpin
      have hn : r.nil = false := by
        by_contra hcon
        have hcon' : r.nil = true := by simpa using hcon
        exact (hnil.1 hcon') i.toNat p hp rfl
      obtain ⟨-, -, hmem⟩ := hrange hn
      have := (hmem i.toNat).2 ⟨p, hp, rfl⟩
      exact ⟨f2i p, r, hpin, hr, hn, by omega, by omega⟩
    · rintro ⟨c, r, hc, hr, hn, hfi, hit⟩
      obtain ⟨r', hr', -, hrange⟩ := hcell c hc
      rw [hr] at hr'
      obtain rfl : r = r' := by simpa using hr'
      obtain ⟨h0, hto, -⟩ := hrange hn
      rw [hpart]
      omega

/-- The invariant after compacting the three particles of `exTie`. -/
theorem cell_range_invariant_witness :
    ∃ m', exTie.complete exEnv = some m' ∧
      m'.state_cur.p_pos.length = m'.state_cur.particles :=
  (cell_range_invariant exEnv exTie stdSort_stableSort ⟨rfl, rfl, rfl, rfl⟩ exTie_canvasWF
    exTie_survivorsInBound).imp (fun _ h => ⟨h.1, h.2.1⟩)

/-- C2: a non-Iron particle whose final (post-jitter) position, as `compute_position` stores it,
floors to a cell outside the canvas has its next-generation type set to `None`; and `complete`
leaves `state_cur.particles` equal to the number of next-generation particles whose type is not
`None`: no particle of type `None` is in the reorder permutation, and every particle of the new
current generation has a type other than `None`. -/
theorem boundary_removal (E : Env) (m m1 m2 : GameModel)
    (hpos : m.compute_position E = some m1)
    (hsort : StdSort E.sort) (hnwf : m2.NextWF) (hcwf : m2.CanvasWF E)
    (hin : m2.SurvivorsInBound) :
    (∀ (ip : Nat) (ty : ParticleType) (p : Vec2), ip < m.state_cur.particles →
      m.state_cur.p_type[ip]? = some ty → ty ≠ ParticleType.Iron →
      m1.state_next.p_pos[ip]? = some p → m1.in_bound (f2i p) = false →
      m1.state_next.p_type[ip]? = some ParticleType.None) ∧
    ∃ m3, m2.complete E = some m3 ∧
      m3.state_cur.particles
        = m2.state_next.p_type.countP (fun ty => decide (ty ≠ ParticleType.None)) ∧
      (∀ ip : Nat, m2.state_next.p_type[ip]? = some ParticleType.None →
        ip ∉ m3.reorder_buf.sort) ∧
      (∀ j : Nat, j < m3.state_cur.particles →
        ∃ ip ty, m3.reorder_buf.sort[j]? = some ip ∧ m3.state_cur.p_type[j]? = some ty ∧
          m2.state_next.p_type[ip]? = some ty ∧ ty ≠ ParticleType.None) := by
  constructor
  · have hQ := forRange_preserves
      (fun k (mk : GameModel) => mk.state_cur = m.state_cur ∧ mk.width = m.width ∧
        mk.height = m.height ∧
        ∀ (ip : Nat) (ty : ParticleType) (p : Vec2), ip < k →
          m.state_cur.p_type[ip]? = some ty → ty ≠ ParticleType.Iron →
          mk.state_next.p_pos[ip]? = some p → mk.in_bound (f2i p) = false →
          mk.state_next.p_type[ip]? = some ParticleType.None)
      m.state_cur.particles (compute_position_step E) m m1
      ⟨rfl, rfl, rfl, fun ip ty p hip => by omega⟩
      (by
        intro k a b _ ⟨hcur, hw, hh, hprev⟩ hstep
        obtain ⟨h1, h2, h3, h4, h5⟩ := compute_position_step_spec E a b k hstep
        refine ⟨h1.trans hcur, h2.trans hw, h3.trans hh, ?_⟩
        intro ip ty p hip hty hne hp hout
        by_cases hk : ip = k
        · subst hk
          exact h5 ty p (by rw [hcur]; exact hty) hne hp hout
        · obtain ⟨e1, e2⟩ := h4 ip hk
          rw [e2]
          refine hprev ip ty p (by omega) hty hne (by rw [← e1]; exact hp) ?_
          rw [← in_bound_congr b a h2 h3]; exact hout)
      hpos
    exact hQ.2.2.2
  · obtain ⟨rb, m3, -, hperm, -, hm3, hinv⟩ := complete_spec E m2 hsort hnwf hcwf hin
    obtain ⟨hframe, hpart, -, -, -, -, -, -, hcols, -⟩ := hinv
    have hrb : m3.reorder_buf = rb := by rw [hframe]
    refine ⟨m3, hm3, ?_, ?_, ?_⟩
    · rw [hpart, hperm.length_eq, length_survivors m2 hnwf]
    · intro ip hnone hmem
      rw [hrb] at hmem
      obtain ⟨hlt, hs⟩ := (mem_survivors m2 ip).1 (hperm.mem_iff.1 hmem)
      have hlen : ip < m2.state_next.p_type.length := lt_length_of_getElem?_eq_some hnone
      rw [is_survivor_eq m2 hlen] at hs
      rw [List.getElem?_eq_getElem hlen] at hnone
      simp only [Option.some.injEq] at hnone
      simp [hnone] at hs
    · intro j hj
      rw [hpart] at hj
      have hmem : rb.sort[j] ∈ rb.sort := List.getElem_mem hj
      obtain ⟨hlt, hs⟩ := (mem_survivors m2 _).1 (hperm.mem_iff.1 hmem)
      have hlen : rb.sort[j] < m2.state_next.p_type.length := by rw [hnwf.1]; exact hlt
      rw [is_survivor_eq m2 hlen] at hs
      refine ⟨rb.sort[j], m2.state_next.p_type[rb.sort[j]], ?_, ?_, ?_, ?_⟩
      · rw [hrb]; exact List.getElem?_eq_getElem hj
      · rw [(hcols j _ hj (List.getElem?_eq_getElem hj)).2.1, List.getElem?_eq_getElem hlen]
      · exact List.getElem?_eq_getElem hlen
      · simpa using hs

/-- The particle of `exLeave` leaves the canvas, is marked `None` and is dropped by
`complete`. -/
theorem boundary_removal_witness :
    exLeft.state_next.p_type[0]? = some ParticleType.None ∧
    ∃ m3, exLeft.complete exEnv = some m3 ∧ m3.state_cur.particles
      = exLeft.state_next.p_type.countP (fun ty => decide (ty ≠ ParticleType.None)) :=
  have h := boundary_removal exEnv exLeave exLeft exLeft exLeave_compute_position
    stdSort_stableSort ⟨rfl, rfl, rfl, rfl⟩ exLeft_canvasWF exLeft_survivorsInBound
  ⟨h.1 0 ParticleType.Sand (2, 1 / 2) (by decide) rfl (by decide) rfl (by decide!),
   h.2.imp (fun _ h3 => ⟨h3.1, h3.2.1⟩)⟩

/-- C10, amended: `reorder_buf.sort` as `complete` produces it lists exactly the next-generation
indices whose type is not `None`, each once, in ascending (non-decreasing) order of the cell
index `p_idx`; nothing is said about the order of survivors with equal cell index. -/
theorem complete_reorder_sorted (E : Env) (m : GameModel) (hsort : StdSort E.sort)
    (hwf : m.NextWF) :
    ∃ rb, m.complete_reorder E = some rb ∧
      (∀ ip, ip < m.state_next.particles → rb.p_idx[ip]? = some (m.next_cell ip)) ∧
      rb.sort.Nodup ∧
      (∀ ip, ip ∈ rb.sort ↔ ip < m.state_next.particles ∧
        ∃ ty, m.state_next.p_type[ip]? = some ty ∧ ty ≠ ParticleType.None) ∧
      rb.sort.Pairwise (fun a b => m.next_cell a ≤ m.next_cell b) := by
  obtain ⟨hperm, hpw⟩ := sorted_survivors E m hsort
  refine ⟨_, complete_reorder_eq E m hwf, ?_, ?_, ?_, hpw⟩
  · intro ip hip
    simp [List.getElem?_map, List.getElem?_range hip]
  · exact hperm.nodup_iff.2 (nodup_survivors m)
  · intro ip
    simp only
    rw [hperm.mem_iff, mem_survivors]
    refine and_congr_right (fun hip => ?_)
    have h2 : ip < m.state_next.p_type.length := by rw [hwf.1]; exact hip
    simp [is_survivor_eq m h2, List.getElem?_eq_getElem h2]

/-- The sorted permutation for the three particles of `exTie`. -/
theorem complete_reorder_sorted_witness :
    ∃ rb, exTie.complete_reorder exEnv = some rb ∧
      (∀ ip, ip < exTie.state_next.particles → rb.p_idx[ip]? = some (exTie.next_cell ip)) ∧
      rb.sort.Nodup ∧
      (∀ ip, ip ∈ rb.sort ↔ ip < exTie.state_next.particles ∧
        ∃ ty, exTie.state_next.p_type[ip]? = some ty ∧ ty ≠ ParticleType.None) ∧
      rb.sort.Pairwise (fun a b => exTie.next_cell a ≤ exTie.next_cell b) :=
  complete_reorder_sorted exEnv exTie stdSort_stableSort ⟨rfl, rfl, rfl, rfl⟩

end GameModel

/-- C10 as stated fails: `reversingSort` meets the contract of `std::sort`, and with it the
survivors `1` and `2` of `exTie`, which share cell index `0`, come out as `2, 1`, not in their
original order (a stable sort gives `1, 2, 0`). -/
theorem reorder_not_stable :
    StdSort tieEnv.sort ∧ exTie.NextWF ∧
    (exTie.complete_reorder tieEnv).map (fun rb => (rb.p_idx, rb.sort))
      = some ([1, 0, 0], [2, 1, 0]) ∧
    (exTie.complete_reorder exEnv).map (fun rb => (rb.p_idx, rb.sort))
      = some ([1, 0, 0], [1, 2, 0]) :=
  ⟨stdSort_reversingSort, ⟨rfl, rfl, rfl, rfl⟩, by decide!, by decide!⟩


/-! ## The spawn brush -/

namespace GameModel

theorem mem_intRange (a b i : Int) : i ∈ intRange a b ↔ a ≤ i ∧ i ≤ b := by
  simp only [intRange, List.mem_map, List.mem_range]
  constructor
  · rintro ⟨k, hk, rfl⟩
    have : (k : Int) < b + 1 - a := by omega
    omega
  · intro h
    refine ⟨(i - a).toNat, ?_, ?_⟩
    · have : (i - a) < b + 1 - a := by omega
      omega
    · have : ((i - a).toNat : Int) = i - a := Int.toNat_of_nonneg (by omega)
      omega

theorem nodup_intRange (a b : Int) : (intRange a b).Nodup := by
  unfold intRange
  refine List.Nodup.map ?_ (List.nodup_range _)
  intro x y h
  simpa using h

theorem forInt_forInt {σ : Type} (a b c d : Int) (f : σ → Int → Int → Option σ) (s : σ) :
    forInt a b (fun x sx => forInt c d (fun y sy => f sy x y) sx) s
      = ((intRange a b) ×ˢ (intRange c d)).foldlM (fun acc p => f acc p.1 p.2) s := by
  unfold forInt
  generalize intRange a b = xs
  induction xs generalizing s with
  | nil => rfl
  | cons x xs ih =>
    rw [List.product_cons, List.foldlM_append, List.foldlM_map, List.foldlM_cons]
    congr 1
    funext s'
    exact ih s'

theorem nodup_brush_box (center : Vec2) (radius : ℚ) : (brush_box center radius).Nodup :=
  List.Nodup.product (nodup_intRange _ _) (nodup_intRange _ _)

/-- The bounding box of a brush holds every integer point within the radius of the centre. -/
theorem mem_brush_box_of_distance_le (center : Vec2) (radius : ℚ) (c : IVec2)
    (h : distance_le ((c.1 : ℚ), (c.2 : ℚ)) center radius = true) :
    c ∈ brush_box center radius := by
  simp only [distance_le, decide_eq_true_eq] at h
  obtain ⟨hr, hd⟩ := h
  have hrf : truncQ (radius + 1) = Int.floor radius + 1 := by
    simp only [truncQ, if_pos (by linarith : (0 : ℚ) ≤ radius + 1), Int.floor_add_one]
  have hfr : (Int.floor radius : ℚ) ≤ radius := Int.floor_le radius
  have hfr' : radius < (Int.floor radius : ℚ) + 1 := Int.lt_floor_add_one radius
  have key : ∀ (x : Int) (cx : ℚ), ((x : ℚ) - cx) * ((x : ℚ) - cx) ≤ radius * radius →
      Int.floor cx - (Int.floor radius + 1) ≤ x ∧ x ≤ Int.floor cx + (Int.floor radius + 1) := by
    intro x cx hx
    have h1 : (Int.floor cx : ℚ) ≤ cx := Int.floor_le cx
    have h2 : cx < (Int.floor cx : ℚ) + 1 := Int.lt_floor_add_one cx
    have hl : -radius ≤ (x : ℚ) - cx := by
      by_contra hcon
      push_neg at hcon
      nlinarith
    have hu : (x : ℚ) - cx ≤ radius := by
      by_contra hcon
      push_neg at hcon
      nlinarith
    constructor
    · have : ((Int.floor cx - (Int.floor radius + 1) : Int) : ℚ) < (x : ℚ) + 1 := by
        push_cast; linarith
      have := Int.cast_lt.1 (by exact_mod_cast this : ((Int.floor cx - (Int.floor radius + 1) : Int) : ℚ) < ((x + 1 : Int) : ℚ))
      omega
    · have : (x : ℚ) < ((Int.floor cx + (Int.floor radius + 1) + 1 : Int) : ℚ) := by
        push_cast; linarith
      have := Int.cast_lt.1 this
      omega
  have hx := key c.1 center.1 (by nlinarith [mul_self_nonneg ((c.2 : ℚ) - center.2)])
  have hy := key c.2 center.2 (by nlinarith [mul_self_nonneg ((c.1 : ℚ) - center.1)])
  obtain ⟨x, y⟩ := c
  simp only [brush_box, List.mem_product, mem_intRange, hrf, f2i]
  exact ⟨hx, hy⟩


theorem spawned_nil (E : Env) (m : GameModel) : spawned E m [] = m := by
  simp [spawned, spawn_positions]

theorem spawned_cons (E : Env) (m : GameModel) (c : IVec2) (cs : List IVec2) :
    spawned E (spawned E m [c]) cs = spawned E m (c :: cs) := by
  simp only [spawned, spawn_positions, List.length_cons, List.length_nil, List.append_assoc,
    List.replicate_succ, List.replicate_zero, List.singleton_append, List.cons_append,
    List.nil_append, zero_add, mul_one]
  have e1 : m.rng + 2 + 2 * cs.length = m.rng + 2 * (cs.length + 1) := by omega
  have e2 : m.state_next.particles + 1 + cs.length
      = m.state_next.particles + (cs.length + 1) := by omega
  rw [e1, e2]

theorem spawn_here_spawned (E : Env) (m : GameModel) (cs : List IVec2) (c : IVec2) :
    (spawned E m cs).spawn_here c = m.spawn_here c := rfl

/-- The body of the loops of `handle_new_particles`, in closed form. -/
theorem new_particle_step_eq (E : Env) (m : GameModel) (x y : Int)
    (hmi : (m.state_cur.map_index.length : Int) = m.width * m.height) :
    m.new_particle_step E x y
      = some (if m.spawn_here (x, y) then spawned E m [(x, y)] else m) := by
  unfold new_particle_step spawn_here
  cases hin : m.in_bound (x, y)
  · simp
  · cases hd : distance_le ((x : ℚ), (y : ℚ)) m.cur_particle_brush.center
      m.cur_particle_brush.radius
    · simp
    · obtain ⟨h0, h1⟩ := idx_bounds m (x, y) hin
      obtain ⟨cN, hcN⟩ : ∃ cN : Nat, m.idx (x, y) = (cN : Int) := ⟨(m.idx (x, y)).toNat, by omega⟩
      have hlt : cN < m.state_cur.map_index.length := by omega
      simp only [Bool.and_self, if_true, hcN, getI_natCast, List.getElem?_eq_getElem hlt,
        Option.bind_eq_bind, Option.some_bind, Bool.true_and, Option.pure_def]
      cases hn : (m.state_cur.map_index[cN]).nil
      · simp
      · simp [spawned, spawn_positions]

theorem foldlM_new_particle_step (E : Env) (l : List IVec2) (m : GameModel)
    (hmi : (m.state_cur.map_index.length : Int) = m.width * m.height) :
    l.foldlM (fun acc p => acc.new_particle_step E p.1 p.2) m
      = some (spawned E m (l.filter m.spawn_here)) := by
  induction l generalizing m with
  | nil => simp [spawned_nil]
  | cons c cs ih =>
    rw [List.foldlM_cons, new_particle_step_eq E m c.1 c.2 hmi]
    simp only [Option.bind_eq_bind, Option.some_bind, Prod.mk.eta, List.filter_cons]
    by_cases hc : m.spawn_here c = true
    · simp only [hc, if_true]
      rw [ih (spawned E m [c]) hmi]
      have : (spawned E m [c]).spawn_here = m.spawn_here := funext (spawn_here_spawned E m [c])
      rw [this, spawned_cons]
    · simp only [hc, if_false, Bool.false_eq_true]
      exact ih m hmi

/-- `handle_new_particles` in closed form. -/
theorem handle_new_particles_eq (E : Env) (m : GameModel)
    (hty : m.cur_particle_brush.type ≠ ParticleType.None)
    (hmi : (m.state_cur.map_index.length : Int) = m.width * m.height) :
    m.handle_new_particles E = some
      { spawned E m ((brush_box m.cur_particle_brush.center m.cur_particle_brush.radius).filter
          m.spawn_here) with
        cur_particle_brush := { m.cur_particle_brush with type := ParticleType.None } } := by
  unfold handle_new_particles
  simp only [hty, ne_eq, not_false_eq_true, if_true, Option.bind_eq_bind, Option.pure_def]
  have h := forInt_forInt
    ((f2i m.cur_particle_brush.center).1 - truncQ (m.cur_particle_brush.radius + 1))
    ((f2i m.cur_particle_brush.center).1 + truncQ (m.cur_particle_brush.radius + 1))
    ((f2i m.cur_particle_brush.center).2 - truncQ (m.cur_particle_brush.radius + 1))
    ((f2i m.cur_particle_brush.center).2 + truncQ (m.cur_particle_brush.radius + 1))
    (fun acc x y => acc.new_particle_step E x y) m
  beta_reduce at h
  have h2 := foldlM_new_particle_step E
    (brush_box m.cur_particle_brush.center m.cur_particle_brush.radius) m hmi
  unfold brush_box at h2
  rw [h, h2]
  rfl

theorem distance_le_iff_sqrt (a b : Vec2) (r : ℚ) :
    distance_le a b r = true ↔
      Real.sqrt (((a.1 : ℝ) - b.1) ^ 2 + ((a.2 : ℝ) - b.2) ^ 2) ≤ (r : ℝ) := by
  simp only [distance_le, decide_eq_true_eq, Real.sqrt_le_iff]
  constructor
  · rintro ⟨h0, h1⟩
    refine ⟨by exact_mod_cast h0, ?_⟩
    have : (((a.1 - b.1) * (a.1 - b.1) + (a.2 - b.2) * (a.2 - b.2) : ℚ) : ℝ)
        ≤ ((r * r : ℚ) : ℝ) := by exact_mod_cast h1
    push_cast at this
    nlinarith
  · rintro ⟨h0, h1⟩
    refine ⟨by exact_mod_cast h0, ?_⟩
    have : (((a.1 - b.1) * (a.1 - b.1) + (a.2 - b.2) * (a.2 - b.2) : ℚ) : ℝ)
        ≤ ((r * r : ℚ) : ℝ) := by
      push_cast
      nlinarith
    exact_mod_cast this

/-- C6: with a pending brush of type `t != None`, `handle_new_particles` appends to the next
generation exactly one particle for every integer cell that is on the canvas, lies within
Euclidean distance `radius` of the brush centre and has a nil current-generation range (the cells
`cells`, each once), and nothing else: the `k`-th appended particle sits in `cells[k]` displaced
by a fifth of two random draws, and has type `t`, zero velocity and zero heat; the entries that
were there before are unchanged, `state_next.particles` grows by the number appended, the current
generation is untouched, and the brush type is `None` afterwards, so that a second call appends
nothing. -/
theorem spawn_brush (E : Env) (m : GameModel)
    (hty : m.cur_particle_brush.type ≠ ParticleType.None)
    (hmi : (m.state_cur.map_index.length : Int) = m.width * m.height) :
    ∃ cells : List IVec2, cells.Nodup ∧
      (∀ c : IVec2, c ∈ cells ↔
        (m.in_bound c = true ∧
         Real.sqrt (((c.1 : ℝ) - (m.cur_particle_brush.center.1 : ℝ)) ^ 2
            + ((c.2 : ℝ) - (m.cur_particle_brush.center.2 : ℝ)) ^ 2)
           ≤ (m.cur_particle_brush.radius : ℝ) ∧
         ∃ lst, getI m.state_cur.map_index (m.idx c) = some lst ∧ lst.nil = true)) ∧
      ∃ m', m.handle_new_particles E = some m' ∧
        m'.state_next.particles = m.state_next.particles + cells.length ∧
        m'.state_next.p_pos = m.state_next.p_pos ++ spawn_positions E m.rng cells ∧
        m'.state_next.p_type
          = m.state_next.p_type ++ List.replicate cells.length m.cur_particle_brush.type ∧
        m'.state_next.p_vel
          = m.state_next.p_vel ++ List.replicate cells.length (some 0, some 0) ∧
        m'.state_next.p_heat = m.state_next.p_heat ++ List.replicate cells.length (some 0) ∧
        m'.state_cur = m.state_cur ∧
        m'.cur_particle_brush.type = ParticleType.None ∧
        m'.handle_new_particles E = some m' := by
  refine ⟨(brush_box m.cur_particle_brush.center m.cur_particle_brush.radius).filter
    m.spawn_here, (nodup_brush_box _ _).filter _, ?_, _, handle_new_particles_eq E m hty hmi,
    rfl, rfl, rfl, rfl, rfl, rfl, rfl, ?_⟩
  · intro c
    have hd := distance_le_iff_sqrt ((c.1 : ℚ), (c.2 : ℚ)) m.cur_particle_brush.center
      m.cur_particle_brush.radius
    simp only [Rat.cast_intCast] at hd
    rw [List.mem_filter, ← hd]
    constructor
    · rintro ⟨-, hs⟩
      simp only [spawn_here, Bool.and_eq_true] at hs
      obtain ⟨⟨h1, h2⟩, h3⟩ := hs
      refine ⟨h1, h2, ?_⟩
      cases hg : getI m.state_cur.map_index (m.idx c) with
      | none => rw [hg] at h3; exact absurd h3 (by decide)
      | some lst => rw [hg] at h3; exact ⟨lst, rfl, h3⟩
    · rintro ⟨h1, h2, lst, h3, h4⟩
      refine ⟨mem_brush_box_of_distance_le _ _ c h2, ?_⟩
      simp only [spawn_here, h1, h2, h3, h4, Bool.and_self]
  · simp [handle_new_particles]

/-- The brush of `exBrush` on the empty 3 x 3 canvas. -/
theorem spawn_brush_witness :
    ∃ cells : List IVec2, cells.Nodup ∧
      ∃ m', exBrush.handle_new_particles exEnv = some m' ∧
        m'.state_next.particles = exBrush.state_next.particles + cells.length :=
  (spawn_brush exEnv exBrush (by decide) (by decide)).imp
    (fun _ h => ⟨h.1, h.2.2.imp (fun _ h' => ⟨h'.1, h'.2.1⟩)⟩)

end GameModel

/-! ## The heat brush -/

namespace GameModel

theorem forInt_eq_forRange {σ : Type} (a b : Int) (body : Int → σ → Option σ) (s : σ) :
    forInt a b body s = forRange (b + 1 - a).toNat (fun k acc => body (a + (k : Int)) acc) s := by
  simp only [forInt, forRange, intRange, List.foldlM_map]

/-- The loop `for (ip = from; ip <= to; ip++) p_heat[ip] += q` over a range inside the
vector. -/
theorem heat_range_loop (q : ℚ) (a b : Int) (ph : List Flt) (ha : 0 ≤ a)
    (hb : b < (ph.length : Int)) :
    ∃ ph', forInt a b (fun ip p => (getI p ip).bind fun h => setI p ip (fadd h (some q))) ph
        = some ph' ∧
      ph'.length = ph.length ∧
      ∀ i : Nat, ph'[i]? = if a ≤ (i : Int) ∧ (i : Int) ≤ b
        then (ph[i]?).map (fun h => fadd h (some q)) else ph[i]? := by
  rw [forInt_eq_forRange]
  obtain ⟨ph', h1, h2, h3⟩ := forRange_invariant
    (fun k (p : List Flt) => p.length = ph.length ∧
      ∀ i : Nat, p[i]? = if a ≤ (i : Int) ∧ (i : Int) < a + (k : Int)
        then (ph[i]?).map (fun h => fadd h (some q)) else ph[i]?)
    (b + 1 - a).toNat (fun k acc =>
      (getI acc (a + (k : Int))).bind fun h => setI acc (a + (k : Int)) (fadd h (some q))) ph
    ⟨rfl, fun i => by rw [if_neg (by omega)]⟩
    (by
      intro k p hk ⟨hlen, hp⟩
      obtain ⟨j, hj⟩ : ∃ j : Nat, a + (k : Int) = (j : Int) := ⟨(a + (k : Int)).toNat, by omega⟩
      have hjlt : j < p.length := by omega
      have hpj : p[j]? = ph[j]? := by rw [hp j, if_neg (by omega)]
      refine ⟨p.set j (fadd p[j] (some q)), ?_, by simpa using hlen, ?_⟩
      · simp only [hj, getI_natCast, setI_natCast, List.getElem?_eq_getElem hjlt, setAt, hjlt,
          if_true, Option.bind_eq_bind, Option.some_bind]
      · intro i
        by_cases hij : i = j
        · subst hij
          rw [List.getElem?_set_self hjlt, if_pos (by omega), ← hpj,
            List.getElem?_eq_getElem hjlt]
          rfl
        · rw [List.getElem?_set_ne (Ne.symm hij), hp i]
          by_cases hc : a ≤ (i : Int) ∧ (i : Int) < a + (k : Int)
          · rw [if_pos hc, if_pos (by omega)]
          · rw [if_neg hc, if_neg (by omega)])
  refine ⟨ph', h1, h2, fun i => ?_⟩
  rw [h3 i]
  by_cases hc : a ≤ (i : Int) ∧ (i : Int) ≤ b
  · rw [if_pos hc, if_pos (by omega)]
  · rw [if_neg hc, if_neg (by omega)]

/-- The body of the loops of `handle_change_heat` at one cell. -/
theorem change_heat_step_spec (E : Env) (m : GameModel) (c : IVec2)
    (hmi : (m.state_cur.map_index.length : Int) = m.width * m.height)
    (hvalid : ∀ lst, m.in_bound c = true →
      getI m.state_cur.map_index (m.idx c) = some lst → lst.nil = false →
      0 ≤ lst.from_ ∧ lst.to_ < (m.state_next.p_heat.length : Int)) :
    ∃ ph', m.change_heat_step E c.1 c.2 = some (m.with_heat ph') ∧
      ph'.length = m.state_next.p_heat.length ∧
      ∀ i : Nat, ph'[i]? = if m.heated_by c i
        then (m.state_next.p_heat[i]?).map (fun h => fadd h (some (m.heat_quantum E)))
        else m.state_next.p_heat[i]? := by
  unfold change_heat_step heated_by
  simp only [Prod.mk.eta]
  cases hin : m.in_bound c
  · exact ⟨m.state_next.p_heat, by simp [with_heat], rfl, fun i => by simp⟩
  · cases hd : distance_le ((c.1 : ℚ), (c.2 : ℚ)) m.cur_heat_brush.center
      m.cur_heat_brush.radius
    · exact ⟨m.state_next.p_heat, by simp [with_heat], rfl, fun i => by simp⟩
    · obtain ⟨h0, h1⟩ := idx_bounds m c hin
      obtain ⟨cN, hcN⟩ : ∃ cN : Nat, m.idx c = (cN : Int) := ⟨(m.idx c).toNat, by omega⟩
      have hlt : cN < m.state_cur.map_index.length := by omega
      have hget : getI m.state_cur.map_index (m.idx c) = some m.state_cur.map_index[cN] := by
        rw [hcN, getI_natCast, List.getElem?_eq_getElem hlt]
      rw [hget]
      cases hn : (m.state_cur.map_index[cN]).nil
      · obtain ⟨hf, ht⟩ := hvalid _ hin hget hn
        obtain ⟨ph', hl1, hl2, hl3⟩ := heat_range_loop (m.heat_quantum E)
          (m.state_cur.map_index[cN]).from_ (m.state_cur.map_index[cN]).to_
          m.state_next.p_heat hf ht
        refine ⟨ph', ?_, hl2, fun i => ?_⟩
        · simp only [Bool.and_self, if_true, Option.bind_eq_bind, Option.some_bind,
            Bool.not_false, hn, hl1, Option.pure_def, with_heat]
        · rw [hl3 i]
          simp [hn]
      · exact ⟨m.state_next.p_heat, by simp [with_heat, hn], rfl, fun i => by simp [hn]⟩


theorem foldlM_change_heat_step (E : Env) (m : GameModel)
    (hmi : (m.state_cur.map_index.length : Int) = m.width * m.height)
    (hvalid : ∀ c lst, m.in_bound c = true →
      getI m.state_cur.map_index (m.idx c) = some lst → lst.nil = false →
      0 ≤ lst.from_ ∧ lst.to_ < (m.state_next.p_heat.length : Int))
    (hdisj : ∀ (c1 c2 : IVec2) (i : Nat), c1 ≠ c2 → m.heated_by c1 i = true →
      m.heated_by c2 i = true → False)
    (L : List IVec2) (hnd : L.Nodup) (ph : List Flt)
    (hlen : ph.length = m.state_next.p_heat.length) :
    ∃ ph', L.foldlM (fun acc p => acc.change_heat_step E p.1 p.2) (m.with_heat ph)
        = some (m.with_heat ph') ∧
      ph'.length = ph.length ∧
      ∀ i : Nat, ph'[i]? = if L.any (fun c => m.heated_by c i)
        then (ph[i]?).map (fun h => fadd h (some (m.heat_quantum E))) else ph[i]? := by
  induction L generalizing ph with
  | nil => exact ⟨ph, rfl, rfl, fun i => by simp⟩
  | cons c cs ih =>
    obtain ⟨hc, hcs⟩ := List.nodup_cons.1 hnd
    obtain ⟨ph1, h1, hl1, hp1⟩ := change_heat_step_spec E (m.with_heat ph) c hmi
      (fun lst hin hg hn => by
        have := hvalid c lst hin hg hn
        simpa [with_heat, hlen] using this)
    obtain ⟨ph2, h2, hl2, hp2⟩ := ih hcs ph1 (hl1.trans hlen)
    refine ⟨ph2, ?_, hl2.trans hl1, fun i => ?_⟩
    · rw [List.foldlM_cons, h1]
      exact h2
    · have hp1' : ph1[i]? = if m.heated_by c i
          then (ph[i]?).map (fun h => fadd h (some (m.heat_quantum E))) else ph[i]? := hp1 i
      rw [hp2 i, hp1', List.any_cons]
      cases h3 : m.heated_by c i
      · simp only [Bool.false_or, Bool.false_eq_true, if_false]
      · have hnone : cs.any (fun c' => m.heated_by c' i) = false := by
          rw [Bool.eq_false_iff]
          intro hany
          obtain ⟨c', hc', hh⟩ := List.any_eq_true.1 hany
          exact hdisj c c' i (fun e => hc (e ▸ hc')) h3 hh
        simp only [hnone, Bool.true_or, if_true, Bool.false_eq_true, if_false]


theorem heated_by_iff (m : GameModel) (c : IVec2) (ip : Int) :
    m.heated_by c ip = true ↔ m.in_bound c = true ∧
      distance_le ((c.1 : ℚ), (c.2 : ℚ)) m.cur_heat_brush.center m.cur_heat_brush.radius = true ∧
      ∃ lst, getI m.state_cur.map_index (m.idx c) = some lst ∧ lst.nil = false ∧
        lst.from_ ≤ ip ∧ ip ≤ lst.to_ := by
  unfold heated_by
  cases hg : getI m.state_cur.map_index (m.idx c) with
  | none => simp
  | some lst => simp [and_assoc]

theorem under_heat_brush_iff (m : GameModel) (ip : Int) :
    m.under_heat_brush ip ↔ ∃ c, m.heated_by c ip = true := by
  have hd := fun c : IVec2 => distance_le_iff_sqrt ((c.1 : ℚ), (c.2 : ℚ))
    m.cur_heat_brush.center m.cur_heat_brush.radius
  simp only [Rat.cast_intCast] at hd
  constructor
  · rintro ⟨c, lst, h1, h2, h3, h4, h5⟩
    exact ⟨c, (heated_by_iff m c ip).2 ⟨h1, (hd c).2 h2, lst, h3, h4, h5⟩⟩
  · rintro ⟨c, hc⟩
    obtain ⟨h1, h2, lst, h3, h4, h5⟩ := (heated_by_iff m c ip).1 hc
    exact ⟨c, lst, h1, (hd c).1 h2, h3, h4, h5⟩

/-- C7: with a pending heat brush, `handle_change_heat` adds `+K_HEAT_DELTA` (`increase`) or
`-K_HEAT_DELTA` exactly once to `state_next.p_heat[ip]` for every particle `ip` in the
current-generation range of a cell that is on the canvas and within Euclidean distance `radius`
of the brush centre, leaves every other next-generation heat and everything else in the model
unchanged, and clears `has_heat_brush`, so that a second call changes nothing.  The ranges are
those of a compacted generation: inside the heat column and disjoint for different cells. -/
theorem heat_brush (E : Env) (m : GameModel) (hb : m.has_heat_brush = true)
    (hmi : (m.state_cur.map_index.length : Int) = m.width * m.height)
    (hvalid : ∀ c lst, m.in_bound c = true →
      getI m.state_cur.map_index (m.idx c) = some lst → lst.nil = false →
      0 ≤ lst.from_ ∧ lst.to_ < (m.state_next.p_heat.length : Int))
    (hdisj : ∀ c1 c2 l1 l2, m.in_bound c1 = true → m.in_bound c2 = true → c1 ≠ c2 →
      getI m.state_cur.map_index (m.idx c1) = some l1 →
      getI m.state_cur.map_index (m.idx c2) = some l2 →
      l1.nil = false → l2.nil = false →
      ∀ i : Int, ¬ ((l1.from_ ≤ i ∧ i ≤ l1.to_) ∧ (l2.from_ ≤ i ∧ i ≤ l2.to_))) :
    ∃ m', m.handle_change_heat E = some m' ∧
      m' = { m with
        has_heat_brush := false
        state_next := { m.state_next with p_heat := m'.state_next.p_heat } } ∧
      m'.state_next.p_heat.length = m.state_next.p_heat.length ∧
      (∀ (ip : Nat) (h : Flt), m.state_next.p_heat[ip]? = some h → m.under_heat_brush ip →
        m'.state_next.p_heat[ip]? = some (fadd h (some
          (if m.cur_heat_brush.increase then E.K_HEAT_DELTA else -E.K_HEAT_DELTA)))) ∧
      (∀ ip : Nat, ¬ m.under_heat_brush ip →
        m'.state_next.p_heat[ip]? = m.state_next.p_heat[ip]?) ∧
      m'.handle_change_heat E = some m' := by
  have hdisj' : ∀ (c1 c2 : IVec2) (i : Nat), c1 ≠ c2 → m.heated_by c1 i = true →
      m.heated_by c2 i = true → False := by
    intro c1 c2 i hne h1 h2
    obtain ⟨a1, -, l1, a3, a4, a5⟩ := (heated_by_iff m c1 i).1 h1
    obtain ⟨b1, -, l2, b3, b4, b5⟩ := (heated_by_iff m c2 i).1 h2
    exact hdisj c1 c2 l1 l2 a1 b1 hne a3 b3 a4 b4 i ⟨a5, b5⟩
  obtain ⟨ph', hf, hl, hp⟩ := foldlM_change_heat_step E m hmi hvalid hdisj'
    (brush_box m.cur_heat_brush.center m.cur_heat_brush.radius) (nodup_brush_box _ _)
    m.state_next.p_heat rfl
  have hany : ∀ ip : Nat,
      (brush_box m.cur_heat_brush.center m.cur_heat_brush.radius).any
        (fun c => m.heated_by c ip) = true ↔ m.under_heat_brush ip := by
    intro ip
    rw [under_heat_brush_iff, List.any_eq_true]
    constructor
    · rintro ⟨c, -, hc⟩; exact ⟨c, hc⟩
    · rintro ⟨c, hc⟩
      exact ⟨c, mem_brush_box_of_distance_le _ _ c ((heated_by_iff m c ip).1 hc).2.1, hc⟩
  have hq : m.heat_quantum E
      = if m.cur_heat_brush.increase then E.K_HEAT_DELTA else -E.K_HEAT_DELTA := by
    unfold heat_quantum
    split_ifs <;> ring
  have hloop := forInt_forInt
    ((f2i m.cur_heat_brush.center).1 - truncQ (m.cur_heat_brush.radius + 1))
    ((f2i m.cur_heat_brush.center).1 + truncQ (m.cur_heat_brush.radius + 1))
    ((f2i m.cur_heat_brush.center).2 - truncQ (m.cur_heat_brush.radius + 1))
    ((f2i m.cur_heat_brush.center).2 + truncQ (m.cur_heat_brush.radius + 1))
    (fun acc x y => acc.change_heat_step E x y) m
  beta_reduce at hloop
  unfold brush_box at hf
  have hm : m.with_heat m.state_next.p_heat = m := rfl
  rw [hm] at hf
  refine ⟨{ m.with_heat ph' with has_heat_brush := false }, ?_, rfl, hl, ?_, ?_, ?_⟩
  · unfold handle_change_heat
    simp only [hb, if_true, Option.bind_eq_bind, Option.pure_def]
    rw [hloop, hf]
    rfl
  · intro ip h hh hu
    show ph'[ip]? = _
    rw [hp ip, if_pos ((hany ip).2 hu), hh, hq]
    rfl
  · intro ip hu
    show ph'[ip]? = _
    rw [hp ip, if_neg (fun hc => hu ((hany ip).1 hc))]
  · simp [handle_change_heat]

theorem exHeatBrush_in_bound (c : IVec2) (h : exHeatBrush.in_bound c = true) : c = (0, 0) := by
  obtain ⟨h1, h2, h3, h4⟩ := (in_bound_iff exHeatBrush c).1 h
  have e1 : exHeatBrush.width = 1 := rfl
  have e2 : exHeatBrush.height = 1 := rfl
  rw [e1] at h2
  rw [e2] at h4
  exact Prod.ext (by show c.1 = 0; omega) (by show c.2 = 0; omega)

/-- The brush of `exHeatBrush` heats both particles of the cell. -/
theorem heat_brush_witness :
    ∃ m', exHeatBrush.handle_change_heat exEnv = some m' ∧
      m'.state_next.p_heat.length = exHeatBrush.state_next.p_heat.length :=
  (heat_brush exEnv exHeatBrush rfl (by decide)
    (by
      intro c lst hc hg hn
      obtain rfl := exHeatBrush_in_bound c hc
      have : getI exHeatBrush.state_cur.map_index (exHeatBrush.idx (0, 0))
          = some { from_ := 0, to_ := 1 } := by decide
      rw [this] at hg
      obtain rfl : ({ from_ := 0, to_ := 1 } : PixelParticleList) = lst := by simpa using hg
      decide)
    (by
      intro c1 c2 l1 l2 h1 h2 hne
      exact absurd ((exHeatBrush_in_bound c1 h1).trans (exHeatBrush_in_bound c2 h2).symm) hne)).imp
    (fun _ h => ⟨h.1, h.2.2.1⟩)

end GameModel

/-! ## Frames without particles -/

namespace GameModel

theorem stdSort_nil {srt : (Nat → Nat → Bool) → List Nat → List Nat} (h : StdSort srt)
    (p_idx : List Int) : srt (complete_comp p_idx) [] = [] :=
  List.Perm.eq_nil (h (fun i => p_idx.getD i 0) []).1

theorem prepare_empty (m : GameModel) (h0 : m.state_cur.particles = 0) :
    m.prepare = some { m with state_next := m.state_next.reset 0 } := by
  simp [prepare, h0, forRange_zero]

theorem compute_heat_empty (E : Env) (m : GameModel) (h0 : m.state_cur.particles = 0) :
    m.compute_heat E = some m := by
  simp [compute_heat, h0, forRange_zero]

theorem compute_vel_empty (E : Env) (m : GameModel) (h0 : m.state_cur.particles = 0) :
    ∃ lb, m.compute_vel E = some { m with liquid_buf := lb } := by
  obtain ⟨mk, hk, lb, hlb⟩ := forRange_invariant
    (fun _ (mk : GameModel) => ∃ lb, mk = { m with liquid_buf := lb })
    E.K_LIQUID_ITERATIONS.toNat
    (fun _ mk => forRange 0 (liquid_step E (Int.floor ((Int.ceil E.H : ℚ))))
      { mk with liquid_buf := { mk.liquid_buf with lp_rho := [], lp_p := [] } })
    { m with liquid_buf := { m.liquid_buf with
        p_idx_mapping := resize m.liquid_buf.p_idx_mapping 0 0
        p_im_pos := resize m.liquid_buf.p_im_pos 0 (some 0, some 0)
        p_im_vel := resize m.liquid_buf.p_im_vel 0 (some 0, some 0) } }
    ⟨_, rfl⟩
    (by
      rintro k s - ⟨lb, rfl⟩
      exact ⟨_, forRange_zero _ _, _, rfl⟩)
  refine ⟨lb, ?_⟩
  simp only [forRange_zero] at hk
  simp only [compute_vel, compute_vel_liquid, h0, forRange_zero, Option.bind_eq_bind,
    Option.some_bind, constraint_solid]
  rw [hk]
  subst hlb
  simp only [Option.some_bind, h0, forRange_zero]

theorem compute_position_empty (E : Env) (m : GameModel) (h0 : m.state_cur.particles = 0) :
    m.compute_position E = some m := by
  simp [compute_position, h0, forRange_zero]

theorem compute_air_flow_empty (E : Env) (m : GameModel) (h0 : m.state_cur.particles = 0) :
    m.compute_air_flow E = some { m with airflow_solver := E.animVel m.airflow_solver } := by
  simp [compute_air_flow, h0, forRange_zero]

theorem complete_empty (E : Env) (hsort : StdSort E.sort) (m : GameModel)
    (h0 : m.state_next.particles = 0) :
    m.complete E = some { m with
      reorder_buf := { p_idx := [], sort := [] }
      state_cur := m.state_cur.reset 0 } := by
  simp [complete, complete_reorder, h0, forRange_zero, stdSort_nil hsort]

theorem handle_change_heat_idle (E : Env) (m : GameModel) (hh : m.has_heat_brush = false) :
    m.handle_change_heat E = some m := by
  simp [handle_change_heat, hh]

theorem handle_new_particles_idle (E : Env) (m : GameModel)
    (hb : m.cur_particle_brush.type = ParticleType.None) :
    m.handle_new_particles E = some m := by
  simp [handle_new_particles, hb]

/-- One `update` of a model without particles and without pending brushes. -/
theorem update_empty_step (E : Env) (hsort : StdSort E.sort) (m : GameModel)
    (h0 : m.state_cur.particles = 0)
    (hb : m.cur_particle_brush.type = ParticleType.None) (hh : m.has_heat_brush = false) :
    ∃ m', m.update E = some m' ∧ m'.state_cur = m.state_cur.reset 0 ∧
      m'.cur_particle_brush.type = ParticleType.None ∧ m'.has_heat_brush = false := by
  -- the stages, each on the model the previous one returns
  obtain ⟨m1, e1, c1, n1, b1, f1⟩ : ∃ m1,
      GameModel.prepare { m with frame_counter := m.frame_counter + 1 } = some m1 ∧
      m1.state_cur = m.state_cur ∧ m1.state_next.particles = 0 ∧
      m1.cur_particle_brush = m.cur_particle_brush ∧ m1.has_heat_brush = m.has_heat_brush :=
    ⟨_, prepare_empty { m with frame_counter := m.frame_counter + 1 } h0, rfl, rfl, rfl, rfl⟩
  have h1 : m1.state_cur.particles = 0 := by rw [c1]; exact h0
  have e2 := compute_heat_empty E m1 h1
  obtain ⟨m3, e3, c3, n3, b3, f3⟩ : ∃ m3, m1.compute_vel E = some m3 ∧
      m3.state_cur = m1.state_cur ∧ m3.state_next.particles = m1.state_next.particles ∧
      m3.cur_particle_brush = m1.cur_particle_brush ∧ m3.has_heat_brush = m1.has_heat_brush := by
    obtain ⟨lb, hlb⟩ := compute_vel_empty E m1 h1
    exact ⟨_, hlb, rfl, rfl, rfl, rfl⟩
  have h3 : m3.state_cur.particles = 0 := by rw [c3]; exact h1
  have e4 := compute_position_empty E m3 h3
  obtain ⟨m5, e5, c5, n5, b5, f5⟩ : ∃ m5, m3.compute_air_flow E = some m5 ∧
      m5.state_cur = m3.state_cur ∧ m5.state_next.particles = m3.state_next.particles ∧
      m5.cur_particle_brush = m3.cur_particle_brush ∧ m5.has_heat_brush = m3.has_heat_brush :=
    ⟨_, compute_air_flow_empty E m3 h3, rfl, rfl, rfl, rfl⟩
  have hh5 : m5.has_heat_brush = false := by rw [f5, f3, f1]; exact hh
  have hb5 : m5.cur_particle_brush.type = ParticleType.None := by rw [b5, b3, b1]; exact hb
  have e6 := handle_change_heat_idle E m5 hh5
  have e7 := handle_new_particles_idle E m5 hb5
  obtain ⟨m8, e8, c8, b8, f8⟩ : ∃ m8, m5.complete E = some m8 ∧
      m8.state_cur = m5.state_cur.reset 0 ∧
      m8.cur_particle_brush = m5.cur_particle_brush ∧ m8.has_heat_brush = m5.has_heat_brush :=
    ⟨_, complete_empty E hsort m5 (by rw [n5, n3, n1]), rfl, rfl, rfl⟩
  refine ⟨m8, ?_, ?_, by rw [b8]; exact hb5, by rw [f8]; exact hh5⟩
  · unfold update
    simp only [Option.bind_eq_bind]
    rw [e1, Option.some_bind, e2, Option.some_bind, e3, Option.some_bind, e4, Option.some_bind,
      e5, Option.some_bind, e6, Option.some_bind, e7, Option.some_bind, e8]
  · rw [c8, c5, c3, c1]

theorem update_n_empty (E : Env) (hsort : StdSort E.sort) (n : Nat) (m : GameModel)
    (h0 : m.state_cur.particles = 0)
    (hb : m.cur_particle_brush.type = ParticleType.None) (hh : m.has_heat_brush = false) :
    ∃ m', update_n E n m = some m' ∧ m'.state_cur.particles = 0 := by
  induction n generalizing m with
  | zero => exact ⟨m, rfl, h0⟩
  | succ n ih =>
    obtain ⟨m1, e1, c1, b1, f1⟩ := update_empty_step E hsort m h0 hb hh
    obtain ⟨m', e', h'⟩ := ih m1 (by rw [c1]; rfl) b1 f1
    exact ⟨m', by rw [update_n, e1]; exact e', h'⟩

/-- C8: for a model whose current generation has zero particles, with no pending spawn brush and
no pending heat brush, `update` succeeds and leaves `state_cur.particles = 0`, every cell range
nil and every liquid-block list empty (and still no pending brush), whatever the air solver does
in `animVel`; hence any number of repeated `update` calls succeeds and keeps the particle count
at `0`. -/
theorem update_empty (E : Env) (hsort : StdSort E.sort) (m : GameModel)
    (h0 : m.state_cur.particles = 0)
    (hb : m.cur_particle_brush.type = ParticleType.None) (hh : m.has_heat_brush = false) :
    (∃ m', m.update E = some m' ∧ m'.state_cur.particles = 0 ∧
      m'.state_cur.map_index.length = m.state_cur.map_index.length ∧
      (∀ lst ∈ m'.state_cur.map_index, lst.nil = true) ∧
      m'.state_cur.map_block_liquid.length = m.state_cur.map_block_liquid.length ∧
      (∀ blk ∈ m'.state_cur.map_block_liquid, blk.idx_lp = []) ∧
      m'.cur_particle_brush.type = ParticleType.None ∧ m'.has_heat_brush = false) ∧
    ∀ n, ∃ m', update_n E n m = some m' ∧ m'.state_cur.particles = 0 := by
  refine ⟨?_, fun n => update_n_empty E hsort n m h0 hb hh⟩
  obtain ⟨m1, e1, c1, b1, f1⟩ := update_empty_step E hsort m h0 hb hh
  refine ⟨m1, e1, by rw [c1]; rfl, by rw [c1]; simp [StateCur.reset], ?_,
    by rw [c1]; simp [StateCur.reset], ?_, b1, f1⟩
  · intro lst hl
    rw [c1] at hl
    simp only [StateCur.reset, List.mem_map] at hl
    obtain ⟨_, -, rfl⟩ := hl
    rfl
  · intro blk hl
    rw [c1] at hl
    simp only [StateCur.reset, List.mem_map] at hl
    obtain ⟨_, -, rfl⟩ := hl
    rfl

/-- One frame of a freshly constructed 2 x 2 canvas. -/
theorem update_empty_witness :
    ∃ m', exEmpty.update exEnv = some m' ∧ m'.state_cur.particles = 0 :=
  (update_empty exEnv stdSort_stableSort exEmpty rfl rfl rfl).1.imp
    (fun _ h => ⟨h.1, h.2.1⟩)

end GameModel

/-! ## The collision response inside `compute_position` -/

namespace GameModel

theorem position_store_p_vel (E : Env) (m m' : GameModel) (ip : Nat) (pos : Vec2)
    (h : position_store E m ip pos = some m') : m'.state_next.p_vel = m.state_next.p_vel := by
  simp only [position_store, Option.bind_eq_bind, Option.pure_def] at h
  obtain ⟨p_pos, -, h⟩ := Option.bind_eq_some.1 h
  split_ifs at h
  · obtain ⟨p_type, -, h⟩ := Option.bind_eq_some.1 h
    simp only [Option.some.injEq] at h
    subst h
    rfl
  · simp only [Option.some_bind, Option.some.injEq] at h
    subst h
    rfl

/-- C3: with `K_RESTITUTION = 1` and mover `ip` and target `t` of the same mass `> 0`, on a
collision the velocities that `compute_position` writes are swapped: the collision block
overwrites the mover's next-generation velocity with the target's pre-collision velocity `v2`
and the target's with the mover's pre-collision velocity `v1`, on both axes, exactly, and that
is the velocity column the iteration leaves. -/
theorem equal_mass_elastic_swap (E : Env) (m m' : GameModel) (ip t : Nat)
    (cur_type target_type : ParticleType) (v : FVec2) (pos_old pos_new v1 v2 : Vec2)
    (det : Detection)
    (hK : E.K_RESTITUTION = 1)
    (hmass : E.particle_mass cur_type = E.particle_mass target_type)
    (hpos : 0 < E.particle_mass cur_type)
    (hcur : m.state_cur.p_type[ip]? = some cur_type)
    (hmove : cur_type ≠ ParticleType.Iron)
    (hv : m.state_cur.p_vel[ip]? = some v)
    (hold : m.state_cur.p_pos[ip]? = some pos_old)
    (hnew : (vadd pos_old.toF (vscale v (some E.K_DT))).toVec2 = some pos_new)
    (hdet : detect_collision E m pos_old pos_new false = some det)
    (hcol : det.collided = true)
    (ht : det.result.target_index = (t : Int))
    (htarget : m.state_cur.p_type[t]? = some target_type)
    (hv1 : m.state_next.p_vel[ip]? = some v1.toF)
    (hv2 : m.state_next.p_vel[t]? = some v2.toF)
    (hstep : compute_position_step E ip m = some m') :
    collision_response E { m with rng := det.rng } ip cur_type det.result.target_index
      = some ((m.state_next.p_vel.set ip v2.toF).set t v1.toF) ∧
    m'.state_next.p_vel = (m.state_next.p_vel.set ip v2.toF).set t v1.toF := by
  have hresp := collision_response_equal_mass E { m with rng := det.rng } ip t cur_type
    target_type v1 v2 hK hmass hpos htarget hv1 hv2
  rw [← ht] at hresp
  refine ⟨hresp, ?_⟩
  simp only [compute_position_step, hcur, hv, hold, hnew, hdet, hcol, hmove, hresp,
    Option.bind_eq_bind, Option.some_bind, if_true, if_false, Option.pure_def] at hstep
  exact position_store_p_vel E _ m' ip _ hstep

theorem exCollide_step :
    compute_position_step exEnv 0 exCollide = some
      { exCollide with
        rng := 3
        state_next := { exCollide.state_next with
          p_vel := [(some (-1), some 0), (some 1, some 0)] } } := by decide!

theorem exCollide_detect :
    detect_collision exEnv exCollide (1 / 2, 1 / 2) (3 / 2, 1 / 2) false
      = some { collided := true, result := { pos := (1 / 2, 1 / 2), target_index := 1 }, rng := 1 } := by
  decide!

/-- The swap for the two unit-mass particles of `exCollide`, which meet head-on with velocities
`(1, 0)` and `(-1, 0)`. -/
theorem equal_mass_elastic_swap_witness :
    collision_response exEnv { exCollide with rng := 1 } 0 ParticleType.Sand 1
      = some [(some (-1), some 0), (some 1, some 0)] ∧
    ({ exCollide with
        rng := 3
        state_next := { exCollide.state_next with
          p_vel := [(some (-1), some 0), (some 1, some 0)] } } : GameModel).state_next.p_vel
      = [(some (-1), some 0), (some 1, some 0)] :=
  equal_mass_elastic_swap exEnv exCollide _ 0 1 ParticleType.Sand ParticleType.Sand
    (some 10, some 0) (1 / 2, 1 / 2) (3 / 2, 1 / 2) (1, 0) (-1, 0) _
    rfl rfl (by norm_num [exEnv]) rfl (by decide) rfl rfl (by decide!) exCollide_detect rfl rfl
    rfl rfl rfl exCollide_step

end GameModel

/-! ## `prepare` -/

/-- C12: on `exSnapshot`, `prepare` copies the type, the position and the velocity of the one
current particle into the next generation and sets `state_next.particles` to `1`, but the heat
column is assigned to itself: the next generation keeps the heat `1` that its slot `0` held
before, where the current particle has heat `0`. -/
theorem prepare_keeps_stale_heat :
    exSnapshot.prepare.map (fun m => m.state_next) = some
      { particles := 1
        p_type := [ParticleType.Sand]
        p_heat := [some 1]
        p_pos := [(3 / 2, 1 / 2)]
        p_vel := [(some 0, some 0)] } ∧
    exSnapshot.state_cur.p_heat = [some 0] := by
  constructor <;> decide!

/-! ## The solver steps and the current generation -/

namespace GameModel

/-- The frame of `compute_position`: it leaves the current generation as it was. -/
theorem compute_position_state_cur (E : Env) (m m' : GameModel)
    (h : m.compute_position E = some m') : m'.state_cur = m.state_cur := by
  unfold compute_position at h
  exact forRange_preserves (fun _ a => a.state_cur = m.state_cur) _ _ m m' rfl
    (fun k a b _ ha hb => (compute_position_step_spec E a b k hb).1.trans ha) h

end GameModel

/-- C13: on `exHeat`, `compute_heat` overwrites the heat column of the current generation (from
`[0, 0, 1, 1]` to `[1/5, 1/5, 16/25, 16/25]`) and stores nothing in the next generation, which
is after the step what it was before. -/
theorem compute_heat_overwrites_current :
    (GameModel.compute_heat exEnv exHeat).map (fun m => (m.state_cur.p_heat, m.state_next))
      = some ([some (1 / 5), some (1 / 5), some (16 / 25), some (16 / 25)],
          exHeat.state_next) ∧
    exHeat.state_cur.p_heat = [some 0, some 0, some 1, some 1] := by
  constructor <;> decide!

/-! ## Momentum in the collision response -/

namespace GameModel

/-- One axis of the collision block, for finite velocities and `m1 + m2 ≠ 0`: the formulas of
the spec. -/
theorem collision_axis_eq (E : Env) (m1 m2 v1 v2 : ℚ) (h : m1 + m2 ≠ 0) :
    collision_axis E m1 m2 (some v1) (some v2)
      = (some (restitution_mover E.K_RESTITUTION m1 m2 v1 v2),
         some (restitution_target E.K_RESTITUTION m1 m2 v1 v2)) := by
  simp only [collision_axis, fadd, fmul, fsub, fdiv, if_neg h, restitution_mover,
    restitution_target, one_mul]

/-- The formulas of the spec conserve momentum on one axis. -/
theorem restitution_momentum (e m1 m2 v1 v2 : ℚ) (h : m1 + m2 ≠ 0) :
    m1 * restitution_mover e m1 m2 v1 v2 + m2 * restitution_target e m1 m2 v1 v2
      = m1 * v1 + m2 * v2 := by
  simp only [restitution_mover, restitution_target]
  field_simp
  ring

/-- The collision block for finite velocities and `m1 + m2 ≠ 0`. -/
theorem collision_response_eq (E : Env) (m : GameModel) (ip t : Nat)
    (cur_type target_type : ParticleType) (v1 v2 : Vec2)
    (hsum : E.particle_mass cur_type + E.particle_mass target_type ≠ 0)
    (htarget : m.state_cur.p_type[t]? = some target_type)
    (hv1 : m.state_next.p_vel[ip]? = some v1.toF)
    (hv2 : m.state_next.p_vel[t]? = some v2.toF) :
    collision_response E m ip cur_type (t : Int)
      = some ((m.state_next.p_vel.set ip
          (Vec2.toF
            (restitution_mover E.K_RESTITUTION (E.particle_mass cur_type)
              (E.particle_mass target_type) v1.1 v2.1,
             restitution_mover E.K_RESTITUTION (E.particle_mass cur_type)
              (E.particle_mass target_type) v1.2 v2.2))).set t
          (Vec2.toF
            (restitution_target E.K_RESTITUTION (E.particle_mass cur_type)
              (E.particle_mass target_type) v1.1 v2.1,
             restitution_target E.K_RESTITUTION (E.particle_mass cur_type)
              (E.particle_mass target_type) v1.2 v2.2))) := by
  have hip := lt_length_of_getElem?_eq_some hv1
  have ht := lt_length_of_getElem?_eq_some hv2
  simp [collision_response, getI_natCast, setI_natCast, setAt, htarget, hv1, hv2,
    Vec2.toF, collision_axis_eq E _ _ _ _ hsum, hip, ht]

end GameModel

namespace GameModel

/-- C17: when the mover `ip` (mass `m1`, next-generation velocity `v1`) collides with the target
`t` (mass `m2`, next-generation velocity `v2`) and `m1 + m2 ≠ 0`, then for every restitution
value the velocity column that the iteration of `compute_position` leaves is the old one with
the spec's `v1'` written at `ip` and the spec's `v2'` written at `t`, and on each axis
`m1·v1' + m2·v2' = m1·v1 + m2·v2`. -/
theorem collision_conserves_momentum (E : Env) (m m' : GameModel) (ip t : Nat)
    (cur_type target_type : ParticleType) (v : FVec2) (pos_old pos_new v1 v2 : Vec2)
    (det : Detection)
    (hsum : E.particle_mass cur_type + E.particle_mass target_type ≠ 0)
    (hcur : m.state_cur.p_type[ip]? = some cur_type)
    (hmove : cur_type ≠ ParticleType.Iron)
    (hv : m.state_cur.p_vel[ip]? = some v)
    (hold : m.state_cur.p_pos[ip]? = some pos_old)
    (hnew : (vadd pos_old.toF (vscale v (some E.K_DT))).toVec2 = some pos_new)
    (hdet : detect_collision E m pos_old pos_new false = some det)
    (hcol : det.collided = true)
    (ht : det.result.target_index = (t : Int))
    (htarget : m.state_cur.p_type[t]? = some target_type)
    (hv1 : m.state_next.p_vel[ip]? = some v1.toF)
    (hv2 : m.state_next.p_vel[t]? = some v2.toF)
    (hstep : compute_position_step E ip m = some m') :
    m'.state_next.p_vel = (m.state_next.p_vel.set ip
        (Vec2.toF
          (restitution_mover E.K_RESTITUTION (E.particle_mass cur_type)
            (E.particle_mass target_type) v1.1 v2.1,
           restitution_mover E.K_RESTITUTION (E.particle_mass cur_type)
            (E.particle_mass target_type) v1.2 v2.2))).set t
        (Vec2.toF
          (restitution_target E.K_RESTITUTION (E.particle_mass cur_type)
            (E.particle_mass target_type) v1.1 v2.1,
           restitution_target E.K_RESTITUTION (E.particle_mass cur_type)
            (E.particle_mass target_type) v1.2 v2.2)) ∧
    E.particle_mass cur_type * restitution_mover E.K_RESTITUTION (E.particle_mass cur_type)
        (E.particle_mass target_type) v1.1 v2.1
      + E.particle_mass target_type * restitution_target E.K_RESTITUTION
        (E.particle_mass cur_type) (E.particle_mass target_type) v1.1 v2.1
      = E.particle_mass cur_type * v1.1 + E.particle_mass target_type * v2.1 ∧
    E.particle_mass cur_type * restitution_mover E.K_RESTITUTION (E.particle_mass cur_type)
        (E.particle_mass target_type) v1.2 v2.2
      + E.particle_mass target_type * restitution_target E.K_RESTITUTION
        (E.particle_mass cur_type) (E.particle_mass target_type) v1.2 v2.2
      = E.particle_mass cur_type * v1.2 + E.particle_mass target_type * v2.2 := by
  have hresp := collision_response_eq E { m with rng := det.rng } ip t cur_type
    target_type v1 v2 hsum htarget hv1 hv2
  rw [← ht] at hresp
  refine ⟨?_, restitution_momentum _ _ _ _ _ hsum, restitution_momentum _ _ _ _ _ hsum⟩
  simp only [compute_position_step, hcur, hv, hold, hnew, hdet, hcol, hmove, hresp,
    Option.bind_eq_bind, Option.some_bind, if_true, if_false, Option.pure_def] at hstep
  exact position_store_p_vel E _ m' ip _ hstep

end GameModel

theorem exImpact_step :
    GameModel.compute_position_step heavyEnv 0 exImpact = some
      { exImpact with
        rng := 3
        state_next := { exImpact.state_next with
          p_vel := [(some (-5 / 4), some 0), (some (-1 / 4), some 0)] } } := by decide!

theorem exImpact_detect :
    GameModel.detect_collision heavyEnv exImpact (1 / 2, 1 / 2) (3 / 2, 1 / 2) false
      = some { collided := true, result := { pos := (1 / 2, 1 / 2), target_index := 1 }, rng := 1 } := by
  decide!

/-- The response for the sand particle of `exImpact` (mass `1`, velocity `(1, 0)`) hitting the
water particle (mass `3`, velocity `(-1, 0)`) with restitution `1/2`: the momentum `-2` on the
first axis is kept by the new velocities `-5/4` and `-1/4`. -/
theorem collision_conserves_momentum_witness :
    ({ exImpact with
        rng := 3
        state_next := { exImpact.state_next with
          p_vel := [(some (-5 / 4), some 0), (some (-1 / 4), some 0)] } } : GameModel).state_next.p_vel
      = (exImpact.state_next.p_vel.set 0
        (Vec2.toF
          (restitution_mover heavyEnv.K_RESTITUTION (heavyEnv.particle_mass ParticleType.Sand)
            (heavyEnv.particle_mass ParticleType.Water) 1 (-1),
           restitution_mover heavyEnv.K_RESTITUTION (heavyEnv.particle_mass ParticleType.Sand)
            (heavyEnv.particle_mass ParticleType.Water) 0 0))).set 1
        (Vec2.toF
          (restitution_target heavyEnv.K_RESTITUTION (heavyEnv.particle_mass ParticleType.Sand)
            (heavyEnv.particle_mass ParticleType.Water) 1 (-1),
           restitution_target heavyEnv.K_RESTITUTION (heavyEnv.particle_mass ParticleType.Sand)
            (heavyEnv.particle_mass ParticleType.Water) 0 0)) ∧
    heavyEnv.particle_mass ParticleType.Sand * restitution_mover heavyEnv.K_RESTITUTION
        (heavyEnv.particle_mass ParticleType.Sand) (heavyEnv.particle_mass ParticleType.Water)
        1 (-1)
      + heavyEnv.particle_mass ParticleType.Water * restitution_target heavyEnv.K_RESTITUTION
        (heavyEnv.particle_mass ParticleType.Sand) (heavyEnv.particle_mass ParticleType.Water)
        1 (-1)
      = heavyEnv.particle_mass ParticleType.Sand * 1
        + heavyEnv.particle_mass ParticleType.Water * (-1) ∧
    heavyEnv.particle_mass ParticleType.Sand * restitution_mover heavyEnv.K_RESTITUTION
        (heavyEnv.particle_mass ParticleType.Sand) (heavyEnv.particle_mass ParticleType.Water)
        0 0
      + heavyEnv.particle_mass ParticleType.Water * restitution_target heavyEnv.K_RESTITUTION
        (heavyEnv.particle_mass ParticleType.Sand) (heavyEnv.particle_mass ParticleType.Water)
        0 0
      = heavyEnv.particle_mass ParticleType.Sand * 0
        + heavyEnv.particle_mass ParticleType.Water * 0 :=
  GameModel.collision_conserves_momentum heavyEnv exImpact _ 0 1 ParticleType.Sand
    ParticleType.Water (some 10, some 0) (1 / 2, 1 / 2) (3 / 2, 1 / 2) (1, 0) (-1, 0) _
    (by decide!) rfl (by decide) rfl rfl (by decide!) exImpact_detect rfl rfl
    rfl rfl rfl exImpact_step

/-! ## Index ranges under the construction precondition -/

/-- A coarse row-major index: for `w` and `h` positive multiples of `K > 0` and a cell `(c, r)`
of the `w x h` canvas, `r / K * (w / K) + c / K` lies in `[0, (w / K) * (h / K))`, and that
bound is `w * h / K / K`. -/
theorem coarse_index_bounds (K w h c r : Int) (hK : 0 < K) (hw : K ∣ w) (hh : K ∣ h)
    (hc0 : 0 ≤ c) (hc1 : c < w) (hr0 : 0 ≤ r) (hr1 : r < h) :
    0 ≤ Int.tdiv r K * Int.tdiv w K + Int.tdiv c K ∧
    Int.tdiv r K * Int.tdiv w K + Int.tdiv c K < Int.tdiv w K * Int.tdiv h K ∧
    Int.tdiv (Int.tdiv (w * h) K) K = Int.tdiv w K * Int.tdiv h K := by
  obtain ⟨a, ha⟩ := hw
  obtain ⟨b, hb⟩ := hh
  have ha0 : 0 < a := by
    by_contra hneg
    have : K * a ≤ 0 := mul_nonpos_of_nonneg_of_nonpos hK.le (by omega)
    omega
  have hb0 : 0 < b := by
    by_contra hneg
    have : K * b ≤ 0 := mul_nonpos_of_nonneg_of_nonpos hK.le (by omega)
    omega
  have e1 : Int.tdiv (w * h) K = a * (K * b) := by
    rw [Int.tdiv_eq_ediv (by rw [ha, hb]; positivity) hK.le, ha, hb,
      mul_assoc, Int.mul_ediv_cancel_left _ hK.ne']
  have e2 : Int.tdiv (Int.tdiv (w * h) K) K = a * b := by
    rw [e1, Int.tdiv_eq_ediv (by positivity) hK.le, mul_left_comm,
      Int.mul_ediv_cancel_left _ hK.ne']
  have e3 : Int.tdiv w K = a := by
    rw [Int.tdiv_eq_ediv (by omega) hK.le, ha, Int.mul_ediv_cancel_left _ hK.ne']
  have e3' : Int.tdiv h K = b := by
    rw [Int.tdiv_eq_ediv (by omega) hK.le, hb, Int.mul_ediv_cancel_left _ hK.ne']
  have e4 : Int.tdiv r K = r / K := Int.tdiv_eq_ediv hr0 hK.le
  have e5 : Int.tdiv c K = c / K := Int.tdiv_eq_ediv hc0 hK.le
  have hyb : r / K < b := Int.ediv_lt_of_lt_mul hK (by rw [mul_comm]; omega)
  have hxa : c / K < a := Int.ediv_lt_of_lt_mul hK (by rw [mul_comm]; omega)
  have hy' : 0 ≤ r / K := Int.ediv_nonneg hr0 hK.le
  have hx' : 0 ≤ c / K := Int.ediv_nonneg hc0 hK.le
  rw [e2, e3, e3', e4, e5]
  refine ⟨by positivity, by nlinarith, rfl⟩

theorem tmod_eq_zero_of_dvd (K w : Int) (h : K ∣ w) : Int.tmod w K = 0 := by
  obtain ⟨a, rfl⟩ := h
  exact Int.mul_tmod_right K a

namespace GameModel

/-- C20: for `w` and `h` positive multiples of `K_LIQUID_DOWNSAMPLE` and `K_AIRFLOW_DOWNSAMPLE`
(both positive) the constructor succeeds, and in the model it builds every in-bound cell `u` has
`0 ≤ idx u < w * h` (the size of `map_index`), `0 ≤ idx_liquid u < (w / K_L) * (h / K_L)`, which
is `w * h / K_L / K_L`, the size of `map_block_liquid`, and
`0 ≤ idx_air u < (w / K_A) * (h / K_A)`, the size of the three arrays of the air field; and
`idx` is injective on in-bound cells. -/
theorem index_ranges (E : Env) (w h : Int) (v0 p0 : Flt)
    (hKL : 0 < E.K_LIQUID_DOWNSAMPLE) (hKA : 0 < E.K_AIRFLOW_DOWNSAMPLE)
    (hw : 0 < w) (hh : 0 < h)
    (hwL : E.K_LIQUID_DOWNSAMPLE ∣ w) (hhL : E.K_LIQUID_DOWNSAMPLE ∣ h)
    (hwA : E.K_AIRFLOW_DOWNSAMPLE ∣ w) (hhA : E.K_AIRFLOW_DOWNSAMPLE ∣ h) :
    ∃ m, create E w h v0 p0 = some m ∧ m.width = w ∧ m.height = h ∧
      (m.state_cur.map_index.length : Int) = w * h ∧
      (m.state_cur.map_block_liquid.length : Int)
        = Int.tdiv (Int.tdiv (w * h) E.K_LIQUID_DOWNSAMPLE) E.K_LIQUID_DOWNSAMPLE ∧
      (m.state_cur.map_block_liquid.length : Int)
        = Int.tdiv w E.K_LIQUID_DOWNSAMPLE * Int.tdiv h E.K_LIQUID_DOWNSAMPLE ∧
      (m.airflow_solver.vx.length : Int)
        = Int.tdiv w E.K_AIRFLOW_DOWNSAMPLE * Int.tdiv h E.K_AIRFLOW_DOWNSAMPLE ∧
      m.airflow_solver.vy.length = m.airflow_solver.vx.length ∧
      m.airflow_solver.lp_p.length = m.airflow_solver.vx.length ∧
      (∀ u, m.in_bound u = true →
        (0 ≤ m.idx u ∧ m.idx u < w * h) ∧
        (0 ≤ m.idx_liquid E u ∧ m.idx_liquid E u
          < Int.tdiv w E.K_LIQUID_DOWNSAMPLE * Int.tdiv h E.K_LIQUID_DOWNSAMPLE) ∧
        (0 ≤ m.idx_air E u ∧ m.idx_air E u
          < Int.tdiv w E.K_AIRFLOW_DOWNSAMPLE * Int.tdiv h E.K_AIRFLOW_DOWNSAMPLE)) ∧
      (∀ u v, m.in_bound u = true → m.in_bound v = true → m.idx u = m.idx v → u = v) := by
  have hpre : Int.tmod w E.K_AIRFLOW_DOWNSAMPLE = 0 ∧ Int.tmod h E.K_AIRFLOW_DOWNSAMPLE = 0 ∧
      Int.tmod w E.K_LIQUID_DOWNSAMPLE = 0 ∧ Int.tmod h E.K_LIQUID_DOWNSAMPLE = 0 :=
    ⟨tmod_eq_zero_of_dvd _ _ hwA, tmod_eq_zero_of_dvd _ _ hhA, tmod_eq_zero_of_dvd _ _ hwL,
      tmod_eq_zero_of_dvd _ _ hhL⟩
  have hL := coarse_index_bounds _ w h 0 0 hKL hwL hhL le_rfl hw le_rfl hh
  have hA := coarse_index_bounds _ w h 0 0 hKA hwA hhA le_rfl hw le_rfl hh
  have hLpos := lt_of_le_of_lt hL.1 hL.2.1
  have hApos := lt_of_le_of_lt hA.1 hA.2.1
  have hLeq := hL.2.2
  clear hL hA
  have hwh : 0 ≤ w * h := by positivity
  refine ⟨_, if_pos hpre, rfl, rfl, ?_, ?_, ?_, ?_, ?_, ?_, ?_, ?_⟩
  · simp only [StateCur.init, List.length_replicate]
    omega
  · simp only [StateCur.init, List.length_replicate]
    omega
  · simp only [StateCur.init, List.length_replicate]
    omega
  · simp only [AirSolver.init, List.length_replicate]
    rw [mul_comm (Int.tdiv h _) (Int.tdiv w _)]
    omega
  · simp only [AirSolver.init, List.length_replicate]
  · simp only [AirSolver.init, List.length_replicate]
  · intro u hu
    obtain ⟨hx0, hx1, hy0, hy1⟩ := (in_bound_iff _ u).1 hu
    have bL := coarse_index_bounds _ w h u.1 u.2 hKL hwL hhL hx0 hx1 hy0 hy1
    have bA := coarse_index_bounds _ w h u.1 u.2 hKA hwA hhA hx0 hx1 hy0 hy1
    exact ⟨idx_bounds _ u hu, ⟨bL.1, bL.2.1⟩, ⟨bA.1, bA.2.1⟩⟩
  · intro u v hu hv
    exact idx_injective _ u v hu hv

/-- The ranges for a 4 x 2 canvas with liquid blocks of 2 x 2 cells and air cells of 1 x 1. -/
theorem index_ranges_witness :
    ∃ m, create { exEnv with K_LIQUID_DOWNSAMPLE := 2 } 4 2 (some 0) (some 0) = some m ∧
      m.width = 4 ∧ m.height = 2 ∧
      (m.state_cur.map_index.length : Int) = 4 * 2 ∧
      (m.state_cur.map_block_liquid.length : Int) = Int.tdiv (Int.tdiv (4 * 2) 2) 2 ∧
      (m.state_cur.map_block_liquid.length : Int) = Int.tdiv 4 2 * Int.tdiv 2 2 ∧
      (m.airflow_solver.vx.length : Int) = Int.tdiv 4 1 * Int.tdiv 2 1 ∧
      m.airflow_solver.vy.length = m.airflow_solver.vx.length ∧
      m.airflow_solver.lp_p.length = m.airflow_solver.vx.length ∧
      (∀ u, m.in_bound u = true →
        (0 ≤ m.idx u ∧ m.idx u < 4 * 2) ∧
        (0 ≤ m.idx_liquid { exEnv with K_LIQUID_DOWNSAMPLE := 2 } u ∧
          m.idx_liquid { exEnv with K_LIQUID_DOWNSAMPLE := 2 } u < Int.tdiv 4 2 * Int.tdiv 2 2) ∧
        (0 ≤ m.idx_air { exEnv with K_LIQUID_DOWNSAMPLE := 2 } u ∧
          m.idx_air { exEnv with K_LIQUID_DOWNSAMPLE := 2 } u < Int.tdiv 4 1 * Int.tdiv 2 1)) ∧
      (∀ u v, m.in_bound u = true → m.in_bound v = true → m.idx u = m.idx v → u = v) :=
  index_ranges { exEnv with K_LIQUID_DOWNSAMPLE := 2 } 4 2 (some 0) (some 0)
    (by decide) (by decide) (by decide) (by decide) (by decide) (by decide) (by decide)
    (by decide)

end GameModel

/-! ## Air coupling -/

namespace GameModel

/-- A particle at most two cells away from an edge leaves the air field as it is. -/
theorem air_flow_step_near_edge (E : Env) (m : GameModel) (i : Nat) (pos : Vec2)
    (hpos : m.state_cur.p_pos[i]? = some pos) (hbd : m.bound_dist (f2i pos) ≤ 2) :
    air_flow_step E i m = some m := by
  simp [air_flow_step, hpos, hbd]

/-- The contribution of a particle more than two cells away from every edge to its air cell
`c`, for a finite cell velocity `(ax, ay)`, a finite particle velocity `u` and `K ≠ 0`. -/
theorem air_flow_step_far (E : Env) (m : GameModel) (i c : Nat) (pos u : Vec2)
    (ty : ParticleType) (ax ay : ℚ)
    (hK : E.K_AIRFLOW_DOWNSAMPLE ≠ 0)
    (hpos : m.state_cur.p_pos[i]? = some pos)
    (hbd : 2 < m.bound_dist (f2i pos))
    (hc : m.idx_air E (f2i pos) = (c : Int))
    (hty : m.state_cur.p_type[i]? = some ty)
    (hu : ty ≠ ParticleType.Iron → m.state_cur.p_vel[i]? = some u.toF)
    (hvx : m.airflow_solver.vx[c]? = some (some ax))
    (hvy : m.airflow_solver.vy[c]? = some (some ay)) :
    air_flow_step E i m = some { m with
      airflow_solver := { m.airflow_solver with
        vx := m.airflow_solver.vx.set c (some (if ty = ParticleType.Iron
          then ax * (1 - 1 / (E.K_AIRFLOW_DOWNSAMPLE : ℚ) ^ 2)
          else ax + (u.1 - ax) / (E.K_AIRFLOW_DOWNSAMPLE : ℚ) ^ 2))
        vy := m.airflow_solver.vy.set c (some (if ty = ParticleType.Iron
          then ay * (1 - 1 / (E.K_AIRFLOW_DOWNSAMPLE : ℚ) ^ 2)
          else ay + (u.2 - ay) / (E.K_AIRFLOW_DOWNSAMPLE : ℚ) ^ 2)) } } := by
  have hKq : (E.K_AIRFLOW_DOWNSAMPLE : ℚ) ≠ 0 := by exact_mod_cast hK
  have hcx := lt_length_of_getElem?_eq_some hvx
  have hcy := lt_length_of_getElem?_eq_some hvy
  have hbd' : ¬ m.bound_dist (f2i pos) ≤ 2 := by omega
  by_cases hiron : ty = ParticleType.Iron
  · subst hiron
    simp only [air_flow_step, hpos, hbd', hc, hty, hvx, hvy, getI_natCast, setI_natCast, setAt,
      hcx, hcy, fadd, fmul, fdiv, hKq, Option.bind_eq_bind, Option.some_bind, Option.pure_def,
      if_true, if_false, ne_eq, not_true_eq_false, Option.some.injEq]
    congr 4 <;> field_simp <;> ring
  · simp only [air_flow_step, hpos, hbd', hc, hty, hvx, hvy, hu hiron, getI_natCast,
      setI_natCast, setAt, hcx, hcy, fadd, fsub, fdiv, vsub, Vec2.toF, hKq, hiron,
      Option.bind_eq_bind, Option.some_bind, Option.pure_def, if_true, if_false, ne_eq,
      not_false_eq_true, Option.some.injEq]
    congr 4 <;> field_simp <;> ring

/-- Damping by `1 - 1/K²` for `K > 1`: a non-zero velocity stays non-zero and gets strictly
shorter. -/
theorem damping_shrinks (K : Int) (ax ay : ℚ) (hK : 1 < K) (hv : (ax, ay) ≠ (0, 0)) :
    (ax * (1 - 1 / (K : ℚ) ^ 2), ay * (1 - 1 / (K : ℚ) ^ 2)) ≠ (0, 0) ∧
    (ax * (1 - 1 / (K : ℚ) ^ 2)) ^ 2 + (ay * (1 - 1 / (K : ℚ) ^ 2)) ^ 2 < ax ^ 2 + ay ^ 2 := by
  have hKq : (1 : ℚ) < K := by exact_mod_cast hK
  have hK2 : (1 : ℚ) < (K : ℚ) ^ 2 := by nlinarith
  have hf1 : 1 / (K : ℚ) ^ 2 < 1 := by
    rw [div_lt_one (by linarith)]; exact hK2
  have hf0 : 0 < 1 / (K : ℚ) ^ 2 := by positivity
  have hfpos : 0 < 1 - 1 / (K : ℚ) ^ 2 := by linarith
  have hflt : 1 - 1 / (K : ℚ) ^ 2 < 1 := by linarith
  generalize 1 - 1 / (K : ℚ) ^ 2 = f at hfpos hflt ⊢
  have hsum : 0 < ax ^ 2 + ay ^ 2 := by
    by_contra hneg
    have h1 : ax ^ 2 + ay ^ 2 = 0 := le_antisymm (not_lt.1 hneg) (by positivity)
    have hx : ax = 0 := by nlinarith [sq_nonneg ax, sq_nonneg ay]
    have hy : ay = 0 := by nlinarith [sq_nonneg ax, sq_nonneg ay]
    exact hv (by rw [hx, hy])
  constructor
  · intro h
    simp only [Prod.mk.injEq, mul_eq_zero, hfpos.ne', or_false] at h
    exact hv (by rw [h.1, h.2])
  · have : (ax * f) ^ 2 + (ay * f) ^ 2 = f ^ 2 * (ax ^ 2 + ay ^ 2) := by ring
    rw [this]
    have hf2 : f ^ 2 < 1 := by nlinarith
    nlinarith

end GameModel

namespace GameModel

/-- C15: the contribution of particle `i` in `compute_air_flow`, with `K =
K_AIRFLOW_DOWNSAMPLE ≠ 0`.  A particle with `bound_dist ≤ 2` leaves the field untouched.
Otherwise, for a finite velocity `(ax, ay)` of its air cell `c`: an Iron particle changes it to
`v * (1 - 1/K²) = v - v/K²` and a particle of another type with finite velocity `u` changes it to
`v + (u - v)/K²`, on both axes.  For `K > 1` the Iron rule keeps a non-zero cell velocity
non-zero and makes it strictly shorter. -/
theorem air_coupling_rule (E : Env) (m : GameModel) (i c : Nat) (pos u : Vec2)
    (ty : ParticleType) (ax ay : ℚ)
    (hK : E.K_AIRFLOW_DOWNSAMPLE ≠ 0)
    (hpos : m.state_cur.p_pos[i]? = some pos)
    (hc : 2 < m.bound_dist (f2i pos) → m.idx_air E (f2i pos) = (c : Int))
    (hty : 2 < m.bound_dist (f2i pos) → m.state_cur.p_type[i]? = some ty)
    (hu : 2 < m.bound_dist (f2i pos) → ty ≠ ParticleType.Iron →
      m.state_cur.p_vel[i]? = some u.toF)
    (hvx : 2 < m.bound_dist (f2i pos) → m.airflow_solver.vx[c]? = some (some ax))
    (hvy : 2 < m.bound_dist (f2i pos) → m.airflow_solver.vy[c]? = some (some ay)) :
    air_flow_step E i m = some
      (if m.bound_dist (f2i pos) ≤ 2 then m
       else { m with
        airflow_solver := { m.airflow_solver with
          vx := m.airflow_solver.vx.set c (some (if ty = ParticleType.Iron
            then ax * (1 - 1 / (E.K_AIRFLOW_DOWNSAMPLE : ℚ) ^ 2)
            else ax + (u.1 - ax) / (E.K_AIRFLOW_DOWNSAMPLE : ℚ) ^ 2))
          vy := m.airflow_solver.vy.set c (some (if ty = ParticleType.Iron
            then ay * (1 - 1 / (E.K_AIRFLOW_DOWNSAMPLE : ℚ) ^ 2)
            else ay + (u.2 - ay) / (E.K_AIRFLOW_DOWNSAMPLE : ℚ) ^ 2)) } }) ∧
    ax * (1 - 1 / (E.K_AIRFLOW_DOWNSAMPLE : ℚ) ^ 2)
      = ax - ax / (E.K_AIRFLOW_DOWNSAMPLE : ℚ) ^ 2 ∧
    ay * (1 - 1 / (E.K_AIRFLOW_DOWNSAMPLE : ℚ) ^ 2)
      = ay - ay / (E.K_AIRFLOW_DOWNSAMPLE : ℚ) ^ 2 ∧
    (1 < E.K_AIRFLOW_DOWNSAMPLE → (ax, ay) ≠ (0, 0) →
      (ax * (1 - 1 / (E.K_AIRFLOW_DOWNSAMPLE : ℚ) ^ 2),
        ay * (1 - 1 / (E.K_AIRFLOW_DOWNSAMPLE : ℚ) ^ 2)) ≠ (0, 0) ∧
      (ax * (1 - 1 / (E.K_AIRFLOW_DOWNSAMPLE : ℚ) ^ 2)) ^ 2
        + (ay * (1 - 1 / (E.K_AIRFLOW_DOWNSAMPLE : ℚ) ^ 2)) ^ 2 < ax ^ 2 + ay ^ 2) := by
  refine ⟨?_, by ring, by ring, damping_shrinks _ ax ay⟩
  by_cases hbd : m.bound_dist (f2i pos) ≤ 2
  · rw [if_pos hbd]
    exact air_flow_step_near_edge E m i pos hpos hbd
  · rw [if_neg hbd]
    have hbd' : 2 < m.bound_dist (f2i pos) := by omega
    exact air_flow_step_far E m i c pos u ty ax ay hK hpos hbd' (hc hbd') (hty hbd')
      (hu hbd') (hvx hbd') (hvy hbd')

/-- The Iron particle of `exAir` with `K = 2`: the velocity `(4, -8)` of its air cell `5`
becomes `(4 * (1 - 1/4), -8 * (1 - 1/4))`, which is not zero and shorter. -/
theorem air_coupling_rule_witness :
    air_flow_step airEnv 0 (exAir ParticleType.Iron) = some
      (if (exAir ParticleType.Iron).bound_dist (f2i (7 / 2, 7 / 2)) ≤ 2
       then exAir ParticleType.Iron
       else { exAir ParticleType.Iron with
        airflow_solver := { (exAir ParticleType.Iron).airflow_solver with
          vx := (exAir ParticleType.Iron).airflow_solver.vx.set 5
            (some (if ParticleType.Iron = ParticleType.Iron
              then 4 * (1 - 1 / (airEnv.K_AIRFLOW_DOWNSAMPLE : ℚ) ^ 2)
              else 4 + (((1, 2) : Vec2).1 - 4) / (airEnv.K_AIRFLOW_DOWNSAMPLE : ℚ) ^ 2))
          vy := (exAir ParticleType.Iron).airflow_solver.vy.set 5
            (some (if ParticleType.Iron = ParticleType.Iron
              then (-8) * (1 - 1 / (airEnv.K_AIRFLOW_DOWNSAMPLE : ℚ) ^ 2)
              else (-8) + (((1, 2) : Vec2).2 - (-8))
                / (airEnv.K_AIRFLOW_DOWNSAMPLE : ℚ) ^ 2)) } }) ∧
    ((4 : ℚ) * (1 - 1 / (airEnv.K_AIRFLOW_DOWNSAMPLE : ℚ) ^ 2),
        (-8 : ℚ) * (1 - 1 / (airEnv.K_AIRFLOW_DOWNSAMPLE : ℚ) ^ 2)) ≠ (0, 0) ∧
      ((4 : ℚ) * (1 - 1 / (airEnv.K_AIRFLOW_DOWNSAMPLE : ℚ) ^ 2)) ^ 2
        + ((-8 : ℚ) * (1 - 1 / (airEnv.K_AIRFLOW_DOWNSAMPLE : ℚ) ^ 2)) ^ 2
        < (4 : ℚ) ^ 2 + (-8) ^ 2 :=
  have h := air_coupling_rule airEnv (exAir ParticleType.Iron) 0 5 (7 / 2, 7 / 2) (1, 2)
    ParticleType.Iron 4 (-8) (by decide) rfl (fun _ => by decide!) (fun _ => rfl)
    (fun _ hne => absurd rfl hne) (fun _ => rfl) (fun _ => rfl)
  ⟨h.1, h.2.2.2 (by decide) (by decide!)⟩

end GameModel

/-! ## Compaction preserves the particles -/

theorem particle_tuples_getElem? (ts : List ParticleType) (ps : List Vec2) (vs : List FVec2)
    (hs : List Flt) (i : Nat) :
    (particle_tuples ts ps vs hs)[i]?
      = Option.bind ts[i]? (fun x => Option.bind ps[i]? (fun y => Option.bind vs[i]? (fun z =>
          Option.map (fun w => (x, y, z, w)) hs[i]?))) := by
  simp only [particle_tuples, List.zip, List.getElem?_zipWith]
  cases ts[i]? <;> cases ps[i]? <;> cases vs[i]? <;> cases hs[i]? <;> rfl

theorem particle_tuples_length (ts : List ParticleType) (ps : List Vec2) (vs : List FVec2)
    (hs : List Flt) (n : Nat) (ha : ts.length = n) (hb : ps.length = n) (hc : vs.length = n)
    (hd : hs.length = n) : (particle_tuples ts ps vs hs).length = n := by
  simp [particle_tuples, ha, hb, hc, hd]

theorem particle_tuples_fst (ts : List ParticleType) (ps : List Vec2) (vs : List FVec2)
    (hs : List Flt) (n i : Nat) (ha : ts.length = n) (hb : ps.length = n) (hc : vs.length = n)
    (hd : hs.length = n) (hi : i < n) (t : Particle) :
    ((particle_tuples ts ps vs hs).getD i t).1 = ts.getD i ParticleType.None := by
  have h := particle_tuples_getElem? ts ps vs hs i
  rw [List.getElem?_eq_getElem (by omega : i < ts.length),
    List.getElem?_eq_getElem (by omega : i < ps.length),
    List.getElem?_eq_getElem (by omega : i < vs.length),
    List.getElem?_eq_getElem (by omega : i < hs.length)] at h
  simp only [Option.some_bind, Option.map_some'] at h
  rw [List.getD_eq_getElem?_getD, List.getD_eq_getElem?_getD, h,
    List.getElem?_eq_getElem (by omega : i < ts.length)]
  rfl

theorem map_getD_range {α : Type} (l : List α) (d : α) :
    (List.range l.length).map (fun i => l.getD i d) = l := by
  apply List.ext_getElem?
  intro i
  by_cases hi : i < l.length
  · simp [List.getElem?_map, List.getElem?_range hi, List.getElem?_eq_getElem hi]
  · have h1 : l[i]? = none := List.getElem?_eq_none (by omega)
    have h2 : (List.range l.length)[i]? = none := List.getElem?_eq_none (by simp; omega)
    simp [List.getElem?_map, h1, h2]

namespace GameModel

/-- The surviving particles of the next generation, as tuples, are the tuples at the indices
`survivors`. -/
theorem survivors_tuples (m : GameModel) (hnwf : m.NextWF) (d : Particle) :
    m.survivors.map (fun o => m.state_next.tuples.getD o d)
      = m.state_next.tuples.filter (fun t => decide (t.1 ≠ ParticleType.None)) := by
  obtain ⟨h1, h2, h3, h4⟩ := hnwf
  have hlen : m.state_next.tuples.length = m.state_next.particles :=
    particle_tuples_length _ _ _ _ _ h1 h2 h3 h4
  conv_rhs => rw [← map_getD_range m.state_next.tuples d]
  rw [List.filter_map, hlen, survivors]
  congr 1
  apply List.filter_congr
  intro o ho
  have ho' : o < m.state_next.particles := List.mem_range.1 ho
  simp only [Function.comp, is_survivor, StateNext.tuples,
    particle_tuples_fst _ _ _ _ _ o h1 h2 h3 h4 ho' d]

/-- C11: when the next generation is well formed and its surviving particles are on the canvas,
`complete` succeeds and, in the model it leaves, the tuple `(type, position, velocity, heat)`
of every current particle `ip < state_cur.particles` is the tuple of next-generation particle
`reorder_buf.sort[ip]`; so the list of current tuples is a permutation of the list of
next-generation tuples whose type is not `None`. -/
theorem compaction_preserves_particles (E : Env) (m : GameModel) (hsort : StdSort E.sort)
    (hnwf : m.NextWF) (hcwf : m.CanvasWF E) (hin : m.SurvivorsInBound) :
    ∃ m', m.complete E = some m' ∧
      m'.state_cur.particles = m'.reorder_buf.sort.length ∧
      m'.state_cur.tuples.length = m'.state_cur.particles ∧
      (∀ ip : Nat, ip < m'.state_cur.particles →
        ∃ (o : Nat) (t : Particle), m'.reorder_buf.sort[ip]? = some o ∧ o < m.state_next.particles ∧
          m'.state_cur.tuples[ip]? = some t ∧ m.state_next.tuples[o]? = some t) ∧
      m'.state_cur.tuples.Perm
        (m.state_next.tuples.filter (fun t => decide (t.1 ≠ ParticleType.None))) := by
  obtain ⟨rb, m', -, hperm, -, hcomp, hinv⟩ := complete_spec E m hsort hnwf hcwf hin
  obtain ⟨hframe, hpart, hlpos, hltype, hlvel, hlheat, -, -, hcopy, -⟩ := hinv
  have hrb : m'.reorder_buf = rb := by rw [hframe]
  have hlt : ∀ o ∈ rb.sort, o < m.state_next.particles := fun o ho =>
    ((mem_survivors m o).1 (hperm.mem_iff.1 ho)).1
  have hlen : m'.state_cur.tuples.length = rb.sort.length :=
    particle_tuples_length _ _ _ _ _ hltype hlpos hlvel hlheat
  have hnlen : m.state_next.tuples.length = m.state_next.particles :=
    particle_tuples_length _ _ _ _ _ hnwf.1 hnwf.2.1 hnwf.2.2.1 hnwf.2.2.2
  have hidx : ∀ ip o : Nat, rb.sort[ip]? = some o →
      m'.state_cur.tuples[ip]? = m.state_next.tuples[o]? := by
    intro ip o ho
    obtain ⟨e1, e2, e3, e4⟩ := hcopy ip o (lt_length_of_getElem?_eq_some ho) ho
    simp only [StateCur.tuples, StateNext.tuples, particle_tuples_getElem?, e1, e2, e3, e4]
  refine ⟨m', hcomp, by rw [hrb, hpart], by rw [hlen, hpart], ?_, ?_⟩
  · intro ip hip
    rw [hpart] at hip
    have ho : rb.sort[ip]? = some rb.sort[ip] := List.getElem?_eq_getElem hip
    have holt := hlt _ (List.getElem_mem hip)
    have hnt := List.getElem?_eq_getElem
      (by omega : rb.sort[ip] < m.state_next.tuples.length)
    exact ⟨rb.sort[ip], _, by rw [hrb, ho], holt, (hidx ip _ ho).trans hnt, hnt⟩
  · have hd : Particle := (ParticleType.None, (0, 0), (some 0, some 0), some 0)
    have hmap : m'.state_cur.tuples
        = rb.sort.map (fun o => m.state_next.tuples.getD o hd) := by
      apply List.ext_getElem?
      intro j
      rw [List.getElem?_map]
      by_cases hj : j < rb.sort.length
      · have ho : rb.sort[j]? = some rb.sort[j] := List.getElem?_eq_getElem hj
        have holt := hlt _ (List.getElem_mem hj)
        rw [hidx j _ ho, ho, Option.map_some', List.getD_eq_getElem?_getD,
          List.getElem?_eq_getElem (by omega : rb.sort[j] < m.state_next.tuples.length)]
        rfl
      · rw [List.getElem?_eq_none (by omega), List.getElem?_eq_none (by omega)]
        rfl
    rw [hmap, ← survivors_tuples m hnwf hd]
    exact hperm.map _

end GameModel

theorem exMixed_canvasWF : exMixed.CanvasWF exEnv := by
  unfold GameModel.CanvasWF; decide

theorem exMixed_survivorsInBound : exMixed.SurvivorsInBound := by
  unfold GameModel.SurvivorsInBound; decide!

/-- Compacting `exMixed`: the water and the sand particle are kept with their tuples, the
particle of type `None` is dropped. -/
theorem compaction_preserves_particles_witness :
    ∃ m', exMixed.complete exEnv = some m' ∧
      m'.state_cur.particles = m'.reorder_buf.sort.length ∧
      m'.state_cur.tuples.length = m'.state_cur.particles ∧
      (∀ ip : Nat, ip < m'.state_cur.particles →
        ∃ (o : Nat) (t : Particle), m'.reorder_buf.sort[ip]? = some o ∧
          o < exMixed.state_next.particles ∧
          m'.state_cur.tuples[ip]? = some t ∧ exMixed.state_next.tuples[o]? = some t) ∧
      m'.state_cur.tuples.Perm
        (exMixed.state_next.tuples.filter (fun t => decide (t.1 ≠ ParticleType.None))) :=
  GameModel.compaction_preserves_particles exEnv exMixed stdSort_stableSort
    ⟨rfl, rfl, rfl, rfl⟩ exMixed_canvasWF exMixed_survivorsInBound

theorem exMixed_complete :
    (exMixed.complete exEnv).map (fun m => m.state_cur) = some
      { particles := 2
        map_index := [{ from_ := 0, to_ := 0 }, { from_ := 1, to_ := 1 }]
        map_block_liquid := [{ idx_lp := [] }, { idx_lp := [1] }]
        p_type := [ParticleType.Sand, ParticleType.Water]
        p_heat := [some 5, some 3]
        p_pos := [(1 / 4, 1 / 2), (3 / 2, 1 / 2)]
        p_vel := [(some 0, some 2), (some 1, some 0)] } := by decide!

/-! ## The liquid block index after `complete` -/

theorem getI_eq_some {α : Type} (l : List α) (i : Int) (a : α) (h : getI l i = some a) :
    0 ≤ i ∧ l[i.toNat]? = some a := by
  unfold getI at h
  split_ifs at h with hi
  exact ⟨by omega, h⟩

theorem setI_eq_some {α : Type} (l l' : List α) (i : Int) (a : α) (h : setI l i a = some l') :
    0 ≤ i ∧ i.toNat < l.length ∧ l' = l.set i.toNat a := by
  unfold setI at h
  split_ifs at h with hi
  obtain ⟨h1, h2⟩ := setAt_eq_some h
  exact ⟨by omega, h1, h2⟩

theorem filter_range_succ (p : Nat → Bool) (k : Nat) :
    (List.range (k + 1)).filter p
      = (List.range k).filter p ++ (if p k = true then [k] else []) := by
  rw [List.range_succ, List.filter_append]
  cases hp : p k <;> simp [List.filter, hp]

namespace GameModel

/-- An iteration of the copy loop keeps the liquid lists in step with the particles handled. -/
theorem complete_liquid_step_inv (E : Env) (mk : GameModel) (k : Nat) (pos : Vec2)
    (ty : ParticleType) (water : Nat → Nat → Bool) (mb' : List BlockLiquidList)
    (hinv : LiquidInv water k mk.state_cur.map_block_liquid)
    (hw : ∀ b : Nat, water k b
      = decide (ty = ParticleType.Water ∧ mk.idx_liquid E (f2i pos) = (b : Int)))
    (h : mk.complete_liquid_step E k pos ty = some mb') :
    LiquidInv water (k + 1) mb' := by
  unfold complete_liquid_step at h
  intro c l hl
  rw [filter_range_succ, List.map_append]
  split_ifs at h with hty
  · simp only [Option.bind_eq_bind] at h
    obtain ⟨cl, hget, hset⟩ := Option.bind_eq_some.1 h
    obtain ⟨h0, hcl⟩ := getI_eq_some _ _ _ hget
    obtain ⟨-, hlt, rfl⟩ := setI_eq_some _ _ _ _ hset
    by_cases hc : c = (mk.idx_liquid E (f2i pos)).toNat
    · subst hc
      rw [List.getElem?_set_self hlt] at hl
      simp only [Option.some.injEq] at hl
      subst hl
      have hwk : water k (mk.idx_liquid E (f2i pos)).toNat = true := by
        rw [hw]; simp only [decide_eq_true_eq]; exact ⟨hty, by omega⟩
      simp only [hwk, if_true, List.map_cons, List.map_nil]
      rw [hinv _ cl hcl]
    · rw [List.getElem?_set_ne (fun h => hc h.symm)] at hl
      have hwk : water k c = false := by
        rw [hw]; simp only [decide_eq_false_iff_not, not_and]
        intro _ hb; exact hc (by omega)
      simp only [hwk, Bool.false_eq_true, if_false, List.map_nil, List.append_nil]
      exact hinv c l hl
  · simp only [Option.pure_def, Option.some.injEq] at h
    subst h
    have hwk : water k c = false := by
      rw [hw]; simp only [decide_eq_false_iff_not, not_and]
      intro h1; exact absurd h1 hty
    simp only [hwk, Bool.false_eq_true, if_false, List.map_nil, List.append_nil]
    exact hinv c l hl

/-- What an iteration of the copy loop reads and what it leaves in `map_block_liquid`. -/
theorem complete_copy_step_liquid (E : Env) (k : Nat) (mk mk' : GameModel)
    (h : complete_copy_step E k mk = some mk') :
    ∃ o pos ty, mk.reorder_buf.sort[k]? = some o ∧ mk.state_next.p_pos[o]? = some pos ∧
      mk.state_next.p_type[o]? = some ty ∧
      mk.complete_liquid_step E k pos ty = some mk'.state_cur.map_block_liquid ∧
      mk' = { mk with state_cur := mk'.state_cur } := by
  simp only [complete_copy_step, Option.bind_eq_bind, Option.pure_def] at h
  obtain ⟨o, ho, h⟩ := Option.bind_eq_some.1 h
  obtain ⟨pos, hpos, h⟩ := Option.bind_eq_some.1 h
  obtain ⟨p_pos, -, h⟩ := Option.bind_eq_some.1 h
  obtain ⟨ty, hty, h⟩ := Option.bind_eq_some.1 h
  obtain ⟨p_type, -, h⟩ := Option.bind_eq_some.1 h
  obtain ⟨vel, -, h⟩ := Option.bind_eq_some.1 h
  obtain ⟨p_vel, -, h⟩ := Option.bind_eq_some.1 h
  obtain ⟨heat, -, h⟩ := Option.bind_eq_some.1 h
  obtain ⟨p_heat, -, h⟩ := Option.bind_eq_some.1 h
  obtain ⟨mi, -, h⟩ := Option.bind_eq_some.1 h
  obtain ⟨mb, hmb, h⟩ := Option.bind_eq_some.1 h
  simp only [Option.some.injEq] at h
  subst h
  exact ⟨o, pos, ty, ho, hpos, hty, hmb, rfl⟩

end GameModel

namespace GameModel

/-- The liquid lists during the copy loop of `complete`, in terms of the next generation. -/
theorem complete_liquid_loop (E : Env) (m m' : GameModel) (rb : ReorderBuffer)
    (h : forRange rb.sort.length (complete_copy_step E)
      { m with reorder_buf := rb, state_cur := m.state_cur.reset rb.sort.length } = some m') :
    LiquidInv (fun j b => m.next_water E (rb.sort.getD j 0) b) rb.sort.length
      m'.state_cur.map_block_liquid := by
  have key := forRange_preserves
    (fun k (s : GameModel) => s = { m with reorder_buf := rb, state_cur := s.state_cur } ∧
      LiquidInv (fun j b => m.next_water E (rb.sort.getD j 0) b) k s.state_cur.map_block_liquid)
    rb.sort.length (complete_copy_step E) _ m' ?_ ?_ h
  · exact key.2
  · refine ⟨rfl, ?_⟩
    intro b l hl
    simp only [StateCur.reset, List.getElem?_map] at hl
    cases hb : m.state_cur.map_block_liquid[b]? with
    | none => rw [hb] at hl; simp at hl
    | some x =>
      rw [hb] at hl
      simp only [Option.map_some', Option.some.injEq] at hl
      subst hl
      rfl
  · intro k a b hk ⟨hfr, hinv⟩ hstep
    obtain ⟨o, pos, ty, ho, hpos, hty, hliq, hfr'⟩ := complete_copy_step_liquid E k a b hstep
    have hrb : a.reorder_buf = rb := by rw [hfr]
    have hnext : a.state_next = m.state_next := by rw [hfr]
    have hwidth : a.width = m.width := by rw [hfr]
    rw [hrb] at ho
    rw [hnext] at hpos hty
    have hgo : rb.sort.getD k 0 = o := by
      rw [List.getD_eq_getElem?_getD, ho]; rfl
    have hgp : m.state_next.p_pos.getD o (0, 0) = pos := by
      rw [List.getD_eq_getElem?_getD, hpos]; rfl
    have hgt : m.state_next.p_type.getD o ParticleType.None = ty := by
      rw [List.getD_eq_getElem?_getD, hty]; rfl
    refine ⟨?_, complete_liquid_step_inv E a k pos ty _ _ hinv ?_ hliq⟩
    · rw [hfr', hfr]
    · intro c
      simp only [next_water, hgo, hgp, hgt, idx_liquid, hwidth]

end GameModel

namespace GameModel

/-- C18: when the next generation is well formed and its surviving particles are on the canvas,
`complete` succeeds and for every liquid block `b` the list `map_block_liquid[b].idx_lp` it
leaves is the ascending list of the current particles `i` that are `Water` with
`idx_liquid(f2i(p_pos[i])) = b`: strictly ascending (so each index occurs once), and an index
is in the list exactly when it is such a particle; nothing else, whatever the lists held
before. -/
theorem liquid_block_index (E : Env) (m : GameModel) (hsort : StdSort E.sort)
    (hnwf : m.NextWF) (hcwf : m.CanvasWF E) (hin : m.SurvivorsInBound) :
    ∃ m', m.complete E = some m' ∧
      m'.state_cur.map_block_liquid.length = m.state_cur.map_block_liquid.length ∧
      ∀ (b : Nat) (l : BlockLiquidList), m'.state_cur.map_block_liquid[b]? = some l →
        l.idx_lp = List.map (fun j : Nat => (j : Int))
          ((List.range m'.state_cur.particles).filter (fun i => m'.cur_water E i b)) ∧
        l.idx_lp.Pairwise (fun x y => x < y) ∧
        ∀ i : Int, i ∈ l.idx_lp ↔ ∃ j : Nat, i = (j : Int) ∧ j < m'.state_cur.particles ∧
          m'.state_cur.p_type.getD j ParticleType.None = ParticleType.Water ∧
          m'.idx_liquid E (f2i (m'.state_cur.p_pos.getD j (0, 0))) = (b : Int) := by
  obtain ⟨rb, m', hreo, hperm, -, hcomp, hinv⟩ := complete_spec E m hsort hnwf hcwf hin
  have hloop := hcomp
  simp only [complete, hreo, Option.bind_eq_bind, Option.some_bind] at hloop
  have hliq := complete_liquid_loop E m m' rb hloop
  obtain ⟨hframe, hpart, hlpos, hltype, -, -, -, hlmb, hcols, -⟩ := hinv
  have hwidth : m'.width = m.width := by rw [hframe]
  refine ⟨m', hcomp, hlmb, ?_⟩
  intro b l hl
  have heq : l.idx_lp = List.map (fun j : Nat => (j : Int))
      ((List.range m'.state_cur.particles).filter (fun i => m'.cur_water E i b)) := by
    rw [hliq b l hl, hpart]
    congr 1
    apply List.filter_congr
    intro j hj
    have hj' : j < rb.sort.length := List.mem_range.1 hj
    obtain ⟨e1, e2, -, -⟩ := hcols j _ hj' (List.getElem?_eq_getElem hj')
    simp only [next_water, cur_water, List.getD_eq_getElem?_getD, e1, e2,
      List.getElem?_eq_getElem hj', Option.getD_some, idx_liquid, hwidth]
  refine ⟨heq, ?_, ?_⟩
  · rw [heq]
    exact ((List.pairwise_lt_range _).filter _).map _ (fun a b hab => by exact_mod_cast hab)
  · intro i
    rw [heq]
    simp only [List.mem_map, List.mem_filter, List.mem_range, cur_water, decide_eq_true_eq]
    constructor
    · rintro ⟨j, ⟨hj, h1, h2⟩, rfl⟩
      exact ⟨j, rfl, hj, h1, h2⟩
    · rintro ⟨j, rfl, hj, h1, h2⟩
      exact ⟨j, ⟨hj, h1, h2⟩, rfl⟩

/-- The liquid lists after compacting `exMixed`, whose block `0` held the stale entries `0` and
`1` before. -/
theorem liquid_block_index_witness :
    ∃ m', exMixed.complete exEnv = some m' ∧
      m'.state_cur.map_block_liquid.length = exMixed.state_cur.map_block_liquid.length ∧
      ∀ (b : Nat) (l : BlockLiquidList), m'.state_cur.map_block_liquid[b]? = some l →
        l.idx_lp = List.map (fun j : Nat => (j : Int))
          ((List.range m'.state_cur.particles).filter (fun i => m'.cur_water exEnv i b)) ∧
        l.idx_lp.Pairwise (fun x y => x < y) ∧
        ∀ i : Int, i ∈ l.idx_lp ↔ ∃ j : Nat, i = (j : Int) ∧ j < m'.state_cur.particles ∧
          m'.state_cur.p_type.getD j ParticleType.None = ParticleType.Water ∧
          m'.idx_liquid exEnv (f2i (m'.state_cur.p_pos.getD j (0, 0))) = (b : Int) :=
  liquid_block_index exEnv exMixed stdSort_stableSort ⟨rfl, rfl, rfl, rfl⟩ exMixed_canvasWF
    exMixed_survivorsInBound

end GameModel

/-! ## The drag clamp -/

namespace GameModel

end GameModel

namespace GameModel

end GameModel

/-! ## Spawning next to the lower edges of a cell -/

/-- C14: on a freshly constructed 2 x 2 canvas, with a random source whose first two draws are
`-1/2` and `1/2`, a brush on cell `(0, 0)` makes `handle_new_particles` spawn a `Sand` particle
at `(-1/10, 1/10)`, whose floored cell `(-1, 0)` is outside the canvas and has the cell index
`-1`; the call of `update` that handles the brush then indexes `map_index` out of range in
`complete` and has no result.  With the brush on cell `(0, 1)` the particle is spawned at
`(-1/10, 11/10)`, in the cell `(-1, 1)` of index `1`: `update` succeeds and leaves a current
particle that is out of bounds, listed in the range of cell `(1, 0)`. -/
theorem spawn_leaves_canvas :
    ((GameModel.create jitterEnv 2 2 (some 0) (some 0)).bind (fun m =>
        (m.set_new_particles (cellBrush 0 0)).handle_new_particles jitterEnv)).map
      (fun m => (m.state_next.p_type, m.state_next.p_pos,
        m.in_bound (f2i (m.state_next.p_pos.getD 0 (0, 0))), m.next_cell 0))
      = some ([ParticleType.Sand], [(-1 / 10, 1 / 10)], false, -1) ∧
    (GameModel.create jitterEnv 2 2 (some 0) (some 0)).bind (fun m =>
        (m.set_new_particles (cellBrush 0 0)).update jitterEnv) = none ∧
    ((GameModel.create jitterEnv 2 2 (some 0) (some 0)).bind (fun m =>
        (m.set_new_particles (cellBrush 0 1)).update jitterEnv)).map
      (fun m => (m.state_cur.p_type, m.state_cur.p_pos,
        m.in_bound (f2i (m.state_cur.p_pos.getD 0 (0, 0))), m.state_cur.map_index))
      = some ([ParticleType.Sand], [(-1 / 10, 11 / 10)], false,
          [{ }, { from_ := 0, to_ := 0 }, { }, { }]) := by
  refine ⟨?_, ?_, ?_⟩ <;> decide!

/-- C19: on a freshly constructed 3 x 3 canvas, with a random source whose first two draws are
`-1/2` and `1/2`, the particle that `handle_new_particles` spawns for cell `(1, 1)` is placed at
`(1, 1) + (-1/10, 1/10) = (9/10, 11/10)`, whose floored cell is `(0, 1)`; after the `update` that
handles the brush, the range of cell `(1, 1)` (index `4`) is still nil and the particle is listed
in the range of cell `(0, 1)` (index `3`). -/
theorem spawn_misses_cell :
    ((GameModel.create jitterEnv 3 3 (some 0) (some 0)).bind (fun m =>
        (m.set_new_particles (cellBrush 1 1)).handle_new_particles jitterEnv)).map
      (fun m => (m.state_next.p_type, m.state_next.p_pos,
        f2i (m.state_next.p_pos.getD 0 (0, 0))))
      = some ([ParticleType.Sand], [(9 / 10, 11 / 10)], (0, 1)) ∧
    ((GameModel.create jitterEnv 3 3 (some 0) (some 0)).bind (fun m =>
        (m.set_new_particles (cellBrush 1 1)).update jitterEnv)).map
      (fun m => (m.state_cur.p_type, m.state_cur.p_pos, m.state_cur.map_index))
      = some ([ParticleType.Sand], [(9 / 10, 11 / 10)],
          [{ }, { }, { }, { from_ := 0, to_ := 0 }, { }, { }, { }, { }, { }]) := by
  refine ⟨?_, ?_⟩ <;> decide!

/-! ## The restitution law -/

namespace GameModel

/-- The formulas of the spec reverse the relative velocity and scale it by `e`, on one axis. -/
theorem restitution_relative (e m1 m2 v1 v2 : ℚ) (h : m1 + m2 ≠ 0) :
    restitution_mover e m1 m2 v1 v2 - restitution_target e m1 m2 v1 v2 = -e * (v1 - v2) := by
  simp only [restitution_mover, restitution_target]
  field_simp
  ring

/-- C25: when the mover `ip` (mass `m1`, next-generation velocity `v1`) collides with the target
`t` (mass `m2`, next-generation velocity `v2`) and `m1 + m2 ≠ 0`, then for every restitution
value `e = K_RESTITUTION` the iteration of `compute_position` leaves a velocity column that holds
`w1` at `ip` and `w2` at `t` with `w1 - w2 = -e * (v1 - v2)` on each axis: the relative velocity
is reversed and scaled by `e`, so it keeps its size for `e = 1` and vanishes for `e = 0`. -/
theorem restitution_law (E : Env) (m m' : GameModel) (ip t : Nat)
    (cur_type target_type : ParticleType) (v : FVec2) (pos_old pos_new v1 v2 : Vec2)
    (det : Detection)
    (hsum : E.particle_mass cur_type + E.particle_mass target_type ≠ 0)
    (hcur : m.state_cur.p_type[ip]? = some cur_type)
    (hmove : cur_type ≠ ParticleType.Iron)
    (hv : m.state_cur.p_vel[ip]? = some v)
    (hold : m.state_cur.p_pos[ip]? = some pos_old)
    (hnew : (vadd pos_old.toF (vscale v (some E.K_DT))).toVec2 = some pos_new)
    (hdet : detect_collision E m pos_old pos_new false = some det)
    (hcol : det.collided = true)
    (ht : det.result.target_index = (t : Int))
    (htarget : m.state_cur.p_type[t]? = some target_type)
    (hv1 : m.state_next.p_vel[ip]? = some v1.toF)
    (hv2 : m.state_next.p_vel[t]? = some v2.toF)
    (hstep : compute_position_step E ip m = some m') :
    ∃ w1 w2 : Vec2,
      m'.state_next.p_vel = (m.state_next.p_vel.set ip w1.toF).set t w2.toF ∧
      w1.1 - w2.1 = -E.K_RESTITUTION * (v1.1 - v2.1) ∧
      w1.2 - w2.2 = -E.K_RESTITUTION * (v1.2 - v2.2) ∧
      (E.K_RESTITUTION = 1 → w1.1 - w2.1 = -(v1.1 - v2.1) ∧ w1.2 - w2.2 = -(v1.2 - v2.2)) ∧
      (E.K_RESTITUTION = 0 → w1 = w2) := by
  have hresp := collision_response_eq E { m with rng := det.rng } ip t cur_type
    target_type v1 v2 hsum htarget hv1 hv2
  rw [← ht] at hresp
  have hx := restitution_relative E.K_RESTITUTION _ _ v1.1 v2.1 hsum
  have hy := restitution_relative E.K_RESTITUTION _ _ v1.2 v2.2 hsum
  refine ⟨(restitution_mover E.K_RESTITUTION (E.particle_mass cur_type)
        (E.particle_mass target_type) v1.1 v2.1,
      restitution_mover E.K_RESTITUTION (E.particle_mass cur_type)
        (E.particle_mass target_type) v1.2 v2.2),
    (restitution_target E.K_RESTITUTION (E.particle_mass cur_type)
        (E.particle_mass target_type) v1.1 v2.1,
      restitution_target E.K_RESTITUTION (E.particle_mass cur_type)
        (E.particle_mass target_type) v1.2 v2.2), ?_, hx, hy, ?_, ?_⟩
  · simp only [compute_position_step, hcur, hv, hold, hnew, hdet, hcol, hmove, hresp,
      Option.bind_eq_bind, Option.some_bind, if_true, if_false, Option.pure_def] at hstep
    exact position_store_p_vel E _ m' ip _ hstep
  · intro h1
    exact ⟨hx.trans (by rw [h1]; ring), hy.trans (by rw [h1]; ring)⟩
  · intro h0
    exact Prod.ext (sub_eq_zero.1 (hx.trans (by rw [h0]; ring)))
      (sub_eq_zero.1 (hy.trans (by rw [h0]; ring)))

/-- The sand particle of `exImpact` (velocity `(1, 0)`) hits the water particle (velocity
`(-1, 0)`) with restitution `1/2`: the relative velocity `(2, 0)` becomes `(-1, 0)`. -/
theorem restitution_law_witness :
    ∃ w1 w2 : Vec2,
      ({ exImpact with
          rng := 3
          state_next := { exImpact.state_next with
            p_vel := [(some (-5 / 4), some 0), (some (-1 / 4), some 0)] } } :
          GameModel).state_next.p_vel
        = (exImpact.state_next.p_vel.set 0 w1.toF).set 1 w2.toF ∧
      w1.1 - w2.1 = -heavyEnv.K_RESTITUTION * (((1, 0) : Vec2).1 - ((-1, 0) : Vec2).1) ∧
      w1.2 - w2.2 = -heavyEnv.K_RESTITUTION * (((1, 0) : Vec2).2 - ((-1, 0) : Vec2).2) ∧
      (heavyEnv.K_RESTITUTION = 1 →
        w1.1 - w2.1 = -(((1, 0) : Vec2).1 - ((-1, 0) : Vec2).1) ∧
        w1.2 - w2.2 = -(((1, 0) : Vec2).2 - ((-1, 0) : Vec2).2)) ∧
      (heavyEnv.K_RESTITUTION = 0 → w1 = w2) :=
  restitution_law heavyEnv exImpact _ 0 1 ParticleType.Sand
    ParticleType.Water (some 10, some 0) (1 / 2, 1 / 2) (3 / 2, 1 / 2) (1, 0) (-1, 0) _
    (by decide!) rfl (by decide) rfl rfl (by decide!) exImpact_detect rfl rfl
    rfl rfl rfl exImpact_step

end GameModel

/-! ## The scratch buffers of the liquid solver -/

/-- C26: on `exWater` (two water particles at distance `1 < H = 2` in neighbouring liquid
blocks) the seeding loop of `compute_vel_liquid` leaves `p_idx_mapping = [0, 1]` and the
sub-step starts from `exWaterSeeded`, where `reset_lp(0)` has given `lp_p` and `lp_rho` the
size `0`; the pair force of particle `0` with neighbour `1` then reads `lp_p[t_il]` with
`t_il = 1`, outside the vector, and `compute_vel_liquid`, and with it `update`, has no result.  With `lp_p` and `lp_rho`
of size `2` the same pair force is computed. -/
theorem liquid_scratch_out_of_range :
    (forRange 2 GameModel.liquid_seed_step
        ({ exWater with liquid_buf := { exWater.liquid_buf with
            p_idx_mapping := resize exWater.liquid_buf.p_idx_mapping 2 0
            p_im_pos := resize exWater.liquid_buf.p_im_pos 2 (some 0, some 0)
            p_im_vel := resize exWater.liquid_buf.p_im_vel 2 (some 0, some 0) } }, 0)).map
      (fun s => ({ s.1 with liquid_buf := { s.1.liquid_buf with lp_rho := [], lp_p := [] } },
        s.2)) = some (exWaterSeeded, 2) ∧
    getI exWaterSeeded.liquid_buf.p_idx_mapping 1 = some 1 ∧
    exWaterSeeded.liquid_buf.lp_p.length = 0 ∧
    exWaterSeeded.liquid_buf.lp_rho.length = 0 ∧
    GameModel.pair_force wideEnv exWaterSeeded 1 0 1 ((some 0, some 0), 0) = none ∧
    GameModel.compute_vel_liquid wideEnv exWater = none ∧
    GameModel.update wideEnv exWater = none ∧
    GameModel.pair_force wideEnv
        { exWaterSeeded with liquid_buf := { exWaterSeeded.liquid_buf with
            lp_rho := [some 1, some 1], lp_p := [some 0, some 0] } }
        1 0 1 ((some 0, some 0), 0) = some ((some (-1), some 0), 2) := by
  refine ⟨?_, ?_, ?_, ?_, ?_, ?_, ?_, ?_⟩ <;> decide!

/-! ## The collision march -/

theorem ray_zero (p delta : Vec2) : ray p delta 0 = p := by
  simp [ray]

theorem ray_succ (p delta : Vec2) (j : Nat) :
    ray p delta (j + 1) = ((ray p delta j).1 + delta.1, (ray p delta j).2 + delta.2) := by
  simp only [ray, Nat.cast_add, Nat.cast_one]
  refine Prod.ext ?_ ?_ <;> simp only <;> ring

theorem ray_add (p delta : Vec2) (i j : Nat) :
    ray (ray p delta i) delta j = ray p delta (i + j) := by
  simp only [ray, Nat.cast_add]
  refine Prod.ext ?_ ?_ <;> simp only <;> ring

theorem ray_shift (p delta : Vec2) (j : Nat) :
    ray (p.1 + delta.1, p.2 + delta.2) delta j = ray p delta (j + 1) := by
  simp only [ray, Nat.cast_add, Nat.cast_one]
  refine Prod.ext ?_ ?_ <;> simp only <;> ring

namespace GameModel

/-- The skip loop returns the first sample of the march that lies outside the cell of
`start`. -/
theorem skip_cell_spec (start delta : Vec2) (fuel : Nat) (cur c : Vec2)
    (h : skip_cell start delta fuel cur = some c) :
    ∃ k : Nat, k < fuel ∧ c = ray cur delta k ∧ f2i c ≠ f2i start ∧
      ∀ i : Nat, i < k → f2i (ray cur delta i) = f2i start := by
  induction fuel generalizing cur with
  | zero => simp [skip_cell] at h
  | succ n ih =>
    rw [skip_cell] at h
    split_ifs at h with hc
    · obtain ⟨k, hk, hck, hne, hall⟩ := ih _ h
      refine ⟨k + 1, by omega, ?_, hne, ?_⟩
      · rw [hck, ray_shift]
      · intro i hi
        cases i with
        | zero => rw [ray_zero]; exact hc
        | succ i =>
          rw [← ray_shift]
          exact hall i (by omega)
    · simp only [Option.some.injEq] at h
      subst h
      exact ⟨0, by omega, (ray_zero _ _).symm, hc, fun i hi => by omega⟩

end GameModel

namespace GameModel

/-- What the march loop returns: the end point when no sample stops it, the first sample outside
the canvas, or the point one step before the first sample in an occupied in-bound cell whose
index differs from the index of the cell one step before. -/
theorem detect_march_spec (E : Env) (m : GameModel) (end_ delta : Vec2) (n : Nat) (cur : Vec2)
    (det : Detection) (h : detect_march E m end_ delta n cur = some det) :
    det = detect_exit end_ (-1) m.rng ∨
    ∃ i : Nat, i < n ∧
      ((m.in_bound (f2i (ray cur delta i)) = false ∧
          det = detect_exit (ray cur delta i) (-1) m.rng) ∨
       (m.in_bound (f2i (ray cur delta i)) = true ∧
          ∃ lst : PixelParticleList,
            getI m.state_cur.map_index (m.idx (f2i (ray cur delta i))) = some lst ∧
            lst.nil = false ∧
            m.idx (f2i (ray cur delta i))
              ≠ m.idx (f2i ((ray cur delta i).1 - delta.1, (ray cur delta i).2 - delta.2)) ∧
            det = detect_exit ((ray cur delta i).1 - delta.1, (ray cur delta i).2 - delta.2)
              (E.random_sample m.rng lst.from_ lst.to_) (m.rng + 1))) := by
  induction n generalizing cur with
  | zero =>
    simp only [detect_march, Option.pure_def, Option.some.injEq] at h
    exact Or.inl h.symm
  | succ n ih =>
    rw [detect_march] at h
    simp only [Option.pure_def, Option.bind_eq_bind] at h
    by_cases hin : m.in_bound (f2i cur) = true
    · rw [if_pos hin] at h
      obtain ⟨lst, hlst, h⟩ := Option.bind_eq_some.1 h
      split_ifs at h with hhit
      · simp only [Option.some.injEq] at h
        simp only [Bool.and_eq_true, Bool.not_eq_true', decide_eq_true_eq] at hhit
        refine Or.inr ⟨0, by omega, Or.inr ?_⟩
        rw [ray_zero]
        exact ⟨hin, lst, hlst, hhit.1, hhit.2, h.symm⟩
      · rcases ih _ h with h0 | ⟨i, hi, hcase⟩
        · exact Or.inl h0
        · rw [ray_shift] at hcase
          exact Or.inr ⟨i + 1, by omega, hcase⟩
    · rw [if_neg hin] at h
      simp only [Option.some.injEq] at h
      refine Or.inr ⟨0, by omega, Or.inl ?_⟩
      rw [ray_zero]
      exact ⟨by simpa using hin, h.symm⟩

end GameModel

namespace GameModel

/-- What the branch `steps <= 1` returns: it tests the cell of `cur`, the first sample outside
the cell of `start`. -/
theorem detect_short_spec (E : Env) (m : GameModel) (start end_ cur : Vec2)
    (ignore_liquid : Bool) (det : Detection)
    (h : detect_short E m start end_ cur ignore_liquid = some det) :
    (m.in_bound (f2i cur) = false ∧ det = detect_exit cur (-1) m.rng) ∨
    (m.in_bound (f2i cur) = true ∧
      ∃ temp : PixelParticleList, getI m.state_cur.map_index (m.idx (f2i cur)) = some temp ∧
        ((temp.nil = true ∧ det = detect_exit end_ (-1) m.rng) ∨
         (temp.nil = false ∧
            ∃ ty : ParticleType,
              getI m.state_cur.p_type (E.random_sample m.rng temp.from_ temp.to_) = some ty ∧
              ((ty = ParticleType.Water ∧ ignore_liquid = true ∧
                  det = detect_exit end_ (-1) (m.rng + 1)) ∨
               (¬ (ty = ParticleType.Water ∧ ignore_liquid = true) ∧
                  m.idx (f2i start) = m.idx (f2i cur) ∧
                  det = detect_exit cur (E.random_sample m.rng temp.from_ temp.to_)
                    (m.rng + 1)) ∨
               (¬ (ty = ParticleType.Water ∧ ignore_liquid = true) ∧
                  m.idx (f2i start) ≠ m.idx (f2i cur) ∧
                  det = detect_exit start (E.random_sample m.rng temp.from_ temp.to_)
                    (m.rng + 1)))))) := by
  unfold detect_short at h
  simp only [Option.pure_def, Option.bind_eq_bind] at h
  cases hin : m.in_bound (f2i cur) with
  | false =>
    simp only [hin, Bool.not_false, if_true, Option.some.injEq] at h
    exact Or.inl ⟨rfl, h.symm⟩
  | true =>
    simp only [hin, Bool.not_true, Bool.false_eq_true, if_false] at h
    obtain ⟨temp, htemp, h⟩ := Option.bind_eq_some.1 h
    refine Or.inr ⟨rfl, temp, htemp, ?_⟩
    cases hnil : temp.nil with
    | true =>
      simp only [hnil, Bool.not_true, Bool.false_eq_true, if_false, Option.some.injEq] at h
      exact Or.inl ⟨rfl, h.symm⟩
    | false =>
      simp only [hnil, Bool.not_false, if_true] at h
      obtain ⟨ty, hty, h⟩ := Option.bind_eq_some.1 h
      refine Or.inr ⟨rfl, ty, hty, ?_⟩
      by_cases hw : ty = ParticleType.Water ∧ ignore_liquid = true
      · have hw' : (decide (ty = ParticleType.Water) && ignore_liquid) = true := by
          simp [hw.1, hw.2]
        rw [if_pos hw'] at h
        simp only [Option.some.injEq] at h
        exact Or.inl ⟨hw.1, hw.2, h.symm⟩
      · have hw' : ¬ (decide (ty = ParticleType.Water) && ignore_liquid) = true := by
          simpa using hw
        rw [if_neg hw'] at h
        split_ifs at h with hidx
        · simp only [Option.some.injEq] at h
          exact Or.inr (Or.inl ⟨hw, hidx, h.symm⟩)
        · simp only [Option.some.injEq] at h
          exact Or.inr (Or.inr ⟨hw, hidx, h.symm⟩)

/-- The step of the march: `normalize(end - start) * K_COLLISION_STEP_LENGTH`. -/
theorem march_delta (E : Env) (d : Vec2) (hL : length E d ≠ 0) :
    (vscale (normalize E d) (some E.K_COLLISION_STEP_LENGTH)).toVec2
      = some (d.1 / length E d * E.K_COLLISION_STEP_LENGTH,
          d.2 / length E d * E.K_COLLISION_STEP_LENGTH) := by
  simp [vscale, normalize, vdiv, Vec2.toF, fdiv, fmul, hL, FVec2.toVec2]

theorem length_swap (E : Env) (a b : Vec2) :
    length E (a.1 - b.1, a.2 - b.2) = length E (b.1 - a.1, b.2 - a.2) := by
  simp only [length]
  congr 1
  ring

/-- The paths through `detect_collision`: it returns at once for a segment of length zero;
otherwise it leaves the cell of `start` along the march and takes the branch `steps <= 1` or
the march loop. -/
theorem detect_collision_cases (E : Env) (m : GameModel) (start end_ : Vec2)
    (ignore_liquid : Bool) (det : Detection)
    (h : detect_collision E m start end_ ignore_liquid = some det) :
    (length E (end_.1 - start.1, end_.2 - start.2) = 0 ∧ det = detect_exit end_ (-1) m.rng) ∨
    (length E (end_.1 - start.1, end_.2 - start.2) ≠ 0 ∧ E.K_COLLISION_STEP_LENGTH ≠ 0 ∧
      ∃ cur : Vec2,
        skip_cell start (march_step E start end_) (skip_fuel (march_step E start end_)) start
          = some cur ∧
        ((march_steps E start end_ ≤ 1 ∧
            detect_short E m start end_ cur ignore_liquid = some det) ∨
         (1 < march_steps E start end_ ∧
            detect_march E m end_ (march_step E start end_)
              (march_steps E start end_ - 1).toNat cur = some det))) := by
  simp only [march_step, march_steps]
  unfold detect_collision at h
  simp only [length_swap E start end_, Option.pure_def, Option.bind_eq_bind] at h
  by_cases hL : length E (end_.1 - start.1, end_.2 - start.2) = 0
  · rw [if_pos hL] at h
    simp only [Option.some.injEq] at h
    exact Or.inl ⟨hL, h.symm⟩
  · rw [if_neg hL] at h
    obtain ⟨q, hq, h⟩ := Option.bind_eq_some.1 h
    have hK : E.K_COLLISION_STEP_LENGTH ≠ 0 := by
      intro h0
      simp [fdiv, h0] at hq
    simp only [fdiv, hK, if_false, Option.some.injEq] at hq
    subst hq
    rw [march_delta E _ hL] at h
    simp only [Option.some_bind] at h
    obtain ⟨cur, hcur, h⟩ := Option.bind_eq_some.1 h
    refine Or.inr ⟨hL, hK, cur, hcur, ?_⟩
    split_ifs at h with hs
    · exact Or.inl ⟨hs, h⟩
    · exact Or.inr ⟨by omega, h⟩

end GameModel

namespace GameModel

theorem ray_march_step (E : Env) (start end_ : Vec2) (j : Nat) :
    ray start (march_step E start end_) j
      = (start.1 + ((j : ℚ) * E.K_COLLISION_STEP_LENGTH
            / length E (end_.1 - start.1, end_.2 - start.2)) * (end_.1 - start.1),
         start.2 + ((j : ℚ) * E.K_COLLISION_STEP_LENGTH
            / length E (end_.1 - start.1, end_.2 - start.2)) * (end_.2 - start.2)) := by
  simp only [ray, march_step]
  refine Prod.ext ?_ ?_ <;> simp only <;> ring

theorem ray_pred (p delta : Vec2) (j : Nat) (hj : 0 < j) :
    ((ray p delta j).1 - delta.1, (ray p delta j).2 - delta.2) = ray p delta (j - 1) := by
  obtain ⟨i, rfl⟩ : ∃ i, j = i + 1 := ⟨j - 1, by omega⟩
  simp only [ray, Nat.add_sub_cancel, Nat.cast_add, Nat.cast_one]
  refine Prod.ext ?_ ?_ <;> simp only <;> ring

/-- The position that `detect_collision` returns is `end` or a sample `start + j * delta` of
the march. -/
theorem detect_collision_sample (E : Env) (m : GameModel) (start end_ : Vec2)
    (ignore_liquid : Bool) (det : Detection)
    (h : detect_collision E m start end_ ignore_liquid = some det) :
    det.result.pos = end_ ∨
    (length E (end_.1 - start.1, end_.2 - start.2) ≠ 0 ∧
      ∃ j : Nat, det.result.pos = ray start (march_step E start end_) j) := by
  rcases detect_collision_cases E m start end_ ignore_liquid det h with
    ⟨-, rfl⟩ | ⟨hL, -, cur, hcur, hbr⟩
  · exact Or.inl rfl
  · obtain ⟨k, -, hck, hne, -⟩ := skip_cell_spec _ _ _ _ _ hcur
    have hk : 0 < k := by
      rcases Nat.eq_zero_or_pos k with h0 | h0
      · rw [h0, ray_zero] at hck
        rw [hck] at hne
        exact absurd rfl hne
      · exact h0
    rcases hbr with ⟨-, hs⟩ | ⟨-, hm⟩
    · rcases detect_short_spec E m start end_ cur ignore_liquid det hs with
        ⟨-, rfl⟩ | ⟨-, temp, -, ⟨-, rfl⟩ | ⟨-, ty, -, ⟨-, -, rfl⟩ | ⟨-, -, rfl⟩ | ⟨-, -, rfl⟩⟩⟩
      · exact Or.inr ⟨hL, k, hck⟩
      · exact Or.inl rfl
      · exact Or.inl rfl
      · exact Or.inr ⟨hL, k, hck⟩
      · exact Or.inr ⟨hL, 0, (ray_zero _ _).symm⟩
    · rcases detect_march_spec E m end_ _ _ cur det hm with
        rfl | ⟨i, -, ⟨-, rfl⟩ | ⟨-, lst, -, -, -, rfl⟩⟩
      · exact Or.inl rfl
      · refine Or.inr ⟨hL, k + i, ?_⟩
        rw [hck, ray_add]
        rfl
      · refine Or.inr ⟨hL, k + i - 1, ?_⟩
        rw [hck, ray_add, ray_pred _ _ _ (by omega)]
        rfl

end GameModel

/-! ## The short segment -/

/-- C21: on `exNear` the segment from `start = (1/4, 1/2)` to `end = (1/2, 1/2)` has length
`1/4` and `steps = 0`; `end` lies in the cell `(0, 0)` of `start`.  The skip loop leaves the
cell of `start` at `cur = (5/4, 1/2)`, and the branch `steps <= 1` tests the cell `(1, 0)` of
`cur`, not the cell of `end`: `detect_collision` reports a collision with particle `1` and the
position `start`, and the iteration of `compute_position` for particle `0` exchanges the two
velocities. -/
theorem short_segment_tests_cur :
    GameModel.march_steps marchEnv (1 / 4, 1 / 2) (1 / 2, 1 / 2) = 0 ∧
    f2i ((1 / 2, 1 / 2) : Vec2) = f2i ((1 / 4, 1 / 2) : Vec2) ∧
    GameModel.skip_cell (1 / 4, 1 / 2)
      (GameModel.march_step marchEnv (1 / 4, 1 / 2) (1 / 2, 1 / 2))
      (GameModel.skip_fuel (GameModel.march_step marchEnv (1 / 4, 1 / 2) (1 / 2, 1 / 2)))
      (1 / 4, 1 / 2) = some (5 / 4, 1 / 2) ∧
    GameModel.detect_collision marchEnv exNear (1 / 4, 1 / 2) (1 / 2, 1 / 2) false
      = some { collided := true, result := { pos := (1 / 4, 1 / 2), target_index := 1 },
               rng := 1 } ∧
    (GameModel.compute_position_step marchEnv 0 exNear).map
        (fun m => (m.state_next.p_pos, m.state_next.p_vel))
      = some ([(1 / 4, 1 / 2), (3 / 2, 1 / 2)], [(some 0, some 0), (some (5 / 2), some 0)]) := by
  refine ⟨?_, ?_, ?_, ?_, ?_⟩ <;> decide!

/-- C22: the march does not stay on the segment.  On `exCorner` the march goes from
`start = (1/20, 1/20)` to `end = (13/20, 17/20)`, a point of the same cell on the canvas:
`steps = 2`, the step is `(3/10, 2/5)`, the skip loop leaves the cell at the third sample
`(19/20, 5/4)`, which is outside the canvas, and that sample is the position returned.  It lies
beyond `end`, not on the closed segment from `start` to `end`, and the iteration of
`compute_position` marks the particle `None` although its candidate position is in bounds. -/
theorem march_passes_end :
    GameModel.march_steps marchEnv (1 / 20, 1 / 20) (13 / 20, 17 / 20) = 2 ∧
    GameModel.march_step marchEnv (1 / 20, 1 / 20) (13 / 20, 17 / 20) = (3 / 10, 2 / 5) ∧
    GameModel.detect_collision marchEnv exCorner (1 / 20, 1 / 20) (13 / 20, 17 / 20) false
      = some { collided := false, result := { pos := (19 / 20, 5 / 4), target_index := -1 },
               rng := 0 } ∧
    on_segment (1 / 20, 1 / 20) (13 / 20, 17 / 20) (19 / 20, 5 / 4) = false ∧
    exCorner.in_bound (f2i (13 / 20, 17 / 20)) = true ∧
    exCorner.in_bound (f2i (19 / 20, 5 / 4)) = false ∧
    (GameModel.compute_position_step marchEnv 0 exCorner).map
        (fun m => (m.state_next.p_pos, m.state_next.p_type))
      = some ([(19 / 20, 5 / 4)], [ParticleType.None]) := by
  refine ⟨?_, ?_, ?_, ?_, ?_, ?_, ?_⟩ <;> decide!

namespace GameModel

/-- For a positive step length and a non-negative length of `end - start`, the position that
`detect_collision` returns is `end` or a sample of the march: it is
`start + t * (end - start)` with `t = 1` or `t = j * K_COLLISION_STEP_LENGTH / |end - start|`
for a natural number `j`. -/
theorem detect_collision_on_ray (E : Env) (m : GameModel) (start end_ : Vec2)
    (ignore_liquid : Bool) (det : Detection)
    (hK : 0 < E.K_COLLISION_STEP_LENGTH)
    (hnn : 0 ≤ length E (end_.1 - start.1, end_.2 - start.2))
    (h : detect_collision E m start end_ ignore_liquid = some det) :
    ∃ t : ℚ, 0 ≤ t ∧
      det.result.pos
        = (start.1 + t * (end_.1 - start.1), start.2 + t * (end_.2 - start.2)) ∧
      (t = 1 ∨ ∃ j : Nat, t = (j : ℚ) * E.K_COLLISION_STEP_LENGTH
        / length E (end_.1 - start.1, end_.2 - start.2)) := by
  rcases detect_collision_sample E m start end_ ignore_liquid det h with he | ⟨hL, j, hj⟩
  · refine ⟨1, by norm_num, ?_, Or.inl rfl⟩
    rw [he]
    refine Prod.ext ?_ ?_ <;> simp only <;> ring
  · have hLpos : 0 < length E (end_.1 - start.1, end_.2 - start.2) :=
      lt_of_le_of_ne hnn (Ne.symm hL)
    refine ⟨(j : ℚ) * E.K_COLLISION_STEP_LENGTH
      / length E (end_.1 - start.1, end_.2 - start.2), by positivity, ?_, Or.inr ⟨j, rfl⟩⟩
    rw [hj, ray_march_step]

end GameModel

/-! ## Well-formed hits -/

theorem floor_between (s d : ℚ) (k j : Nat) (hkj : k ≤ j)
    (h : Int.floor (s + (j : ℚ) * d) = Int.floor s) :
    Int.floor (s + (k : ℚ) * d) = Int.floor s := by
  have h1 := Int.floor_le s
  have h2 := Int.lt_floor_add_one s
  have h3 := Int.floor_le (s + (j : ℚ) * d)
  have h4 := Int.lt_floor_add_one (s + (j : ℚ) * d)
  rw [h] at h3 h4
  have hk0 : (0 : ℚ) ≤ k := Nat.cast_nonneg k
  have hkj' : (k : ℚ) ≤ j := by exact_mod_cast hkj
  rw [Int.floor_eq_iff]
  rcases le_or_lt 0 d with hd | hd
  · have : (k : ℚ) * d ≤ (j : ℚ) * d := mul_le_mul_of_nonneg_right hkj' hd
    have : 0 ≤ (k : ℚ) * d := mul_nonneg hk0 hd
    constructor <;> linarith
  · have : (j : ℚ) * d ≤ (k : ℚ) * d := mul_le_mul_of_nonpos_right hkj' hd.le
    have : (k : ℚ) * d ≤ 0 := mul_nonpos_of_nonneg_of_nonpos hk0 hd.le
    constructor <;> linarith

/-- A cell is convex: a march that has left the cell of `start` at sample `k` is outside it at
every later sample. -/
theorem f2i_ray_left (start delta : Vec2) (k j : Nat) (hkj : k ≤ j)
    (hk : f2i (ray start delta k) ≠ f2i start) : f2i (ray start delta j) ≠ f2i start := by
  intro hj
  apply hk
  simp only [f2i, ray, Prod.mk.injEq] at hj ⊢
  exact ⟨floor_between _ _ k j hkj hj.1, floor_between _ _ k j hkj hj.2⟩

theorem detect_exit_collided (p : Vec2) (t : Int) (r : Nat) :
    (GameModel.detect_exit p t r).collided = true
      ↔ (GameModel.detect_exit p t r).result.target_index ≠ -1 := by
  simp [GameModel.detect_exit]

namespace GameModel

/-- C23: `detect_collision` returns true exactly when `result.target_index != -1`.
When `start` lies in a cell of the canvas, every occupied cell has a range with `from <= to`
and `random_sample(a, b)` lies in `[a, b]` for `a <= b`, a collision has a target index in the
range `[from, to]` of an in-bound, non-empty cell `C` of the current generation that is not the
cell of `start`, and the position returned floors to a cell other than `C`. -/
theorem well_formed_hit (E : Env) (m : GameModel) (start end_ : Vec2) (ignore_liquid : Bool)
    (det : Detection)
    (hstart : m.in_bound (f2i start) = true)
    (hwf : ∀ (c : Nat) (r : PixelParticleList), m.state_cur.map_index[c]? = some r →
      r.nil = false → r.from_ ≤ r.to_)
    (hrs : ∀ (n : Nat) (a b : Int), a ≤ b →
      a ≤ E.random_sample n a b ∧ E.random_sample n a b ≤ b)
    (h : detect_collision E m start end_ ignore_liquid = some det) :
    (det.collided = true ↔ det.result.target_index ≠ -1) ∧
    (det.collided = true →
      ∃ (C : IVec2) (lst : PixelParticleList),
        m.in_bound C = true ∧ getI m.state_cur.map_index (m.idx C) = some lst ∧
        lst.nil = false ∧
        lst.from_ ≤ det.result.target_index ∧ det.result.target_index ≤ lst.to_ ∧
        C ≠ f2i start ∧ f2i det.result.pos ≠ C) := by
  have hno : ∀ (p : Vec2) (r : Nat), (detect_exit p (-1) r).collided = true →
      ∃ (C : IVec2) (lst : PixelParticleList),
        m.in_bound C = true ∧ getI m.state_cur.map_index (m.idx C) = some lst ∧
        lst.nil = false ∧
        lst.from_ ≤ (detect_exit p (-1) r).result.target_index ∧
        (detect_exit p (-1) r).result.target_index ≤ lst.to_ ∧
        C ≠ f2i start ∧ f2i (detect_exit p (-1) r).result.pos ≠ C := by
    intro p r hc
    simp [detect_exit] at hc
  have hrange : ∀ (i : Int) (lst : PixelParticleList) (n : Nat),
      getI m.state_cur.map_index i = some lst → lst.nil = false →
      lst.from_ ≤ E.random_sample n lst.from_ lst.to_ ∧
      E.random_sample n lst.from_ lst.to_ ≤ lst.to_ := by
    intro i lst n hget hnil
    exact hrs n _ _ (hwf _ lst (getI_eq_some _ _ _ hget).2 hnil)
  rcases detect_collision_cases E m start end_ ignore_liquid det h with
    ⟨-, rfl⟩ | ⟨-, -, cur, hcur, hbr⟩
  · exact ⟨detect_exit_collided _ _ _, hno _ _⟩
  · obtain ⟨k, -, hck, hne, -⟩ := skip_cell_spec _ _ _ _ _ hcur
    rcases hbr with ⟨-, hs⟩ | ⟨-, hm⟩
    · rcases detect_short_spec E m start end_ cur ignore_liquid det hs with
        ⟨-, rfl⟩ | ⟨hin, temp, htemp, ⟨-, rfl⟩ |
          ⟨hnil, ty, -, ⟨-, -, rfl⟩ | ⟨-, hidx, rfl⟩ | ⟨-, hidx, rfl⟩⟩⟩
      · exact ⟨detect_exit_collided _ _ _, hno _ _⟩
      · exact ⟨detect_exit_collided _ _ _, hno _ _⟩
      · exact ⟨detect_exit_collided _ _ _, hno _ _⟩
      · exact absurd (idx_injective m _ _ hstart hin hidx).symm hne
      · refine ⟨detect_exit_collided _ _ _, fun _ => ⟨f2i cur, temp, hin, htemp, hnil, ?_⟩⟩
        obtain ⟨r1, r2⟩ := hrange _ temp m.rng htemp hnil
        exact ⟨r1, r2, hne, Ne.symm hne⟩
    · rcases detect_march_spec E m end_ _ _ cur det hm with
        rfl | ⟨i, -, ⟨-, rfl⟩ | ⟨hin, lst, hlst, hnil, hidx, rfl⟩⟩
      · exact ⟨detect_exit_collided _ _ _, hno _ _⟩
      · exact ⟨detect_exit_collided _ _ _, hno _ _⟩
      · refine ⟨detect_exit_collided _ _ _,
          fun _ => ⟨f2i (ray cur (march_step E start end_) i), lst, hin, hlst, hnil, ?_⟩⟩
        obtain ⟨r1, r2⟩ := hrange _ lst m.rng hlst hnil
        refine ⟨r1, r2, ?_, ?_⟩
        · rw [hck, ray_add]
          rw [hck] at hne
          exact f2i_ray_left start _ k (k + i) (by omega) hne
        · intro heq
          apply hidx
          simp only [detect_exit] at heq
          rw [heq]

end GameModel

theorem exNear_ranges (c : Nat) (r : PixelParticleList)
    (h : exNear.state_cur.map_index[c]? = some r) (_hn : r.nil = false) : r.from_ ≤ r.to_ := by
  rcases c with _ | _ | c
  · simp only [exNear, List.getElem?_cons_zero, Option.some.injEq] at h
    subst h; decide
  · simp only [exNear, List.getElem?_cons_succ, List.getElem?_cons_zero, Option.some.injEq] at h
    subst h; decide
  · simp [exNear] at h

namespace GameModel

/-- The hit of particle `0` of `exNear` on its way from `(1/4, 1/2)` to `(5/4, 1/2)`: the
target `1` is the occupant of cell `(1, 0)`, and the position returned lies in the cell
of `start`. -/
theorem well_formed_hit_witness :
    (exNearHit.collided = true ↔ exNearHit.result.target_index ≠ -1) ∧
    (exNearHit.collided = true →
      ∃ (C : IVec2) (lst : PixelParticleList),
        exNear.in_bound C = true ∧ getI exNear.state_cur.map_index (exNear.idx C) = some lst ∧
        lst.nil = false ∧
        lst.from_ ≤ exNearHit.result.target_index ∧ exNearHit.result.target_index ≤ lst.to_ ∧
        C ≠ f2i ((1 / 4, 1 / 2) : Vec2) ∧ f2i exNearHit.result.pos ≠ C) :=
  well_formed_hit marchEnv exNear (1 / 4, 1 / 2) (5 / 4, 1 / 2) false exNearHit (by decide!)
    exNear_ranges (fun _ a b hab => ⟨le_refl a, hab⟩) (by decide!)

end GameModel

/-! ## Termination of `detect_collision` -/

theorem floor_ne_of_one_le_abs (s t : ℚ) (ht : 1 ≤ |t|) : Int.floor (s + t) ≠ Int.floor s := by
  intro h
  have h1 := Int.floor_le s
  have h2 := Int.lt_floor_add_one s
  have h3 := Int.floor_le (s + t)
  have h4 := Int.lt_floor_add_one (s + t)
  rw [h] at h3 h4
  rcases le_abs'.1 ht with hneg | hpos
  · linarith
  · linarith

theorem abs_lt_one_of_floor_eq (s t : ℚ) (h : Int.floor (s + t) = Int.floor s) : |t| < 1 := by
  by_contra hc
  exact floor_ne_of_one_le_abs s t (not_lt.1 hc) h

namespace GameModel

/-- The skip loop ends when some sample within the fuel lies outside the cell of `start`. -/
theorem skip_cell_terminates (start delta : Vec2) (fuel : Nat) (cur : Vec2) (j : Nat)
    (hj : j < fuel) (hout : f2i (ray cur delta j) ≠ f2i start) :
    ∃ c, skip_cell start delta fuel cur = some c := by
  induction fuel generalizing cur j with
  | zero => omega
  | succ n ih =>
    rw [skip_cell]
    split_ifs with hc
    · cases j with
      | zero => rw [ray_zero] at hout; exact absurd hc hout
      | succ j =>
        rw [← ray_shift] at hout
        exact ih _ j (by omega) hout
    · exact ⟨cur, rfl⟩

/-- A sample at least one unit away from `s` on an axis lies in another cell. -/
theorem sample_outside (start delta : Vec2) (j : Nat)
    (h : 1 ≤ |(j : ℚ) * delta.1| ∨ 1 ≤ |(j : ℚ) * delta.2|) :
    f2i (ray start delta j) ≠ f2i start := by
  intro heq
  simp only [f2i, ray, Prod.mk.injEq] at heq
  rcases h with h | h
  · exact floor_ne_of_one_le_abs _ _ h heq.1
  · exact floor_ne_of_one_le_abs _ _ h heq.2

/-- The fuel of the skip loop is enough for every step other than zero. -/
theorem skip_cell_total (start delta : Vec2) (hd : delta ≠ (0, 0)) :
    ∃ c, skip_cell start delta (skip_fuel delta) start = some c := by
  have key : ∀ x : ℚ, x ≠ 0 → 1 ≤ |((Nat.ceil (1 / |x|) : Nat) : ℚ) * x| := by
    intro x hx
    have hpos : 0 < |x| := abs_pos.2 hx
    rw [abs_mul, abs_of_nonneg (Nat.cast_nonneg _)]
    have := Nat.le_ceil (1 / |x|)
    calc (1 : ℚ) = 1 / |x| * |x| := by field_simp
      _ ≤ _ := mul_le_mul_of_nonneg_right this hpos.le
  unfold skip_fuel
  by_cases h1 : delta.1 ≠ 0
  · rw [if_pos h1]
    exact skip_cell_terminates start delta _ start (Nat.ceil (1 / |delta.1|)) (by omega)
      (sample_outside start delta _ (Or.inl (key _ h1)))
  · rw [if_neg h1]
    have h2 : delta.2 ≠ 0 := by
      intro h2
      exact hd (Prod.ext (not_not.1 h1) h2)
    rw [if_pos h2]
    exact skip_cell_terminates start delta _ start (Nat.ceil (1 / |delta.2|)) (by omega)
      (sample_outside start delta _ (Or.inr (key _ h2)))

end GameModel

namespace GameModel

/-- The step of the march has the length `K_COLLISION_STEP_LENGTH` when the square root is
exact on the squared length of `end - start`. -/
theorem march_step_sq (E : Env) (start end_ : Vec2)
    (hL : length E (end_.1 - start.1, end_.2 - start.2) ≠ 0)
    (hsq : length E (end_.1 - start.1, end_.2 - start.2)
        * length E (end_.1 - start.1, end_.2 - start.2)
      = (end_.1 - start.1) * (end_.1 - start.1) + (end_.2 - start.2) * (end_.2 - start.2)) :
    (march_step E start end_).1 ^ 2 + (march_step E start end_).2 ^ 2
      = E.K_COLLISION_STEP_LENGTH ^ 2 := by
  simp only [march_step]
  field_simp
  rw [sq (length E (end_.1 - start.1, end_.2 - start.2)), hsq]
  ring

/-- The number of iterations of the skip loop: the last sample inside the cell of `start` is
less than one unit away from `start` on both axes. -/
theorem skip_count_bound (start delta : Vec2) (k : Nat) (hk : 0 < k)
    (hin : ∀ i : Nat, i < k → f2i (ray start delta i) = f2i start) :
    ((k : ℚ) - 1) ^ 2 * (delta.1 ^ 2 + delta.2 ^ 2) < 2 := by
  have h := hin (k - 1) (by omega)
  simp only [f2i, ray, Prod.mk.injEq] at h
  have hc : ((k - 1 : Nat) : ℚ) = (k : ℚ) - 1 := by
    rw [Nat.cast_sub (by omega)]; simp
  rw [hc] at h
  have h1 := abs_lt_one_of_floor_eq _ _ h.1
  have h2 := abs_lt_one_of_floor_eq _ _ h.2
  have e1 : (((k : ℚ) - 1) * delta.1) ^ 2 < 1 := by
    rw [← sq_abs]; exact pow_lt_one₀ (abs_nonneg _) h1 (by norm_num)
  have e2 : (((k : ℚ) - 1) * delta.2) ^ 2 < 1 := by
    rw [← sq_abs]; exact pow_lt_one₀ (abs_nonneg _) h2 (by norm_num)
  nlinarith

/-- The bound of the skip loop with the diameter `√2` of a cell. -/
theorem skip_count_ceil (K : ℚ) (k : Nat) (hK : 0 < K) (hk : 0 < k)
    (h : ((k : ℚ) - 1) ^ 2 * K ^ 2 < 2) :
    (k : ℝ) ≤ (Nat.ceil (Real.sqrt 2 / (K : ℝ)) : ℝ) + 1 := by
  have hKr : (0 : ℝ) < (K : ℝ) := by exact_mod_cast hK
  have hk1 : (0 : ℝ) ≤ (k : ℝ) - 1 := by
    have : (1 : ℝ) ≤ (k : ℝ) := by exact_mod_cast hk
    linarith
  have hr : (((k : ℝ) - 1) * (K : ℝ)) ^ 2 < 2 := by
    have : (((k : ℚ) - 1) ^ 2 * K ^ 2 : ℚ) < 2 := h
    have h' : ((((k : ℚ) - 1) ^ 2 * K ^ 2 : ℚ) : ℝ) < ((2 : ℚ) : ℝ) := by exact_mod_cast this
    push_cast at h'
    rw [mul_pow]; exact h'
  have hlt : ((k : ℝ) - 1) * (K : ℝ) < Real.sqrt 2 :=
    (Real.lt_sqrt (mul_nonneg hk1 hKr.le)).2 hr
  have hdiv : (k : ℝ) - 1 < Real.sqrt 2 / (K : ℝ) := (lt_div_iff₀ hKr).2 hlt
  have := Nat.le_ceil (Real.sqrt 2 / (K : ℝ))
  linarith

end GameModel

theorem getI_of_lt {α : Type} (l : List α) (i : Int) (h0 : 0 ≤ i) (h1 : i < (l.length : Int)) :
    ∃ a, getI l i = some a := by
  have hlt : i.toNat < l.length := by omega
  refine ⟨l[i.toNat], ?_⟩
  unfold getI
  rw [if_neg (by omega), List.getElem?_eq_getElem hlt]

namespace GameModel

/-- The march loop returns when every cell of the canvas has an entry in `map_index`. -/
theorem detect_march_total (E : Env) (m : GameModel) (end_ delta : Vec2) (n : Nat) (cur : Vec2)
    (hmi : ∀ c : IVec2, m.in_bound c = true →
      ∃ lst, getI m.state_cur.map_index (m.idx c) = some lst) :
    ∃ det, detect_march E m end_ delta n cur = some det := by
  induction n generalizing cur with
  | zero => exact ⟨_, rfl⟩
  | succ n ih =>
    rw [detect_march]
    simp only [Option.pure_def, Option.bind_eq_bind]
    by_cases hin : m.in_bound (f2i cur) = true
    · obtain ⟨lst, hlst⟩ := hmi _ hin
      rw [if_pos hin, hlst, Option.some_bind]
      split_ifs
      · exact ⟨_, rfl⟩
      · exact ih _
    · rw [if_neg hin]
      exact ⟨_, rfl⟩

/-- The branch `steps <= 1` returns when every cell of the canvas has an entry in `map_index`
and the sampled occupant of an occupied cell is a particle. -/
theorem detect_short_total (E : Env) (m : GameModel) (start end_ cur : Vec2)
    (ignore_liquid : Bool)
    (hmi : ∀ c : IVec2, m.in_bound c = true →
      ∃ lst, getI m.state_cur.map_index (m.idx c) = some lst)
    (hty : ∀ (c : IVec2) (lst : PixelParticleList),
      getI m.state_cur.map_index (m.idx c) = some lst → lst.nil = false →
      ∃ ty, getI m.state_cur.p_type (E.random_sample m.rng lst.from_ lst.to_) = some ty) :
    ∃ det, detect_short E m start end_ cur ignore_liquid = some det := by
  unfold detect_short
  simp only [Option.pure_def, Option.bind_eq_bind]
  cases hin : m.in_bound (f2i cur) with
  | false => exact ⟨detect_exit cur (-1) m.rng, by simp⟩
  | true =>
    obtain ⟨lst, hlst⟩ := hmi _ hin
    simp only [Bool.not_true, Bool.false_eq_true, if_false, hlst, Option.some_bind]
    cases hnil : lst.nil with
    | true => exact ⟨detect_exit end_ (-1) m.rng, by simp⟩
    | false =>
      obtain ⟨ty, hty'⟩ := hty _ lst hlst hnil
      simp only [Bool.not_false, if_true, hty', Option.some_bind]
      split_ifs
      · exact ⟨_, rfl⟩
      · exact ⟨_, rfl⟩
      · exact ⟨_, rfl⟩

end GameModel

namespace GameModel

/-- `detect_collision` returns for a segment of non-zero length, a step length other than
zero and a well-formed cell index. -/
theorem detect_collision_total (E : Env) (m : GameModel) (start end_ : Vec2)
    (ignore_liquid : Bool)
    (hL : length E (end_.1 - start.1, end_.2 - start.2) ≠ 0)
    (hK : E.K_COLLISION_STEP_LENGTH ≠ 0)
    (hd : march_step E start end_ ≠ (0, 0))
    (hmi : ∀ c : IVec2, m.in_bound c = true →
      ∃ lst, getI m.state_cur.map_index (m.idx c) = some lst)
    (hty : ∀ (c : IVec2) (lst : PixelParticleList),
      getI m.state_cur.map_index (m.idx c) = some lst → lst.nil = false →
      ∃ ty, getI m.state_cur.p_type (E.random_sample m.rng lst.from_ lst.to_) = some ty) :
    ∃ cur det,
      skip_cell start (march_step E start end_) (skip_fuel (march_step E start end_)) start
        = some cur ∧
      detect_collision E m start end_ ignore_liquid = some det := by
  obtain ⟨cur, hcur⟩ := skip_cell_total start _ hd
  have hcur' := hcur
  simp only [march_step] at hcur'
  obtain ⟨d1, hd1⟩ := detect_short_total E m start end_ cur ignore_liquid hmi hty
  obtain ⟨d2, hd2⟩ := detect_march_total E m end_ (march_step E start end_)
    (march_steps E start end_ - 1).toNat cur hmi
  simp only [march_step, march_steps] at hd2
  by_cases hs : march_steps E start end_ ≤ 1
  · refine ⟨cur, d1, hcur, ?_⟩
    simp only [march_steps] at hs
    unfold detect_collision
    simp only [length_swap E start end_, Option.pure_def, Option.bind_eq_bind, if_neg hL,
      fdiv, hK, if_false, Option.some_bind, march_delta E _ hL, hcur', if_pos hs, hd1]
  · refine ⟨cur, d2, hcur, ?_⟩
    simp only [march_steps] at hs
    unfold detect_collision
    simp only [length_swap E start end_, Option.pure_def, Option.bind_eq_bind, if_neg hL,
      fdiv, hK, if_false, Option.some_bind, march_delta E _ hL, hcur', if_neg hs, hd2]

end GameModel

theorem sqrtDown_sq_le (n fuel : Nat) : sqrtDown n fuel * sqrtDown n fuel ≤ n := by
  induction fuel with
  | zero => simp [sqrtDown]
  | succ s ih =>
    rw [sqrtDown]
    split_ifs with h
    · exact h
    · exact ih

/-- The rounded-down square root is not above the exact one. -/
theorem floorSqrt_sq_le (q : ℚ) (hq : 0 ≤ q) : floorSqrt q * floorSqrt q ≤ q := by
  unfold floorSqrt
  have hf : 0 ≤ Int.floor (q * 100) := Int.floor_nonneg.2 (by positivity)
  have h1 := sqrtDown_sq_le (Int.floor (q * 100)).toNat (Int.floor (q * 100)).toNat
  have h2 : (((Int.floor (q * 100)).toNat : Int) : ℚ) ≤ q * 100 := by
    rw [Int.toNat_of_nonneg hf]
    exact Int.floor_le _
  have h3 : ((sqrtDown (Int.floor (q * 100)).toNat (Int.floor (q * 100)).toNat : Nat) : ℚ)
      * ((sqrtDown (Int.floor (q * 100)).toNat (Int.floor (q * 100)).toNat : Nat) : ℚ)
      ≤ (((Int.floor (q * 100)).toNat : Int) : ℚ) := by
    exact_mod_cast h1
  have h4 := h3.trans h2
  rw [div_mul_div_comm, div_le_iff₀ (by norm_num)]
  linarith

namespace GameModel

/-- A segment whose computed length is zero: `detect_collision` returns at once. -/
theorem detect_collision_zero_length (E : Env) (m : GameModel) (start end_ : Vec2)
    (ignore_liquid : Bool) (h0 : length E (end_.1 - start.1, end_.2 - start.2) = 0) :
    detect_collision E m start end_ ignore_liquid = some (detect_exit end_ (-1) m.rng) := by
  unfold detect_collision
  simp only [length_swap E start end_, h0, if_true, Option.pure_def]

/-- The step of the march is not zero for `start ≠ end`, a computed length other than zero
and a step length other than zero. -/
theorem march_step_ne_zero (E : Env) (start end_ : Vec2) (hne : start ≠ end_)
    (hL : length E (end_.1 - start.1, end_.2 - start.2) ≠ 0)
    (hK : E.K_COLLISION_STEP_LENGTH ≠ 0) : march_step E start end_ ≠ (0, 0) := by
  intro h
  simp only [march_step, Prod.mk.injEq, mul_eq_zero, div_eq_zero_iff, hL, hK, or_false] at h
  exact hne (Prod.ext (by linarith [h.1]) (by linarith [h.2]))

/-- The step of the march is at least `K_COLLISION_STEP_LENGTH` long when the computed length
of `end - start` is not above the exact length. -/
theorem march_step_sq_ge (E : Env) (start end_ : Vec2)
    (hL : length E (end_.1 - start.1, end_.2 - start.2) ≠ 0)
    (hlow : length E (end_.1 - start.1, end_.2 - start.2)
        * length E (end_.1 - start.1, end_.2 - start.2)
      ≤ (end_.1 - start.1) * (end_.1 - start.1) + (end_.2 - start.2) * (end_.2 - start.2)) :
    E.K_COLLISION_STEP_LENGTH ^ 2
      ≤ (march_step E start end_).1 ^ 2 + (march_step E start end_).2 ^ 2 := by
  have hLL : 0 < length E (end_.1 - start.1, end_.2 - start.2)
      * length E (end_.1 - start.1, end_.2 - start.2) := mul_self_pos.2 hL
  have e : (march_step E start end_).1 ^ 2 + (march_step E start end_).2 ^ 2
      = ((end_.1 - start.1) * (end_.1 - start.1) + (end_.2 - start.2) * (end_.2 - start.2))
        / (length E (end_.1 - start.1, end_.2 - start.2)
          * length E (end_.1 - start.1, end_.2 - start.2))
        * E.K_COLLISION_STEP_LENGTH ^ 2 := by
    simp only [march_step]
    field_simp
    ring
  rw [e]
  have h1 := (one_le_div hLL).2 hlow
  calc E.K_COLLISION_STEP_LENGTH ^ 2 = 1 * E.K_COLLISION_STEP_LENGTH ^ 2 := (one_mul _).symm
    _ ≤ _ := mul_le_mul_of_nonneg_right h1 (sq_nonneg _)

/-- The bound of the skip loop with the diameter `√2` of a cell, for a step of length `c`. -/
theorem skip_count_ceil_real (c : ℝ) (k : Nat) (hc : 0 < c) (hk : 0 < k)
    (h : ((k : ℝ) - 1) ^ 2 * c ^ 2 < 2) :
    (k : ℝ) ≤ (Nat.ceil (Real.sqrt 2 / c) : ℝ) + 1 := by
  have hk1 : (0 : ℝ) ≤ (k : ℝ) - 1 := by
    have : (1 : ℝ) ≤ (k : ℝ) := by exact_mod_cast hk
    linarith
  have hr : (((k : ℝ) - 1) * c) ^ 2 < 2 := by
    rw [mul_pow]; exact h
  have hlt : ((k : ℝ) - 1) * c < Real.sqrt 2 :=
    (Real.lt_sqrt (mul_nonneg hk1 hc.le)).2 hr
  have hdiv : (k : ℝ) - 1 < Real.sqrt 2 / c := (lt_div_iff₀ hc).2 hlt
  have := Nat.le_ceil (Real.sqrt 2 / c)
  linarith

end GameModel

namespace GameModel

/-- C27: for `start = end` (and a square root with `sqrt 0 = 0`) `detect_collision` returns at
once with the position `end` and no target.  For every `start ≠ end`, with
`K_COLLISION_STEP_LENGTH > 0`, a cell index with one entry per cell whose non-empty ranges lie
inside the particle columns, and a random sample inside its range, `detect_collision` returns,
whatever the square root computes.  When the computed length of `end - start` is not zero, the
skip loop `while (f2i(cur) == f2i(start)) cur += delta` runs: it ends after `k ≥ 1` iterations,
at the first sample outside the cell of `start`, with `(k - 1) * |delta| < √2`, so that
`k ≤ ceil(√2 / |delta|) + 1`; and when the computed length is not above the exact length (as it
is in exact arithmetic), `|delta| ≥ K_COLLISION_STEP_LENGTH` and
`k ≤ ceil(√2 / K_COLLISION_STEP_LENGTH) + 1`. -/
theorem detect_collision_terminates (E : Env) (m : GameModel) (start end_ : Vec2)
    (ignore_liquid : Bool) :
    (start = end_ → E.sqrt 0 = 0 →
      detect_collision E m start end_ ignore_liquid
        = some { collided := false, result := { pos := end_, target_index := -1 },
                 rng := m.rng }) ∧
    (start ≠ end_ → 0 < E.K_COLLISION_STEP_LENGTH →
      (m.state_cur.map_index.length : Int) = m.width * m.height →
      (∀ (c : Nat) (r : PixelParticleList), m.state_cur.map_index[c]? = some r →
        r.nil = false → r.from_ ≤ r.to_ ∧ r.to_ < (m.state_cur.p_type.length : Int)) →
      (∀ (n : Nat) (a b : Int), a ≤ b →
        a ≤ E.random_sample n a b ∧ E.random_sample n a b ≤ b) →
      (∃ det : Detection, detect_collision E m start end_ ignore_liquid = some det) ∧
      (length E (end_.1 - start.1, end_.2 - start.2) ≠ 0 →
        ∃ k : Nat, 0 < k ∧
          skip_cell start (march_step E start end_) (skip_fuel (march_step E start end_)) start
            = some (ray start (march_step E start end_) k) ∧
          f2i (ray start (march_step E start end_) k) ≠ f2i start ∧
          (∀ i : Nat, i < k → f2i (ray start (march_step E start end_) i) = f2i start) ∧
          ((k : ℚ) - 1) ^ 2
            * ((march_step E start end_).1 ^ 2 + (march_step E start end_).2 ^ 2) < 2 ∧
          (k : ℝ) ≤ (Nat.ceil (Real.sqrt 2 / Real.sqrt
            (((march_step E start end_).1 ^ 2 + (march_step E start end_).2 ^ 2 : ℚ) : ℝ))
              : ℝ) + 1 ∧
          (length E (end_.1 - start.1, end_.2 - start.2)
              * length E (end_.1 - start.1, end_.2 - start.2)
            ≤ (end_.1 - start.1) * (end_.1 - start.1)
              + (end_.2 - start.2) * (end_.2 - start.2) →
            ((k : ℚ) - 1) ^ 2 * E.K_COLLISION_STEP_LENGTH ^ 2 < 2 ∧
            (k : ℝ)
              ≤ (Nat.ceil (Real.sqrt 2 / ((E.K_COLLISION_STEP_LENGTH : ℚ) : ℝ)) : ℝ) + 1))) := by
  constructor
  · intro heq h0
    subst heq
    simp [detect_collision, length, h0, detect_exit]
  · intro hne hK hlen hwf hrs
    have hmi : ∀ c : IVec2, m.in_bound c = true →
        ∃ lst, getI m.state_cur.map_index (m.idx c) = some lst := by
      intro c hc
      obtain ⟨b0, b1⟩ := idx_bounds m c hc
      exact getI_of_lt _ _ b0 (by rw [hlen]; exact b1)
    have hty : ∀ (c : IVec2) (lst : PixelParticleList),
        getI m.state_cur.map_index (m.idx c) = some lst → lst.nil = false →
        ∃ ty, getI m.state_cur.p_type (E.random_sample m.rng lst.from_ lst.to_) = some ty := by
      intro c lst hget hnil
      obtain ⟨w1, w2⟩ := hwf _ lst (getI_eq_some _ _ _ hget).2 hnil
      obtain ⟨r1, r2⟩ := hrs m.rng _ _ w1
      have hfrom : 0 ≤ lst.from_ := by
        simp only [PixelParticleList.nil, decide_eq_false_iff_not, not_lt] at hnil
        exact hnil
      exact getI_of_lt _ _ (by omega) (by omega)
    constructor
    · by_cases hL : length E (end_.1 - start.1, end_.2 - start.2) = 0
      · exact ⟨_, detect_collision_zero_length E m start end_ ignore_liquid hL⟩
      · obtain ⟨cur, det, -, hdet⟩ := detect_collision_total E m start end_ ignore_liquid hL
          hK.ne' (march_step_ne_zero E start end_ hne hL hK.ne') hmi hty
        exact ⟨det, hdet⟩
    · intro hL
      have hd := march_step_ne_zero E start end_ hne hL hK.ne'
      obtain ⟨cur, hcur⟩ := skip_cell_total start _ hd
      obtain ⟨k, -, hck, hout, hin⟩ := skip_cell_spec _ _ _ _ _ hcur
      have hk : 0 < k := by
        rcases Nat.eq_zero_or_pos k with h0 | h0
        · rw [h0, ray_zero] at hck
          rw [hck] at hout
          exact absurd rfl hout
        · exact h0
      have hb := skip_count_bound start _ k hk hin
      have hpos : 0 < (march_step E start end_).1 ^ 2 + (march_step E start end_).2 ^ 2 := by
        refine lt_of_le_of_ne (by positivity) (fun h0 => hd ?_)
        obtain ⟨z1, z2⟩ := (add_eq_zero_iff_of_nonneg (sq_nonneg _) (sq_nonneg _)).1 h0.symm
        exact Prod.ext (pow_eq_zero_iff (by norm_num) |>.1 z1)
          (pow_eq_zero_iff (by norm_num) |>.1 z2)
      have hposr : (0 : ℝ)
          < (((march_step E start end_).1 ^ 2 + (march_step E start end_).2 ^ 2 : ℚ) : ℝ) := by
        exact_mod_cast hpos
      have hbr : ((k : ℝ) - 1) ^ 2 * Real.sqrt
          (((march_step E start end_).1 ^ 2 + (march_step E start end_).2 ^ 2 : ℚ) : ℝ) ^ 2
            < 2 := by
        rw [Real.sq_sqrt hposr.le]
        have h' : ((((k : ℚ) - 1) ^ 2 * ((march_step E start end_).1 ^ 2
            + (march_step E start end_).2 ^ 2) : ℚ) : ℝ) < ((2 : ℚ) : ℝ) := by
          exact_mod_cast hb
        push_cast at h' ⊢
        exact h'
      rw [hck] at hout
      refine ⟨k, hk, by rw [hcur, hck], hout, hin, hb,
        skip_count_ceil_real _ k (Real.sqrt_pos.2 hposr) hk hbr, ?_⟩
      intro hlow
      have hge := march_step_sq_ge E start end_ hL hlow
      have hbK : ((k : ℚ) - 1) ^ 2 * E.K_COLLISION_STEP_LENGTH ^ 2 < 2 :=
        lt_of_le_of_lt (mul_le_mul_of_nonneg_left hge (sq_nonneg _)) hb
      exact ⟨hbK, skip_count_ceil _ k hK hk hbK⟩

end GameModel

theorem exNear_ranges_inside (c : Nat) (r : PixelParticleList)
    (h : exNear.state_cur.map_index[c]? = some r) (_hn : r.nil = false) :
    r.from_ ≤ r.to_ ∧ r.to_ < (exNear.state_cur.p_type.length : Int) := by
  rcases c with _ | _ | c
  · simp only [exNear, List.getElem?_cons_zero, Option.some.injEq] at h
    subst h; decide
  · simp only [exNear, List.getElem?_cons_succ, List.getElem?_cons_zero, Option.some.injEq] at h
    subst h; decide
  · simp [exNear] at h

namespace GameModel

/-- On `exNear` with the square root rounded down: the segment of length zero at `(1/4, 1/2)`
returns at once; the segment from `(1/4, 1/2)` to `(5/4, 3/2)` has the exact length `√2` and the
computed length `7/5`, `detect_collision` returns, and the skip loop ends within both
bounds. -/
theorem detect_collision_terminates_witness :
    detect_collision floorEnv exNear (1 / 4, 1 / 2) (1 / 4, 1 / 2) false
      = some { collided := false, result := { pos := (1 / 4, 1 / 2), target_index := -1 },
               rng := exNear.rng } ∧
    length floorEnv ((5 / 4 : ℚ) - 1 / 4, (3 / 2 : ℚ) - 1 / 2) = 7 / 5 ∧
    (∃ det : Detection,
      detect_collision floorEnv exNear (1 / 4, 1 / 2) (5 / 4, 3 / 2) false = some det) ∧
    ∃ k : Nat, 0 < k ∧
      skip_cell (1 / 4, 1 / 2) (march_step floorEnv (1 / 4, 1 / 2) (5 / 4, 3 / 2))
          (skip_fuel (march_step floorEnv (1 / 4, 1 / 2) (5 / 4, 3 / 2))) (1 / 4, 1 / 2)
        = some (ray (1 / 4, 1 / 2) (march_step floorEnv (1 / 4, 1 / 2) (5 / 4, 3 / 2)) k) ∧
      ((k : ℚ) - 1) ^ 2 * floorEnv.K_COLLISION_STEP_LENGTH ^ 2 < 2 ∧
      (k : ℝ)
        ≤ (Nat.ceil (Real.sqrt 2 / ((floorEnv.K_COLLISION_STEP_LENGTH : ℚ) : ℝ)) : ℝ) + 1 :=
  ⟨(detect_collision_terminates floorEnv exNear (1 / 4, 1 / 2) (1 / 4, 1 / 2) false).1 rfl
      (by decide!),
   by decide!,
   ((detect_collision_terminates floorEnv exNear (1 / 4, 1 / 2) (5 / 4, 3 / 2) false).2
      (by decide!) (by decide!) (by decide) exNear_ranges_inside
      (fun _ a b hab => ⟨le_refl a, hab⟩)).1,
   (((detect_collision_terminates floorEnv exNear (1 / 4, 1 / 2) (5 / 4, 3 / 2) false).2
      (by decide!) (by decide!) (by decide) exNear_ranges_inside
      (fun _ a b hab => ⟨le_refl a, hab⟩)).2 (by decide!)).imp
    (fun _ hk => ⟨hk.1, hk.2.1, hk.2.2.2.2.2.2 (by decide!)⟩)⟩

end GameModel

/-! ## Rigid particles stay -/

theorem forInt_preserves {σ : Type} (P : σ → Prop) (a b : Int) (body : Int → σ → Option σ)
    (s s' : σ) (h0 : P s) (hstep : ∀ x u v, P u → body x u = some v → P v)
    (h : forInt a b body s = some s') : P s' := by
  rw [GameModel.forInt_eq_forRange] at h
  exact forRange_preserves (fun _ u => P u) _ _ s s' h0
    (fun k u v _ hu hv => hstep _ u v hu hv) h

namespace GameModel

theorem SameParticles.refl (a : GameModel) : SameParticles a a := ⟨rfl, rfl, rfl, rfl, rfl⟩

theorem SameParticles.trans {a b c : GameModel} (h1 : SameParticles a b)
    (h2 : SameParticles b c) : SameParticles a c :=
  ⟨h2.1.trans h1.1, h2.2.1.trans h1.2.1, h2.2.2.1.trans h1.2.2.1,
    h2.2.2.2.1.trans h1.2.2.2.1, h2.2.2.2.2.trans h1.2.2.2.2⟩

theorem IronKept.of_same {i : Nat} {pos : Vec2} {a b : GameModel} (h : IronKept i pos a)
    (hs : SameParticles a b) : IronKept i pos b := by
  obtain ⟨h1, h2, h3, h4⟩ := h
  obtain ⟨-, s1, s2, s3, s4⟩ := hs
  exact ⟨by rw [s1]; exact h1, by rw [s2]; exact h2, by rw [s3]; exact h3, by rw [s4]; exact h4⟩

/-- A loop whose iterations keep the particles keeps the particles. -/
theorem forRange_same (n : Nat) (body : Nat → GameModel → Option GameModel)
    (a b : GameModel) (hstep : ∀ k u v, body k u = some v → SameParticles u v)
    (h : forRange n body a = some b) : SameParticles a b :=
  forRange_preserves (fun _ u => SameParticles a u) n body a b (SameParticles.refl a)
    (fun k u v _ hu hv => hu.trans (hstep k u v hv)) h

theorem compute_heat_step_same (E : Env) (ip : Nat) (a b : GameModel)
    (h : compute_heat_step E ip a = some b) : SameParticles a b := by
  simp only [compute_heat_step, Option.bind_eq_bind, Option.pure_def, Option.bind_eq_some,
    Option.some.injEq] at h
  obtain ⟨_, -, _, -, _, -, _, -, _, -, _, -, _, -, _, -, rfl⟩ := h
  exact ⟨rfl, rfl, rfl, rfl, rfl⟩

theorem compute_heat_same (E : Env) (a b : GameModel) (h : a.compute_heat E = some b) :
    SameParticles a b :=
  forRange_same _ _ a b (compute_heat_step_same E) h

theorem constraint_solid_step_same (ip : Nat) (a b : GameModel)
    (h : constraint_solid_step ip a = some b) : SameParticles a b := by
  simp only [constraint_solid_step, Option.bind_eq_bind, Option.pure_def, Option.bind_eq_some]
    at h
  obtain ⟨ty, -, h⟩ := h
  split_ifs at h
  · simp only [Option.bind_eq_some, Option.some.injEq] at h
    obtain ⟨_, -, rfl⟩ := h
    exact ⟨rfl, rfl, rfl, rfl, rfl⟩
  · simp only [Option.some.injEq] at h
    subst h
    exact SameParticles.refl _

theorem constraint_solid_same (a b : GameModel) (h : a.constraint_solid = some b) :
    SameParticles a b :=
  forRange_same _ _ a b constraint_solid_step_same h

end GameModel

namespace GameModel

theorem sample_acc_air_g_same (E : Env) (a : GameModel) (ip : Nat) (r : FVec2 × GameModel)
    (h : sample_acc_air_g E a ip = some r) : SameParticles a r.2 := by
  simp only [sample_acc_air_g, Option.bind_eq_bind, Option.pure_def, Option.bind_eq_some] at h
  obtain ⟨ty, -, h⟩ := h
  split_ifs at h
  · simp only [Option.some.injEq] at h
    subst h
    exact SameParticles.refl _
  · simp only [Option.bind_eq_some, Option.some.injEq] at h
    obtain ⟨_, -, _, -, _, -, _, -, _, -, rfl⟩ := h
    exact ⟨rfl, rfl, rfl, rfl, rfl⟩

theorem liquid_advance_same (E : Env) (a b : GameModel) (ip : Nat) (acc : FVec2)
    (h : liquid_advance E a ip acc = some b) : SameParticles a b := by
  simp only [liquid_advance, Option.bind_eq_bind, Option.pure_def, Option.bind_eq_some,
    Option.some.injEq] at h
  obtain ⟨_, -, _, -, _, -, _, -, rfl⟩ := h
  exact ⟨rfl, rfl, rfl, rfl, rfl⟩

theorem liquid_step_same (E : Env) (r : Int) (ip : Nat) (a b : GameModel)
    (h : liquid_step E r ip a = some b) : SameParticles a b := by
  simp only [liquid_step, Option.bind_eq_bind, Option.pure_def, Option.bind_eq_some] at h
  obtain ⟨_, -, _, -, ty, -, h⟩ := h
  split_ifs at h
  · simp only [Option.some.injEq] at h
    subst h
    exact SameParticles.refl _
  · simp only [Option.bind_eq_some] at h
    obtain ⟨s, -, q, hq, hadv⟩ := h
    have h1 := sample_acc_air_g_same E _ ip q hq
    have h2 := liquid_advance_same E _ b ip _ hadv
    exact SameParticles.trans (a := a) ⟨h1.1, h1.2.1, h1.2.2.1, h1.2.2.2.1, h1.2.2.2.2⟩ h2

theorem liquid_finish_step_same (E : Env) (ip : Nat) (a b : GameModel)
    (h : liquid_finish_step E ip a = some b) : SameParticles a b := by
  simp only [liquid_finish_step, Option.bind_eq_bind, Option.pure_def, Option.bind_eq_some,
    Option.some.injEq] at h
  obtain ⟨_, -, _, -, _, -, rfl⟩ := h
  exact ⟨rfl, rfl, rfl, rfl, rfl⟩

theorem liquid_seed_step_same (ip : Nat) (s t : GameModel × Int)
    (h : liquid_seed_step ip s = some t) : SameParticles s.1 t.1 := by
  simp only [liquid_seed_step, Option.bind_eq_bind, Option.pure_def, Option.bind_eq_some,
    Option.some.injEq] at h
  obtain ⟨_, -, _, -, _, -, _, -, _, -, _, -, rfl⟩ := h
  exact ⟨rfl, rfl, rfl, rfl, rfl⟩

end GameModel

namespace GameModel

theorem compute_vel_liquid_same (E : Env) (a b : GameModel)
    (h : a.compute_vel_liquid E = some b) : SameParticles a b := by
  simp only [compute_vel_liquid, Option.bind_eq_bind, Option.bind_eq_some] at h
  obtain ⟨s, hs, m2, hm2, hfin⟩ := h
  have h1 : SameParticles a s.1 := by
    have := forRange_preserves
      (fun _ (u : GameModel × Int) => SameParticles a u.1) _ liquid_seed_step _ s
      ⟨rfl, rfl, rfl, rfl, rfl⟩
      (fun k u v _ hu hv => hu.trans (liquid_seed_step_same k u v hv)) hs
    exact this
  have h2 : SameParticles s.1 m2 :=
    forRange_same _ _ s.1 m2 (fun k u v hv =>
      SameParticles.trans (b := { u with liquid_buf := { u.liquid_buf with
        lp_rho := [], lp_p := [] } }) ⟨rfl, rfl, rfl, rfl, rfl⟩
        (forRange_same _ _ _ v (liquid_step_same E _) hv)) hm2
  exact (h1.trans h2).trans (forRange_same _ _ m2 b (liquid_finish_step_same E) hfin)

theorem compute_vel_same (E : Env) (a b : GameModel) (h : a.compute_vel E = some b) :
    SameParticles a b := by
  simp only [compute_vel, Option.bind_eq_bind, Option.bind_eq_some] at h
  obtain ⟨m1, h1, h2⟩ := h
  exact (compute_vel_liquid_same E a m1 h1).trans (constraint_solid_same m1 b h2)

theorem air_flow_step_same (E : Env) (i : Nat) (a b : GameModel)
    (h : air_flow_step E i a = some b) : SameParticles a b := by
  simp only [air_flow_step, Option.bind_eq_bind, Option.pure_def, Option.bind_eq_some] at h
  obtain ⟨_, -, h⟩ := h
  split_ifs at h
  · simp only [Option.some.injEq] at h
    subst h
    exact SameParticles.refl _
  · obtain ⟨ty, -, h⟩ := Option.bind_eq_some.1 h
    obtain ⟨ax, -, h⟩ := Option.bind_eq_some.1 h
    obtain ⟨ay, -, h⟩ := Option.bind_eq_some.1 h
    split_ifs at h
    · obtain ⟨v_p, -, h⟩ := Option.bind_eq_some.1 h
      obtain ⟨diff, -, h⟩ := Option.bind_eq_some.1 h
      obtain ⟨vx, -, h⟩ := Option.bind_eq_some.1 h
      obtain ⟨vy, -, h⟩ := Option.bind_eq_some.1 h
      simp only [Option.some.injEq] at h
      subst h
      exact ⟨rfl, rfl, rfl, rfl, rfl⟩
    · obtain ⟨diff, -, h⟩ := Option.bind_eq_some.1 h
      obtain ⟨vx, -, h⟩ := Option.bind_eq_some.1 h
      obtain ⟨vy, -, h⟩ := Option.bind_eq_some.1 h
      simp only [Option.some.injEq] at h
      subst h
      exact ⟨rfl, rfl, rfl, rfl, rfl⟩

theorem compute_air_flow_same (E : Env) (a b : GameModel)
    (h : a.compute_air_flow E = some b) : SameParticles a b := by
  simp only [compute_air_flow, Option.bind_eq_bind, Option.pure_def, Option.bind_eq_some,
    Option.some.injEq] at h
  obtain ⟨m1, h1, rfl⟩ := h
  exact (forRange_same _ _ a m1 (air_flow_step_same E) h1).trans ⟨rfl, rfl, rfl, rfl, rfl⟩

theorem change_heat_step_same (E : Env) (x y : Int) (a b : GameModel)
    (h : a.change_heat_step E x y = some b) : SameParticles a b := by
  unfold change_heat_step at h
  split_ifs at h
  · simp only [Option.bind_eq_bind, Option.pure_def, Option.bind_eq_some] at h
    obtain ⟨lst, -, h⟩ := h
    split_ifs at h
    · simp only [Option.bind_eq_some, Option.some.injEq] at h
      obtain ⟨_, -, rfl⟩ := h
      exact ⟨rfl, rfl, rfl, rfl, rfl⟩
    · simp only [Option.some.injEq] at h
      subst h
      exact SameParticles.refl _
  · simp only [Option.pure_def, Option.some.injEq] at h
    subst h
    exact SameParticles.refl _

theorem handle_change_heat_same (E : Env) (a b : GameModel)
    (h : a.handle_change_heat E = some b) : SameParticles a b := by
  unfold handle_change_heat at h
  split_ifs at h
  · simp only [Option.bind_eq_bind, Option.pure_def, Option.bind_eq_some,
      Option.some.injEq] at h
    obtain ⟨m1, h1, rfl⟩ := h
    have := forInt_preserves (fun u => SameParticles a u) _ _ _ a m1 (SameParticles.refl a)
      (fun x u v hu hv => forInt_preserves (fun w => SameParticles a w) _ _ _ u v hu
        (fun y p q hp hq => hp.trans (change_heat_step_same E x y p q hq)) hv) h1
    exact this.trans ⟨rfl, rfl, rfl, rfl, rfl⟩
  · simp only [Option.pure_def, Option.some.injEq] at h
    subst h
    exact SameParticles.refl _

end GameModel

namespace GameModel

/-- The snapshot of `prepare` holds the type and the position of every current particle. -/
theorem prepare_copies (a b : GameModel) (i : Nat) (ty : ParticleType) (pos : Vec2)
    (hi : i < a.state_cur.particles) (hty : a.state_cur.p_type[i]? = some ty)
    (hpos : a.state_cur.p_pos[i]? = some pos) (h : a.prepare = some b) :
    b.state_cur = a.state_cur ∧ b.state_next.p_type[i]? = some ty ∧
    b.state_next.p_pos[i]? = some pos ∧ b.state_next.particles = a.state_cur.particles := by
  simp only [prepare, Option.bind_eq_bind, Option.pure_def, Option.bind_eq_some,
    Option.some.injEq] at h
  obtain ⟨nx, hnx, rfl⟩ := h
  have key := forRange_preserves
    (fun k (s : StateNext) => s.particles = a.state_cur.particles ∧
      ∀ j : Nat, j < k → s.p_type[j]? = a.state_cur.p_type[j]? ∧
        s.p_pos[j]? = a.state_cur.p_pos[j]?)
    a.state_cur.particles (prepare_step a.state_cur) _ nx
    ⟨rfl, fun j hj => by omega⟩ ?_ hnx
  · obtain ⟨hp, hcols⟩ := key
    obtain ⟨e1, e2⟩ := hcols i hi
    exact ⟨rfl, by rw [e1, hty], by rw [e2, hpos], hp⟩
  · intro k s t _ ⟨hp, hcols⟩ hstep
    simp only [prepare_step, Option.bind_eq_bind, Option.pure_def, Option.bind_eq_some,
      Option.some.injEq] at hstep
    obtain ⟨ty', hty', p_type, hpt, pos', hpos', p_pos, hpp, _, -, _, -, _, -, _, -, rfl⟩ :=
      hstep
    obtain ⟨hl1, rfl⟩ := setAt_eq_some hpt
    obtain ⟨hl2, rfl⟩ := setAt_eq_some hpp
    refine ⟨hp, fun j hj => ?_⟩
    rcases Nat.lt_or_ge j k with hjk | hjk
    · obtain ⟨e1, e2⟩ := hcols j hjk
      exact ⟨by simp only; rw [List.getElem?_set_ne (by omega), e1],
        by simp only; rw [List.getElem?_set_ne (by omega), e2]⟩
    · have : j = k := by omega
      subst this
      exact ⟨by simp only; rw [List.getElem?_set_self hl1, hty'],
        by simp only; rw [List.getElem?_set_self hl2, hpos']⟩

theorem position_store_particles (E : Env) (m m' : GameModel) (ip : Nat) (pos : Vec2)
    (h : position_store E m ip pos = some m') :
    m'.state_next.particles = m.state_next.particles := by
  simp only [position_store, Option.bind_eq_bind, Option.pure_def] at h
  obtain ⟨p_pos, -, h⟩ := Option.bind_eq_some.1 h
  split_ifs at h
  · obtain ⟨p_type, -, h⟩ := Option.bind_eq_some.1 h
    simp only [Option.some.injEq] at h
    subst h
    rfl
  · simp only [Option.some_bind, Option.some.injEq] at h
    subst h
    rfl

theorem compute_position_step_particles (E : Env) (m m' : GameModel) (ip : Nat)
    (h : compute_position_step E ip m = some m') :
    m'.state_next.particles = m.state_next.particles := by
  simp only [compute_position_step, Option.bind_eq_bind, Option.pure_def] at h
  obtain ⟨cur_type, -, h⟩ := Option.bind_eq_some.1 h
  split_ifs at h with hiron
  · simp only [Option.some.injEq] at h
    subst h
    rfl
  · obtain ⟨v, -, h⟩ := Option.bind_eq_some.1 h
    obtain ⟨pos_old, -, h⟩ := Option.bind_eq_some.1 h
    obtain ⟨pos_new, -, h⟩ := Option.bind_eq_some.1 h
    obtain ⟨det, -, h⟩ := Option.bind_eq_some.1 h
    split_ifs at h with hcol
    · obtain ⟨p_vel, -, h⟩ := Option.bind_eq_some.1 h
      have hp := position_store_particles E _ m' ip _ h
      exact hp
    · simp only [Option.some_bind] at h
      have hp := position_store_particles E _ m' ip _ h
      exact hp

/-- An iteration of `compute_position` leaves an Iron particle where it is, whether the
iteration is its own or that of another particle. -/
theorem compute_position_step_kept (E : Env) (ip i : Nat) (pos : Vec2) (a b : GameModel)
    (hk : IronKept i pos a) (h : compute_position_step E ip a = some b) :
    IronKept i pos b := by
  obtain ⟨k1, k2, k3, k4⟩ := hk
  by_cases hip : ip = i
  · subst hip
    simp only [compute_position_step, k1, Option.bind_eq_bind, Option.some_bind, if_true,
      Option.pure_def, Option.some.injEq] at h
    subst h
    exact ⟨k1, k2, k3, k4⟩
  · obtain ⟨hcur, -, -, hcols, -⟩ := compute_position_step_spec E a b ip h
    obtain ⟨e1, e2⟩ := hcols i (fun h => hip h.symm)
    exact ⟨by rw [hcur]; exact k1, by rw [e2]; exact k2, by rw [e1]; exact k3,
      by rw [compute_position_step_particles E a b ip h]; exact k4⟩

theorem compute_position_kept (E : Env) (i : Nat) (pos : Vec2) (a b : GameModel)
    (hk : IronKept i pos a) (h : a.compute_position E = some b) : IronKept i pos b :=
  forRange_preserves (fun _ u => IronKept i pos u) _ _ a b hk
    (fun k u v _ hu hv => compute_position_step_kept E k i pos u v hu hv) h

end GameModel

namespace GameModel

theorem new_particle_step_kept (E : Env) (x y : Int) (i : Nat) (pos : Vec2) (a b : GameModel)
    (hk : IronKept i pos a) (h : a.new_particle_step E x y = some b) : IronKept i pos b := by
  obtain ⟨k1, k2, k3, k4⟩ := hk
  unfold new_particle_step at h
  split_ifs at h
  · simp only [Option.bind_eq_bind, Option.pure_def] at h
    obtain ⟨lst, -, h⟩ := Option.bind_eq_some.1 h
    split_ifs at h
    · simp only [Option.some.injEq] at h
      subst h
      have h2 := lt_length_of_getElem?_eq_some k2
      have h3 := lt_length_of_getElem?_eq_some k3
      refine ⟨k1, ?_, ?_, ?_⟩
      · simp only
        rw [List.getElem?_append_left h2]; exact k2
      · simp only
        rw [List.getElem?_append_left h3]; exact k3
      · simp only
        omega
    · simp only [Option.some.injEq] at h
      subst h
      exact ⟨k1, k2, k3, k4⟩
  · simp only [Option.pure_def, Option.some.injEq] at h
    subst h
    exact ⟨k1, k2, k3, k4⟩

theorem handle_new_particles_kept (E : Env) (i : Nat) (pos : Vec2) (a b : GameModel)
    (hk : IronKept i pos a) (h : a.handle_new_particles E = some b) : IronKept i pos b := by
  unfold handle_new_particles at h
  split_ifs at h
  · simp only [Option.bind_eq_bind, Option.pure_def, Option.bind_eq_some,
      Option.some.injEq] at h
    obtain ⟨m1, h1, rfl⟩ := h
    have := forInt_preserves (fun u => IronKept i pos u) _ _ _ a m1 hk
      (fun x u v hu hv => forInt_preserves (fun w => IronKept i pos w) _ _ _ u v hu
        (fun y p q hp hq => new_particle_step_kept E x y i pos p q hp hq) hv) h1
    exact this
  · simp only [Option.pure_def, Option.some.injEq] at h
    subst h
    exact hk

/-- After `constraint_solid` the next-generation velocity of every Iron particle is zero. -/
theorem constraint_solid_zero (a b : GameModel) (i : Nat) (hi : i < a.state_cur.particles)
    (hty : a.state_cur.p_type[i]? = some ParticleType.Iron)
    (h : a.constraint_solid = some b) :
    b.state_next.p_vel[i]? = some (some 0, some 0) := by
  have key := forRange_preserves
    (fun k (s : GameModel) => s.state_cur.p_type = a.state_cur.p_type ∧
      (i < k → s.state_next.p_vel[i]? = some (some 0, some 0)))
    a.state_cur.particles constraint_solid_step a b ⟨rfl, fun h => by omega⟩ ?_ h
  · exact key.2 hi
  · intro k s t _ ⟨hs, hz⟩ hstep
    simp only [constraint_solid_step, Option.bind_eq_bind, Option.pure_def] at hstep
    obtain ⟨ty, hk, hstep⟩ := Option.bind_eq_some.1 hstep
    split_ifs at hstep with hiron
    · obtain ⟨p_vel, hpv, hstep⟩ := Option.bind_eq_some.1 hstep
      simp only [Option.some.injEq] at hstep
      subst hstep
      obtain ⟨hl, rfl⟩ := setAt_eq_some hpv
      refine ⟨hs, fun hik => ?_⟩
      simp only
      rcases Nat.lt_or_ge i k with h1 | h1
      · rw [List.getElem?_set_ne (by omega)]; exact hz h1
      · have : i = k := by omega
        subst this
        exact List.getElem?_set_self hl
    · simp only [Option.some.injEq] at hstep
      subst hstep
      refine ⟨hs, fun hik => ?_⟩
      rcases Nat.lt_or_ge i k with h1 | h1
      · exact hz h1
      · have : i = k := by omega
        subst this
        rw [hs, hty] at hk
        simp only [Option.some.injEq] at hk
        exact absurd hk.symm hiron

theorem compute_vel_zero (E : Env) (a b : GameModel) (i : Nat) (hi : i < a.state_cur.particles)
    (hty : a.state_cur.p_type[i]? = some ParticleType.Iron)
    (h : a.compute_vel E = some b) :
    b.state_next.p_vel[i]? = some (some 0, some 0) := by
  simp only [compute_vel, Option.bind_eq_bind, Option.bind_eq_some] at h
  obtain ⟨m1, h1, h2⟩ := h
  obtain ⟨s0, s1, -, -, -⟩ := compute_vel_liquid_same E a m1 h1
  exact constraint_solid_zero m1 b i (by rw [s0]; exact hi) (by rw [s1]; exact hty) h2

end GameModel

namespace GameModel

/-- The first loop of `complete`, when it returns, has collected the survivors. -/
theorem complete_scan_sort (m : GameModel) (rb : ReorderBuffer)
    (h : forRange m.state_next.particles (complete_scan_step m) { p_idx := [], sort := [] }
      = some rb) : rb.sort = m.survivors := by
  refine forRange_preserves
    (fun k (r : ReorderBuffer) => r.sort = (List.range k).filter m.is_survivor)
    _ _ _ rb rfl ?_ h
  intro k s t _ hs hstep
  simp only [complete_scan_step, Option.bind_eq_bind, Option.pure_def, Option.bind_eq_some,
    Option.some.injEq] at hstep
  obtain ⟨pos, -, ty, hty, rfl⟩ := hstep
  have hsurv : m.is_survivor k = decide (ty ≠ ParticleType.None) := by
    simp only [is_survivor, List.getD_eq_getElem?_getD, hty, Option.getD_some]
  simp only
  rw [filter_range_succ, hsurv, hs]
  by_cases hne : ty ≠ ParticleType.None
  · simp [hne]
  · simp [hne]

/-- What an iteration of the copy loop of `complete` does to the type and position columns. -/
theorem complete_copy_step_cols (E : Env) (k : Nat) (a b : GameModel)
    (h : complete_copy_step E k a = some b) :
    ∃ (o : Nat) (pos : Vec2) (ty : ParticleType),
      a.reorder_buf.sort[k]? = some o ∧ a.state_next.p_pos[o]? = some pos ∧
      a.state_next.p_type[o]? = some ty ∧
      b.state_cur.p_pos[k]? = some pos ∧ b.state_cur.p_type[k]? = some ty ∧
      (∀ j : Nat, j ≠ k → b.state_cur.p_pos[j]? = a.state_cur.p_pos[j]? ∧
        b.state_cur.p_type[j]? = a.state_cur.p_type[j]?) ∧
      b.reorder_buf = a.reorder_buf ∧ b.state_next = a.state_next ∧
      b.state_cur.particles = a.state_cur.particles := by
  simp only [complete_copy_step, Option.bind_eq_bind, Option.pure_def] at h
  obtain ⟨o, ho, h⟩ := Option.bind_eq_some.1 h
  obtain ⟨pos, hpos, h⟩ := Option.bind_eq_some.1 h
  obtain ⟨p_pos, hpp, h⟩ := Option.bind_eq_some.1 h
  obtain ⟨ty, hty, h⟩ := Option.bind_eq_some.1 h
  obtain ⟨p_type, hpt, h⟩ := Option.bind_eq_some.1 h
  obtain ⟨vel, -, h⟩ := Option.bind_eq_some.1 h
  obtain ⟨p_vel, -, h⟩ := Option.bind_eq_some.1 h
  obtain ⟨heat, -, h⟩ := Option.bind_eq_some.1 h
  obtain ⟨p_heat, -, h⟩ := Option.bind_eq_some.1 h
  obtain ⟨mi, -, h⟩ := Option.bind_eq_some.1 h
  obtain ⟨mb, -, h⟩ := Option.bind_eq_some.1 h
  simp only [Option.some.injEq] at h
  subst h
  obtain ⟨hl1, rfl⟩ := setAt_eq_some hpp
  obtain ⟨hl2, rfl⟩ := setAt_eq_some hpt
  refine ⟨o, pos, ty, ho, hpos, hty, List.getElem?_set_self hl1, List.getElem?_set_self hl2,
    fun j hj => ⟨?_, ?_⟩, rfl, rfl, rfl⟩
  · simp only
    rw [List.getElem?_set_ne (fun h => hj h.symm)]
  · simp only
    rw [List.getElem?_set_ne (fun h => hj h.symm)]

/-- When `complete` returns, every surviving particle of the next generation is a particle of
the new current generation, with its type and position. -/
theorem complete_keeps (E : Env) (a b : GameModel) (hsort : StdSort E.sort) (i : Nat)
    (ty : ParticleType) (pos : Vec2) (hi : i < a.state_next.particles)
    (hty : a.state_next.p_type[i]? = some ty) (hne : ty ≠ ParticleType.None)
    (hpos : a.state_next.p_pos[i]? = some pos) (h : a.complete E = some b) :
    ∃ j : Nat, j < b.state_cur.particles ∧ b.state_cur.p_type[j]? = some ty ∧
      b.state_cur.p_pos[j]? = some pos := by
  simp only [complete, complete_reorder, Option.bind_eq_bind, Option.pure_def,
    Option.bind_eq_some, Option.some.injEq] at h
  obtain ⟨rb, ⟨rb0, hscan, rfl⟩, hloop⟩ := h
  have hs := complete_scan_sort a rb0 hscan
  simp only at hloop
  set srt := E.sort (complete_comp rb0.p_idx) rb0.sort with hsrt
  have hperm : srt.Perm a.survivors := by
    rw [← hs]
    exact (hsort (fun i => rb0.p_idx.getD i 0) rb0.sort).1
  have hmem : i ∈ srt := by
    rw [hperm.mem_iff, mem_survivors]
    refine ⟨hi, ?_⟩
    simp only [is_survivor, List.getD_eq_getElem?_getD, hty, Option.getD_some,
      decide_eq_true_eq]
    exact hne
  obtain ⟨j, hj, hji⟩ := List.getElem_of_mem hmem
  have key := forRange_preserves
    (fun k (s : GameModel) => s.reorder_buf.sort = srt ∧ s.state_next = a.state_next ∧
      s.state_cur.particles = srt.length ∧
      ∀ (q : Nat), q < k → ∀ (o : Nat), srt[q]? = some o →
        s.state_cur.p_type[q]? = a.state_next.p_type[o]? ∧
        s.state_cur.p_pos[q]? = a.state_next.p_pos[o]?)
    srt.length (complete_copy_step E)
    { a with reorder_buf := { rb0 with sort := srt },
             state_cur := a.state_cur.reset srt.length } b
    ⟨rfl, rfl, rfl, fun q hq => by omega⟩ ?_ hloop
  · obtain ⟨-, -, hp, hcols⟩ := key
    obtain ⟨e1, e2⟩ := hcols j hj i (by rw [List.getElem?_eq_getElem hj, hji])
    exact ⟨j, by rw [hp]; exact hj, by rw [e1, hty], by rw [e2, hpos]⟩
  · intro k s t _ ⟨hsb, hsn, hsp, hcols⟩ hstep
    obtain ⟨o, p, y, ho, hp, hy, c1, c2, hothers, f1, f2, f3⟩ :=
      complete_copy_step_cols E k s t hstep
    refine ⟨by rw [f1, hsb], by rw [f2, hsn], by rw [f3, hsp], fun q hq o' ho' => ?_⟩
    rcases Nat.lt_or_ge q k with hqk | hqk
    · obtain ⟨e1, e2⟩ := hcols q hqk o' ho'
      obtain ⟨g1, g2⟩ := hothers q (by omega)
      exact ⟨by rw [g2, e1], by rw [g1, e2]⟩
    · have : q = k := by omega
      subst this
      rw [hsb] at ho
      rw [ho] at ho'
      simp only [Option.some.injEq] at ho'
      subst ho'
      rw [hsn] at hp hy
      exact ⟨by rw [c2, hy], by rw [c1, hp]⟩

end GameModel

theorem exIron_update : exIron.update marchEnv = some exIronAfter := by decide!

theorem exIronAfter_particles :
    exIronAfter.state_cur.p_type = [ParticleType.Iron, ParticleType.Sand] ∧
    exIronAfter.state_cur.p_pos = [(1 / 2, 1 / 2), (3 / 2, 1 / 2)] ∧
    exIronAfter.state_cur.p_vel = [(some (-5 / 2), some 1), (some 0, some 0)] := by
  refine ⟨?_, ?_, ?_⟩ <;> decide!

namespace GameModel

/-- C24: when `update` returns, an Iron particle `i` of the current generation at `pos` is a
particle of the new current generation, of type Iron and at exactly `pos`: no step of the frame
moves or removes it, whatever the brushes, the neighbours and the collisions that hit it.  In
that frame its next-generation velocity is zero immediately after `compute_vel`. -/
theorem iron_stays (E : Env) (m m' : GameModel) (i : Nat) (pos : Vec2)
    (hsort : StdSort E.sort)
    (hi : i < m.state_cur.particles)
    (hty : m.state_cur.p_type[i]? = some ParticleType.Iron)
    (hpos : m.state_cur.p_pos[i]? = some pos)
    (hup : m.update E = some m') :
    (∃ j : Nat, j < m'.state_cur.particles ∧
      m'.state_cur.p_type[j]? = some ParticleType.Iron ∧
      m'.state_cur.p_pos[j]? = some pos) ∧
    (∃ m3 : GameModel,
      ((GameModel.prepare { m with frame_counter := m.frame_counter + 1 }).bind
        (compute_heat E)).bind (compute_vel E) = some m3 ∧
      m3.state_next.p_vel[i]? = some (some 0, some 0) ∧
      m3.state_next.p_type[i]? = some ParticleType.Iron ∧
      m3.state_next.p_pos[i]? = some pos) := by
  simp only [update, Option.bind_eq_bind, Option.bind_eq_some] at hup
  obtain ⟨m1, h1, m2, h2, m3, h3, m4, h4, m5, h5, m6, h6, m7, h7, h8⟩ := hup
  obtain ⟨c1, c2, c3, c4⟩ := prepare_copies { m with frame_counter := m.frame_counter + 1 } m1 i
    ParticleType.Iron pos hi hty hpos h1
  have k1 : IronKept i pos m1 :=
    ⟨by rw [c1]; exact hty, c2, c3, by rw [c4]; exact hi⟩
  have s2 := compute_heat_same E m1 m2 h2
  have k2 := k1.of_same s2
  have k3 := k2.of_same (compute_vel_same E m2 m3 h3)
  have k4 := compute_position_kept E i pos m3 m4 k3 h4
  have k5 := k4.of_same (compute_air_flow_same E m4 m5 h5)
  have k6 := k5.of_same (handle_change_heat_same E m5 m6 h6)
  have k7 := handle_new_particles_kept E i pos m6 m7 k6 h7
  refine ⟨complete_keeps E m7 m' hsort i ParticleType.Iron pos k7.2.2.2 k7.2.1 (by decide)
    k7.2.2.1 h8, m3, ?_, ?_, k3.2.1, k3.2.2.1⟩
  · rw [h1, Option.some_bind, h2, Option.some_bind, h3]
  · refine compute_vel_zero E m2 m3 i ?_ k2.1 h3
    rw [s2.1, c1]
    exact hi

/-- The Iron particle of `exIron`, hit by the sand particle in this frame, is particle `0` of
the new current generation at its old position `(1/2, 1/2)`. -/
theorem iron_stays_witness :
    (∃ j : Nat, j < exIronAfter.state_cur.particles ∧
      exIronAfter.state_cur.p_type[j]? = some ParticleType.Iron ∧
      exIronAfter.state_cur.p_pos[j]? = some (1 / 2, 1 / 2)) ∧
    (∃ m3 : GameModel,
      ((GameModel.prepare { exIron with frame_counter := exIron.frame_counter + 1 }).bind
        (compute_heat marchEnv)).bind (compute_vel marchEnv) = some m3 ∧
      m3.state_next.p_vel[0]? = some (some 0, some 0) ∧
      m3.state_next.p_type[0]? = some ParticleType.Iron ∧
      m3.state_next.p_pos[0]? = some (1 / 2, 1 / 2)) :=
  iron_stays marchEnv exIron exIronAfter 0 (1 / 2, 1 / 2) stdSort_stableSort (by decide)
    rfl rfl exIron_update

end GameModel

end T
